import Mathlib

/-! # Audio packetizers of mkvtoolnix: AC-3 (`p_ac3.cpp`) and MPEG audio (`src/output/p_mp3.cpp`)

A shallow embedding of the two packetizers and the properties claimed of them.

Modelling conventions

* A byte is a natural number; a buffer is a `List byte`.  A C pointer that may be
  `NULL` is an `Option`.
* C `int` values are `Int`; sizes read from a frame header are `Nat` (the header
  tables never hold a negative size).  Integer overflow is not modelled.
* C `double` values are rational numbers; the result of each arithmetic operation
  and of each conversion from an integer is rounded to the nearest `double`
  (`to_double`: 53 significant bits, ties to even; the exponent range is not
  modelled, so there is neither overflow nor underflow).  The cast `(int)x` is
  truncation toward zero (`c_int`).  The one quantity kept exact is the AC-3 frame
  duration `pims`: the code uses its integer part and its order against half
  integers only, and rounding changes neither (theorem `pims_rounding`).
* `malloc` always succeeds, also for 0 bytes.  `realloc` succeeds except where it is
  asked to resize an allocated block to 0 bytes: it then frees the block and
  returns `NULL`, as the C library of the GNU system does, and `add_to_buffer` ends
  the program through `die`.  Failure for want of memory is not modelled.
* The frame locators (`find_ac3_header`, `find_mp3_header`, `decode_mp3_header`) and
  the generic packetizer's synchronisation helpers are not part of the sources at
  hand; they are parameters of the model.
* Diagnostics (`fprintf`, `mxverb`) have no effect on the state and are left out;
  the garbage reports of the MPEG audio packetizer (`mxinfo`, `mxwarn`) are recorded.
-/

namespace Mkv

/-- One byte of stream data. -/
abbrev byte := Nat

/-- The C cast `(int)x` of a `double`: truncation toward zero. -/
def c_int (q : ℚ) : Int := if 0 ≤ q then ⌊q⌋ else ⌈q⌉

/-- Rounding of a rational number to the nearest integer, a tie going to the even
neighbour. -/
def round_even (x : ℚ) : Int :=
  if 2 * Int.fract x < 1 then ⌊x⌋
  else if 1 < 2 * Int.fract x then ⌊x⌋ + 1
  else if ⌊x⌋ % 2 = 0 then ⌊x⌋ else ⌊x⌋ + 1

/-- The `double` nearest to the rational number `q`, a tie going to the even
significand: with `2^(e+52) ≤ |q| < 2^(e+53)` it is the multiple of `2^e` nearest
to `q`.  This is the value of a conversion to `double` and of the exact result of
an arithmetic operation on doubles. -/
def to_double (q : ℚ) : ℚ :=
  if q = 0 then 0
  else
    let e := Int.log 2 |q| - 52
    (round_even (q / (2 : ℚ) ^ e) : ℚ) * (2 : ℚ) ^ e

/-- The product `a * b` of two doubles. -/
def double_mul (a b : ℚ) : ℚ := to_double (a * b)

/-- The quotient `a / b` of two doubles. -/
def double_div (a b : ℚ) : ℚ := to_double (a / b)

/-! ## AC-3 packetizer (`p_ac3.cpp`) -/

/-- The fields of `ac3_header_t` that the packetizer reads: the frame size in
bytes and the bit rate in bits per second. -/
structure ac3_header_t where
  bytes : Nat
  bit_rate : Nat
deriving DecidableEq, Repr

/-- The frame locator `find_ac3_header(buf, size, &header)`: from the buffer and
its size to the position of the first frame header (negative when there is none)
and the decoded header. -/
abbrev ac3_locator := List byte → Int → Int × ac3_header_t

/-- One call of `add_packet(packet, size, timecode)`.  The field `duplicate` is
bookkeeping of the model: it records whether `displacement > 0` held when the
packet was fetched, that is whether `get_ac3_packet` returned the frame without
consuming it. -/
structure ac3_packet_t where
  data : List byte
  size : Nat
  timecode : Int
  duplicate : Bool
deriving DecidableEq, Repr

/-- The state of `ac3_packetizer_c`: its own members, the two members of
`ti->async` it uses, and the packets handed to `add_packet` so far. -/
structure ac3_packetizer_c where
  packetno : Int
  bytes_output : Int
  packet_buffer : Option (List byte)
  buffer_size : Int
  samples_per_sec : Nat
  channels : Int
  bitrate : Int
  displacement : Int
  linear : ℚ
  queue : List ac3_packet_t

/-- The constructor `ac3_packetizer_c::ac3_packetizer_c` (lines 39-49); the
synchronisation values come from the track info `nti`. -/
def ac3_packetizer_c.new (nsamples_per_sec : Nat) (nchannels nbitrate : Int)
    (displacement : Int) (linear : ℚ) : ac3_packetizer_c :=
  { packetno := 0, bytes_output := 0, packet_buffer := none, buffer_size := 0,
    samples_per_sec := nsamples_per_sec, channels := nchannels, bitrate := nbitrate,
    displacement := displacement, linear := linear, queue := [] }

/-- The bytes held in `packet_buffer` (none when the pointer is `NULL`). -/
def ac3_packetizer_c.contents (s : ac3_packetizer_c) : List byte :=
  s.packet_buffer.getD []

/-- The representation invariant of the buffer: `buffer_size` is the number of
bytes held in `packet_buffer`. -/
def ac3_packetizer_c.consistent (s : ac3_packetizer_c) : Prop :=
  s.buffer_size = (s.contents.length : Int)

/-- `ac3_packetizer_c::add_to_buffer` (lines 63-73).  The result is `none` when
the call does not return.  That is so when `realloc` returns `NULL` and line 68
ends the program through `die`: the new size `buffer_size + size` is 0 and
`packet_buffer` is not `NULL` (the block is freed and `NULL` returned), or the new
size is negative (as a `size_t` it is more than can be allocated).  It is also so
for a negative `size`, with which `memcpy` has no defined result. -/
def add_to_buffer (s : ac3_packetizer_c) (buf : List byte) (size : Int) :
    Option ac3_packetizer_c :=
  if size < 0 ∨ s.buffer_size + size < 0 then none
  else if s.packet_buffer.isSome ∧ s.buffer_size + size = 0 then none
  else
    let new_buffer := s.contents.take s.buffer_size.toNat ++ buf.take size.toNat
    some { s with packet_buffer := some new_buffer, buffer_size := s.buffer_size + size }

/-- `ac3_packetizer_c::remove_ac3_packet` (lines 88-104). -/
def remove_ac3_packet (s : ac3_packetizer_c) (pos framesize : Int) :
    ac3_packetizer_c :=
  let new_size := s.buffer_size - (pos + framesize)
  let temp_buf :=
    if new_size ≠ 0 then
      some ((s.contents.drop (pos + framesize).toNat).take new_size.toNat)
    else none
  { s with packet_buffer := temp_buf, buffer_size := new_size }

/-- The nominal frame duration in milliseconds, `pims` of lines 120-121, as the
exact quotient. -/
def pims (h : ac3_header_t) : ℚ :=
  (h.bytes : ℚ) * 1000 / ((h.bit_rate : ℚ) / 8)

/-- The expression `((double)bytes) * 1000.0 / ((double)bit_rate / 8.0)` of lines
120-121 in `double` arithmetic. -/
def pims_double (h : ac3_header_t) : ℚ :=
  double_div (double_mul (to_double (h.bytes : ℚ)) 1000)
    (double_div (to_double (h.bit_rate : ℚ)) 8)

/-- `ac3_packetizer_c::get_ac3_packet` (lines 106-164).  The result is the
returned packet together with the header it was cut from (`none` for a `NULL`
return) and the state afterwards. -/
def get_ac3_packet (find_ac3_header : ac3_locator) (s : ac3_packetizer_c) :
    Option (List byte × ac3_header_t) × ac3_packetizer_c :=
  match s.packet_buffer with
  | none => (none, s)
  | some packet_buffer =>
    let pos := (find_ac3_header packet_buffer s.buffer_size).1
    let ac3header := (find_ac3_header packet_buffer s.buffer_size).2
    if pos < 0 then (none, s)
    else if pos + (ac3header.bytes : Int) > s.buffer_size then (none, s)
    else
      let pims := pims ac3header
      if s.displacement < 0 then
        let d := s.displacement + c_int pims
        let d := if (d : ℚ) > -(pims / 2) then 0 else d
        (none, remove_ac3_packet { s with displacement := d } pos ac3header.bytes)
      else
        let buf := (packet_buffer.drop pos.toNat).take ac3header.bytes
        if s.displacement > 0 then
          let d := s.displacement - c_int pims
          let d := if (d : ℚ) < pims / 2 then 0 else d
          (some (buf, ac3header), { s with displacement := d })
        else
          (some (buf, ac3header), remove_ac3_packet s pos ac3header.bytes)

/-- Modelled from the spec: the macro `EMOREDATA` is defined outside the sources
at hand; the drive step signals "more data needed" with it.  Only its being
different from 0 is used. -/
def EMOREDATA : Int := -1

/-- The expression `(u_int64_t)(1000.0 * packetno * 1536 * ti->async.linear /
samples_per_sec)` of lines 212-213: the operands converted to `double`, the
operations done from left to right in `double` arithmetic, the result cast. -/
def ac3_timecode_at (linear : ℚ) (samples_per_sec : Nat) (packetno : Int) : Int :=
  c_int (double_div
    (double_mul (double_mul (double_mul 1000 (to_double (packetno : ℚ))) 1536) linear)
    (to_double (samples_per_sec : ℚ)))

/-- The timecode argument of `add_packet` in `process` (lines 212-213). -/
def ac3_timecode (s : ac3_packetizer_c) : Int :=
  ac3_timecode_at s.linear s.samples_per_sec s.packetno

/-- The loop of `process` (lines 210-216), run for at most `fuel` iterations.
The flag tells whether the loop ended (`get_ac3_packet` returned `NULL`) within
these iterations. -/
def process_loop (find_ac3_header : ac3_locator) :
    Nat → ac3_packetizer_c → ac3_packetizer_c × Bool
  | 0, s => (s, false)
  | fuel + 1, s =>
    match get_ac3_packet find_ac3_header s with
    | (none, s1) => (s1, true)
    | (some (packet, ac3header), s1) =>
      let s2 := { s1 with
        queue := s1.queue ++
          [{ data := packet, size := ac3header.bytes, timecode := ac3_timecode s1,
             duplicate := decide (0 < s.displacement) }],
        packetno := s1.packetno + 1 }
      process_loop find_ac3_header fuel s2

/-- `ac3_packetizer_c::process` (lines 204-222): the state afterwards and the
returned code, or `none` when the call does not return: `add_to_buffer` does not
return, or the loop has not ended after `fuel` iterations. -/
def process (find_ac3_header : ac3_locator) (fuel : Nat) (s : ac3_packetizer_c)
    (buf : List byte) (size : Int) (last_frame : Int) :
    Option (ac3_packetizer_c × Int) :=
  match add_to_buffer s buf size with
  | none => none
  | some s0 =>
    match process_loop find_ac3_header fuel s0 with
    | (s1, true) => some (s1, if last_frame ≠ 0 then 0 else EMOREDATA)
    | (_, false) => none

/-- A sequence of `process` calls, one per input chunk (with its `last_frame`
flag), each chunk passed with its length. -/
def process_all (find_ac3_header : ac3_locator) (fuel : Nat) :
    ac3_packetizer_c → List (List byte × Int) → Option ac3_packetizer_c
  | s, [] => some s
  | s, c :: cs =>
    match process find_ac3_header fuel s c.1 c.1.length c.2 with
    | none => none
    | some (s1, _) => process_all find_ac3_header fuel s1 cs

/-- The state after `n` successive calls of `get_ac3_packet`. -/
def get_ac3_packet_iter (find_ac3_header : ac3_locator) :
    Nat → ac3_packetizer_c → ac3_packetizer_c
  | 0, s => s
  | n + 1, s => get_ac3_packet_iter find_ac3_header n (get_ac3_packet find_ac3_header s).2

/-- The frame on which a call of `get_ac3_packet` acts: the position and header
reported by the locator, when the buffer is there, a header was found and the
whole frame is buffered (the three early returns of lines 112-118 not taken). -/
def located (find_ac3_header : ac3_locator) (s : ac3_packetizer_c) :
    Option (Int × ac3_header_t) :=
  match s.packet_buffer with
  | none => none
  | some packet_buffer =>
    let r := find_ac3_header packet_buffer s.buffer_size
    if r.1 < 0 then none
    else if r.1 + (r.2.bytes : Int) > s.buffer_size then none
    else some r

/-- The durations `pims` of the frames on which `n` successive calls of
`get_ac3_packet` act, when each of these calls finds a fully buffered frame. -/
def durations (find_ac3_header : ac3_locator) :
    Nat → ac3_packetizer_c → Option (List ℚ)
  | 0, _ => some []
  | n + 1, s =>
    match located find_ac3_header s with
    | none => none
    | some r =>
      (durations find_ac3_header n (get_ac3_packet find_ac3_header s).2).map
        (fun ds => pims r.2 :: ds)

/-- The number of frames that successive calls of `get_ac3_packet` drop before
the first call that returns a packet; `none` when a call finds no fully buffered
frame first, or when `fuel` calls do not get that far. -/
def drops_before_emit (find_ac3_header : ac3_locator) :
    Nat → ac3_packetizer_c → Option Nat
  | 0, _ => none
  | fuel + 1, s =>
    match located find_ac3_header s with
    | none => none
    | some _ =>
      if s.displacement < 0 then
        (drops_before_emit find_ac3_header fuel (get_ac3_packet find_ac3_header s).2).map
          (fun k => k + 1)
      else some 0

/-- The rule of section 4.4 of the specification, as it is worded there, on a
displacement `D` and a frame duration `d`, both rational numbers of
milliseconds. -/
def section_4_4_rule (D d : ℚ) : ℚ :=
  if D < 0 then
    if D + d > -(d / 2) then 0 else D + d
  else if D > 0 then
    if D - d < d / 2 then 0 else D - d
  else D

/-- The rule of section 4.4 with the duration truncated to whole milliseconds
where it is added to or subtracted from the displacement (the comparison with
half the duration keeps the exact duration). -/
def section_4_4_rule_truncated (D : Int) (d : ℚ) : Int :=
  if D < 0 then
    if ((D + c_int d : Int) : ℚ) > -(d / 2) then 0 else D + c_int d
  else if D > 0 then
    if ((D - c_int d : Int) : ℚ) < d / 2 then 0 else D - c_int d
  else D

/-- The number of dropped frames as the specification states it:
`ceil((|D| - d/2) / d)`. -/
def dropped_frames_claimed (D : Int) (d : ℚ) : Int :=
  ⌈((|D| : Int) - d / 2) / d⌉

/-- The number of dropped frames with the duration truncated to whole
milliseconds in the divisor, the bound itself excluded and at least one frame:
`max 1 (floor((|D| - d/2) / trunc d) + 1)`. -/
def dropped_frames (D : Int) (d : ℚ) : Nat :=
  (max 1 (⌊((|D| : Int) - d / 2) / (c_int d : ℚ)⌋ + 1)).toNat

/-- A locator for a stream of back-to-back frames of one size and bit rate: it
reports a frame at position 0 whenever the buffer holds at least one whole
frame. -/
def constant_frames (bytes bit_rate : Nat) : ac3_locator :=
  fun _ size =>
    if (bytes : Int) ≤ size then (0, { bytes := bytes, bit_rate := bit_rate })
    else (-1, { bytes := bytes, bit_rate := bit_rate })

/-- A locator for examples that reports a frame of 0 bytes at the end of what the
buffer holds. -/
def empty_frames : ac3_locator :=
  fun _ size => (size, { bytes := 0, bit_rate := 32000 })

/-- The `double` nearest to 0.96, the speed ratio 24/25. -/
def double_0_96 : ℚ := 1080863910568919 / 1125899906842624

/-- A fresh packetizer that has been handed `n` zero bytes, with displacement
`D`: the state in which `add_to_buffer` leaves a fresh packetizer. -/
def zero_filled (n : Nat) (D : Int) : ac3_packetizer_c :=
  { ac3_packetizer_c.new 48000 2 0 D 1 with
    packet_buffer := some (List.replicate n 0), buffer_size := n }

/-- The slice of the input `I` with extent `e = (offset, length)`. -/
def slice (I : List byte) (e : Nat × Nat) : List byte :=
  (I.drop e.1).take e.2

/-- The packets handed to `add_packet` that were emitted with consumption, in
emission order: those not fetched while `displacement > 0`. -/
def consumed_packets (s : ac3_packetizer_c) : List ac3_packet_t :=
  s.queue.filter (fun p => !p.duplicate)

/-- A locator all of whose frames have at least one byte. -/
def nonempty_frames (find_ac3_header : ac3_locator) : Prop :=
  ∀ buf size, 0 ≤ (find_ac3_header buf size).1 → 1 ≤ (find_ac3_header buf size).2.bytes

/-- The input seen so far is `I`, its first `k` bytes are consumed, the buffer
holds the rest, and the packets emitted with consumption are the slices of `I`
with the extents `ext`, which lie before `k`, one after the other. -/
def slices_invariant (find_ac3_header : ac3_locator) (I : List byte)
    (s : ac3_packetizer_c) : Prop :=
  s.consistent ∧
  ∃ (k : Nat) (ext : List (Nat × Nat)),
    k ≤ I.length ∧ s.contents = I.drop k ∧
    (consumed_packets s).map (fun p => (p.data, p.size)) =
      ext.map (fun e => (slice I e, e.2)) ∧
    (∀ e ∈ ext, e.1 + e.2 ≤ k) ∧
    ext.Pairwise (fun a b => a.1 + a.2 ≤ b.1) ∧
    (nonempty_frames find_ac3_header → ∀ e ∈ ext, 1 ≤ e.2)

/-! ## MPEG audio packetizer (`src/output/p_mp3.cpp`) -/

/-- The fields of `mp3_header_t` that the packetizer reads. -/
structure mp3_header_t where
  framesize : Nat
  is_tag : Bool
  samples_per_channel : Int
  layer : Int
  sampling_frequency : Int
deriving DecidableEq, Repr

/-- The collaborators of `mp3_packetizer_c` that live outside the sources at
hand, over the state `G` of the base class `generic_packetizer_c`:
`find_mp3_header(buf, size)` (negative when no header is found),
`decode_mp3_header(buf, &header)`, the synchronisation helpers
`needs_negative_displacement`, `needs_positive_displacement` and `displace`, and
`handle_avi_audio_sync(bytes, vbr)` (returning `-1` when it resolves no delay). -/
structure mp3_env (G : Type) where
  find_mp3_header : List byte → Int → Int
  decode_mp3_header : List byte → mp3_header_t
  needs_negative_displacement : G → ℚ → Bool
  needs_positive_displacement : G → ℚ → Bool
  displace : G → ℚ → G
  handle_avi_audio_sync : G → Int → Bool → G × Int

/-- What `handle_garbage` reports for a span of garbage: either the span is
turned into a delay (`mxinfo`, lines 68-71) or it is skipped (`mxwarn`, lines
76-78). -/
inductive garbage_report where
  | delay (bytes offset : Int)
  | skipped (bytes : Int)
deriving DecidableEq, Repr

/-- The number of garbage bytes a report speaks of. -/
def garbage_report.bytes : garbage_report → Int
  | .delay b _ => b
  | .skipped b => b

/-- The state of `mp3_packetizer_c`: its members, the members of the track info
it reads, the state `base` of the base class, and a record of what the
packetizer did to its surroundings: the codec id and default duration it set,
the number of `rerender_track_headers` calls, the garbage reports, and the
windows `(start, length)` of the buffer it passed to `find_mp3_header`. -/
structure mp3_packetizer_c (G : Type) where
  byte_buffer : List byte
  samples_per_sec : Nat
  channels : Int
  bytes_output : Int
  packetno : Int
  spf : Int
  codec_id_set : Bool
  valid_headers_found : Bool
  avi_block_align : Int
  linear : ℚ
  base : G
  codec_id : String
  track_default_duration : Int
  header_renders : Nat
  reports : List garbage_report
  searches : List (Int × Int)

/-- The codec id macro of `matroska.h`, line 31. -/
def MKV_A_MP3 : String := "A_MPEG/L3"

/-- Modelled from the spec: `byte_buffer_c::remove` is outside the sources at
hand; section 4.1 describes it as prefix removal, the remaining bytes shifted to
offset 0. -/
def byte_buffer_remove {G : Type} (s : mp3_packetizer_c G) (num : Int) :
    mp3_packetizer_c G :=
  { s with byte_buffer := s.byte_buffer.drop num.toNat }

/-- Modelled from the spec: `byte_buffer_c::get_size` is outside the sources at
hand; section 4.1 describes it as the current number of bytes. -/
def byte_buffer_size {G : Type} (s : mp3_packetizer_c G) : Int :=
  (s.byte_buffer.length : Int)

/-- `mp3_packetizer_c::handle_garbage` (lines 57-79). -/
def handle_garbage {G : Type} (env : mp3_env G) (s : mp3_packetizer_c G)
    (bytes : Int) : mp3_packetizer_c G :=
  if s.packetno = 0 then
    let r := env.handle_avi_audio_sync s.base bytes
      (decide (s.avi_block_align % 384 = 0) || decide (s.avi_block_align % 576 = 0))
    if r.2 ≠ -1 then
      { s with base := r.1, reports := s.reports ++ [.delay bytes r.2] }
    else
      { s with base := r.1, reports := s.reports ++ [.skipped bytes] }
  else
    { s with reports := s.reports ++ [.skipped bytes] }

/-- A call `find_mp3_header(&buf[start], len)`: the result, and the state with
the window noted. -/
def search {G : Type} (env : mp3_env G) (s : mp3_packetizer_c G)
    (buf : List byte) (start len : Int) : Int × mp3_packetizer_c G :=
  (env.find_mp3_header (buf.drop start.toNat) len,
   { s with searches := s.searches ++ [(start, len)] })

/-- The loop of `get_mp3_packet` that looks for the first header and removes tag
frames (lines 90-105), for at most `fuel` rounds.  The outer `none` means the
loop has not ended within these rounds; otherwise the result is the position and
header at the `break` (`none` for `return NULL`) and the state. -/
def find_frame {G : Type} (env : mp3_env G) :
    Nat → mp3_packetizer_c G → Option (Option (Int × mp3_header_t) × mp3_packetizer_c G)
  | 0, _ => none
  | fuel + 1, s =>
    let buf := s.byte_buffer
    let size := byte_buffer_size s
    let r := search env s buf 0 size
    let pos := r.1
    if pos < 0 then some (none, r.2)
    else
      let mp3header := env.decode_mp3_header (buf.drop pos.toNat)
      if pos + (mp3header.framesize : Int) > size then some (none, r.2)
      else if !mp3header.is_tag then some (some (pos, mp3header), r.2)
      else find_frame env fuel (byte_buffer_remove r.2 ((mp3header.framesize : Int) + pos))

/-- The block of `get_mp3_packet` guarded by `!valid_headers_found` (lines
112-152), entered with the position and header at which the first loop ended;
`buf` and `size` are the buffer and its size as that loop last read them.  The
result is the position and header with which the function goes on (`none` for
`return NULL`) and the state. -/
def confirm_headers {G : Type} (env : mp3_env G) (s : mp3_packetizer_c G)
    (buf : List byte) (size : Int) (pos : Int) (mp3header : mp3_header_t) :
    Option (Int × mp3_header_t) × mp3_packetizer_c G :=
  if s.valid_headers_found then (some (pos, mp3header), s)
  else if pos + (mp3header.framesize : Int) + 4 ≥ size then (none, s)
  else
    let r := search env s buf (pos + (mp3header.framesize : Int))
      (size - pos - (mp3header.framesize : Int))
    let pos2 := r.1
    let s := r.2
    if pos2 < 0 then (none, s)
    else if pos2 = 0 then (some (pos, mp3header), { s with valid_headers_found := true })
    else
      let offset := pos + 1
      let r := search env s buf offset (size - offset)
      let pos := r.1
      let s := r.2
      if pos < 0 then (none, s)
      else if offset + pos + (mp3header.framesize : Int) + 4 > size then (none, s)
      else
        let mp3header := env.decode_mp3_header (buf.drop (offset + pos).toNat)
        let r := search env s buf (offset + pos + (mp3header.framesize : Int))
          (size - offset - pos - (mp3header.framesize : Int))
        let pos2 := r.1
        let s := r.2
        if pos2 < 0 then (none, s)
        else if pos2 = 0 then
          let s := handle_garbage env s (offset + pos)
          let s := byte_buffer_remove s (offset + pos)
          (some (0, mp3header), { s with valid_headers_found := true })
        else
          (some (pos, mp3header), { s with valid_headers_found := true })

/-- The block of `get_mp3_packet` guarded by `pos > 0` (lines 154-158): the
bytes before the frame are reported as garbage and removed. -/
def skip_garbage {G : Type} (env : mp3_env G) (s : mp3_packetizer_c G) (pos : Int) :
    mp3_packetizer_c G :=
  if pos > 0 then byte_buffer_remove (handle_garbage env s pos) pos else s

/-- The codec id set for the first packet (lines 162-163): `MKV_A_MP3` with its
last character replaced by the digit of the layer. -/
def layer_codec_id (layer : Int) : String :=
  (MKV_A_MP3.dropRight 1).push (Char.ofNat ((layer + 48) % 256).toNat)

/-- The block of `get_mp3_packet` guarded by `packetno == 0` (lines 160-170). -/
def first_packet_setup {G : Type} (s : mp3_packetizer_c G) (mp3header : mp3_header_t) :
    mp3_packetizer_c G :=
  if s.packetno = 0 then
    let spf := mp3header.samples_per_channel
    { s with
      spf := spf,
      codec_id := layer_codec_id mp3header.layer,
      track_default_duration :=
        if spf ≠ 1152 then
          c_int (double_div
            (double_mul (double_mul 1000000000 (to_double (spf : ℚ))) s.linear)
            (to_double (s.samples_per_sec : ℚ)))
        else s.track_default_duration,
      header_renders := s.header_renders + 1 }
  else s

/-- The frame duration in nanoseconds, `pins` of line 175. -/
def pins {G : Type} (s : mp3_packetizer_c G) (mp3header : mp3_header_t) : ℚ :=
  double_div (double_mul 1000000000 (to_double (s.spf : ℚ)))
    (to_double (mp3header.sampling_frequency : ℚ))

/-- The rest of `get_mp3_packet` (lines 154-207), entered with the position and
header the search settled on.  The outer `none` stands for undefined behaviour:
`memset(buf + 4, 0, framesize - 4)` on a frame of fewer than 4 bytes. -/
def deliver {G : Type} (env : mp3_env G) (s : mp3_packetizer_c G)
    (pos : Int) (mp3header : mp3_header_t) :
    Option (Option (List byte × mp3_header_t) × mp3_packetizer_c G) :=
  let s := skip_garbage env s pos
  let s := first_packet_setup s mp3header
  if (mp3header.framesize : Int) > byte_buffer_size s then some (none, s)
  else
    let pins := pins s mp3header
    if env.needs_negative_displacement s.base pins then
      some (none, byte_buffer_remove { s with base := env.displace s.base (-pins) }
        mp3header.framesize)
    else
      let buf := s.byte_buffer.take mp3header.framesize
      if env.needs_positive_displacement s.base pins then
        if mp3header.framesize < 4 then none
        else
          some (some (buf.take 4 ++ List.replicate (mp3header.framesize - 4) 0, mp3header),
            { s with base := env.displace s.base pins })
      else
        some (some (buf, mp3header), byte_buffer_remove s mp3header.framesize)

/-- `mp3_packetizer_c::get_mp3_packet` (lines 81-207).  The result is the
returned packet with the header filled in (`none` for a `NULL` return) and the
state afterwards; the outer `none` means that the call has no defined result
(the tag loop has not ended within `fuel` rounds, or undefined behaviour). -/
def get_mp3_packet {G : Type} (env : mp3_env G) (fuel : Nat) (s : mp3_packetizer_c G) :
    Option (Option (List byte × mp3_header_t) × mp3_packetizer_c G) :=
  if byte_buffer_size s = 0 then some (none, s)
  else
    match find_frame env fuel s with
    | none => none
    | some (none, s1) => some (none, s1)
    | some (some (pos, mp3header), s1) =>
      match confirm_headers env s1 s1.byte_buffer (byte_buffer_size s1) pos mp3header with
      | (none, s2) => some (none, s2)
      | (some (pos, mp3header), s2) => deliver env s2 pos mp3header

/-- The state in which `get_mp3_packet` asks the synchronisation helpers about a
frame at position `pos` with header `mp3header`: garbage skipped and the first
packet set up. -/
def sync_state {G : Type} (env : mp3_env G) (s : mp3_packetizer_c G) (pos : Int)
    (mp3header : mp3_header_t) : mp3_packetizer_c G :=
  first_packet_setup (skip_garbage env s pos) mp3header

/-- No synchronisation correction is pending for a frame at `pos` with header
`mp3header`: neither helper asks for a displacement when `get_mp3_packet`
consults it. -/
def no_sync_pending {G : Type} (env : mp3_env G) (s : mp3_packetizer_c G) (pos : Int)
    (mp3header : mp3_header_t) : Prop :=
  env.needs_negative_displacement (sync_state env s pos mp3header).base
      (pins (sync_state env s pos mp3header) mp3header) = false ∧
  env.needs_positive_displacement (sync_state env s pos mp3header).base
      (pins (sync_state env s pos mp3header) mp3header) = false

/-! ### A small header format for examples -/

/-- A locator for examples: a header is the byte pair `255, 251`, searched in the
first `len` bytes of the window, and recognised only where at least 4 bytes of
the window remain; `i` is the offset of the window within the search. -/
def sample_scan (i : Nat) : List byte → Nat → Int
  | [], _ => -1
  | b :: rest, len =>
    if len < 4 then -1
    else if b = 255 ∧ rest.head? = some 251 then (i : Int)
    else sample_scan (i + 1) rest (len - 1)

/-- A decoder for examples: the third byte of the header is the frame size;
layer 3 at 44100 Hz with 1152 samples per frame, never a tag. -/
def sample_decode (buf : List byte) : mp3_header_t :=
  { framesize := (buf.drop 2).headD 0, is_tag := false, samples_per_channel := 1152,
    layer := 3, sampling_frequency := 44100 }

/-- Collaborators for examples, over a base class state that is a single
displacement: no displacement is ever asked for, and no delay is resolved from
garbage. -/
def sample_env : mp3_env Int :=
  { find_mp3_header := fun buf len => sample_scan 0 buf len.toNat,
    decode_mp3_header := sample_decode,
    needs_negative_displacement := fun _ _ => false,
    needs_positive_displacement := fun _ _ => false,
    displace := fun g q => g + c_int q,
    handle_avi_audio_sync := fun g _ _ => (g, -1) }

/-- The collaborators `sample_env` with a positive displacement pending: a
duplicate is asked for as long as the displacement is positive. -/
def sample_env_late : mp3_env Int :=
  { sample_env with
    needs_positive_displacement := fun g _ => decide (0 < g),
    displace := fun g q => g - c_int q }

/-- A packetizer as the constructor leaves it (lines 39-52), at 44100 Hz stereo,
holding the bytes `buf`. -/
def sample_packetizer (buf : List byte) (displacement : Int) : mp3_packetizer_c Int :=
  { byte_buffer := buf, samples_per_sec := 44100, channels := 2, bytes_output := 0,
    packetno := 0, spf := 1152, codec_id_set := false, valid_headers_found := false,
    avi_block_align := 0, linear := 1, base := displacement, codec_id := "",
    track_default_duration := 26122448, header_renders := 0, reports := [], searches := [] }

/-- The packetizer `sample_packetizer buf 0` after `packetno` packets have been
handed over and the headers have been confirmed. -/
def sample_packetizer_at (buf : List byte) (packetno : Int) : mp3_packetizer_c Int :=
  { sample_packetizer buf 0 with packetno := packetno, valid_headers_found := true }

/-! ## AC-3 packetizer: the timestamps of the specification -/

/-- The timestamp that the specification gives to the `i`-th packet handed to
`add_packet` (`i` counted from 0): `floor(1000 * i * 1536 * linear / samples_per_sec)`. -/
def ac3_nominal_timecode (linear : ℚ) (samples_per_sec : Nat) (i : Nat) : Int :=
  ⌊1000 * (i : ℚ) * 1536 * linear / (samples_per_sec : ℚ)⌋

/-! ## MPEG audio packetizer: the drive step and the connection test -/

/-- One call of `add_packet(mem, timecode, duration)` in `process` (lines
244-247).  The field `displacement` is bookkeeping of the model: the value of
`ti->async.displacement` when the packet is handed over. -/
structure mp3_packet_t where
  data : List byte
  size : Nat
  timecode : Int
  duration : Int
  displacement : Int
deriving DecidableEq, Repr

/-- Modelled from the spec: `byte_buffer_c::add` is outside the sources at hand; the
specification's section 4.1 describes it as appending at the tail. -/
def byte_buffer_add {G : Type} (s : mp3_packetizer_c G) (data : List byte) (size : Int) :
    mp3_packetizer_c G :=
  { s with byte_buffer := s.byte_buffer ++ data.take size.toNat }

/-- The expression `(int64_t)(1000000000.0 * packetno * spf / samples_per_sec)`
of line 240, in `double` arithmetic from left to right. -/
def mp3_packetno_timecode (spf : Int) (samples_per_sec : Nat) (packetno : Int) : Int :=
  c_int (double_div
    (double_mul (double_mul 1000000000 (to_double (packetno : ℚ))) (to_double (spf : ℚ)))
    (to_double (samples_per_sec : ℚ)))

/-- The timecode that `process` gives to a packet (lines 239-243), from the state
after `get_mp3_packet`, the timecode argument of the call and the current value
of `ti->async.displacement`.  Line 243 converts the 64-bit integer `my_timecode`
to `double`, multiplies it with `ti->async.linear` and casts the product back. -/
def mp3_timecode {G : Type} (s : mp3_packetizer_c G) (timecode displacement : Int) : Int :=
  let my_timecode :=
    if timecode = -1 then mp3_packetno_timecode s.spf s.samples_per_sec s.packetno
    else timecode + displacement
  c_int (double_mul (to_double (my_timecode : ℚ)) s.linear)

/-- The duration that `process` gives to a packet (lines 246-247), in `double`
arithmetic from left to right. -/
def mp3_duration {G : Type} (s : mp3_packetizer_c G) : Int :=
  c_int (double_div
    (double_mul (double_mul 1000000000 (to_double (s.spf : ℚ))) s.linear)
    (to_double (s.samples_per_sec : ℚ)))

/-- The loop of `mp3_packetizer_c::process` (lines 234-249), for at most `fuel`
rounds; `async_displacement` reads `ti->async.displacement` from the state of the
base class, `tag_fuel` bounds the tag loop of each `get_mp3_packet` call, and
`queue` holds the packets handed to `add_packet` so far.  The result is `none`
when the loop has not ended within `fuel` rounds or a call of `get_mp3_packet`
has no defined result. -/
def mp3_process_loop {G : Type} (env : mp3_env G) (async_displacement : G → Int)
    (timecode : Int) (tag_fuel : Nat) :
    Nat → mp3_packetizer_c G → List mp3_packet_t →
      Option (mp3_packetizer_c G × List mp3_packet_t)
  | 0, _, _ => none
  | fuel + 1, s, queue =>
    match get_mp3_packet env tag_fuel s with
    | none => none
    | some (none, s1) => some (s1, queue)
    | some (some (packet, mp3header), s1) =>
      mp3_process_loop env async_displacement timecode tag_fuel fuel
        { s1 with packetno := s1.packetno + 1 }
        (queue ++
          [{ data := packet, size := mp3header.framesize,
             timecode := mp3_timecode s1 timecode (async_displacement s1.base),
             duration := mp3_duration s1,
             displacement := async_displacement s1.base }])

/-- `mp3_packetizer_c::process` (lines 221-254): the state, the packets handed to
`add_packet` and the returned code. -/
def mp3_process {G : Type} (env : mp3_env G) (async_displacement : G → Int)
    (tag_fuel fuel : Nat) (s : mp3_packetizer_c G) (queue : List mp3_packet_t)
    (data : List byte) (size : Int) (timecode : Int) :
    Option (mp3_packetizer_c G × List mp3_packet_t × Int) :=
  match mp3_process_loop env async_displacement timecode tag_fuel fuel
      (byte_buffer_add s data size) queue with
  | none => none
  | some (s1, queue1) => some (s1, queue1, EMOREDATA)

/-- A sequence of `process` calls, one per input chunk with its timecode, each
chunk passed with its length. -/
def mp3_process_all {G : Type} (env : mp3_env G) (async_displacement : G → Int)
    (tag_fuel fuel : Nat) :
    mp3_packetizer_c G → List mp3_packet_t → List (List byte × Int) →
      Option (mp3_packetizer_c G × List mp3_packet_t)
  | s, queue, [] => some (s, queue)
  | s, queue, c :: cs =>
    match mp3_process env async_displacement tag_fuel fuel s queue c.1 c.1.length c.2 with
    | none => none
    | some (s1, queue1, _) =>
      mp3_process_all env async_displacement tag_fuel fuel s1 queue1 cs

/-- The duration that the specification gives to a packet at speed ratio 1:
`floor(10^9 * spf / samples_per_sec)`. -/
def mp3_nominal_duration (spf : Int) (samples_per_sec : Nat) : Int :=
  ⌊1000000000 * (spf : ℚ) / (samples_per_sec : ℚ)⌋

/-- The timestamp that the specification gives, at speed ratio 1, to a packet
handed over without an explicit timecode:
`floor(10^9 * packetno * spf / samples_per_sec)`. -/
def mp3_nominal_timecode (spf : Int) (samples_per_sec : Nat) (packetno : Int) : Int :=
  ⌊1000000000 * (packetno : ℚ) * (spf : ℚ) / (samples_per_sec : ℚ)⌋

/-- Modelled from the spec: the result codes of `can_connect_to` are macros
defined outside the sources at hand; section 6 names the three outcomes. -/
inductive connect_result where
  | CAN_CONNECT_YES
  | CAN_CONNECT_NO_FORMAT
  | CAN_CONNECT_NO_PARAMETERS
deriving DecidableEq, Repr

/-- The object behind a `generic_packetizer_c *`: an MPEG audio packetizer or a
packetizer of some other class. -/
inductive generic_packetizer_c (G : Type) where
  | mp3_packetizer (p : mp3_packetizer_c G)
  | other_packetizer

/-- The cast `dynamic_cast<mp3_packetizer_c *>(src)` of line 266. -/
def dynamic_cast_mp3 {G : Type} : generic_packetizer_c G → Option (mp3_packetizer_c G)
  | .mp3_packetizer p => some p
  | .other_packetizer => none

/-- `mp3_packetizer_c::can_connect_to` (lines 262-273). -/
def can_connect_to {G : Type} (s : mp3_packetizer_c G) (src : generic_packetizer_c G) :
    connect_result :=
  match dynamic_cast_mp3 src with
  | none => .CAN_CONNECT_NO_FORMAT
  | some msrc =>
    if s.samples_per_sec ≠ msrc.samples_per_sec ∨ s.channels ≠ msrc.channels then
      .CAN_CONNECT_NO_PARAMETERS
    else .CAN_CONNECT_YES

/-! ### More examples -/

/-- A locator for examples that also finds tags: a header is the byte pair
`255, 251` or the three bytes `84, 65, 71` ("TAG"), recognised where at least 4
bytes of the window remain. -/
def sample_scan_tags (i : Nat) : List byte → Nat → Int
  | [], _ => -1
  | b :: rest, len =>
    if len < 4 then -1
    else if (b = 255 ∧ rest.head? = some 251) ∨ (b = 84 ∧ rest.take 2 = [65, 71]) then (i : Int)
    else sample_scan_tags (i + 1) rest (len - 1)

/-- A decoder for examples that knows tags: after `84, 65, 71` the fourth byte is
the size of the tag frame; anything else is decoded by `sample_decode`. -/
def sample_decode_tags (buf : List byte) : mp3_header_t :=
  if buf.take 3 = [84, 65, 71] then
    { framesize := (buf.drop 3).headD 0, is_tag := true, samples_per_channel := 1152,
      layer := 3, sampling_frequency := 44100 }
  else sample_decode buf

/-- The collaborators `sample_env` with the locator and decoder that know tags. -/
def sample_env_tags : mp3_env Int :=
  { sample_env with
    find_mp3_header := fun buf len => sample_scan_tags 0 buf len.toNat,
    decode_mp3_header := sample_decode_tags }

/-- The collaborators `sample_env` with a negative displacement pending: the
state of the base class is minus the number of frames still to drop. -/
def sample_env_early : mp3_env Int :=
  { sample_env with
    needs_negative_displacement := fun g _ => decide (g < 0),
    displace := fun g _ => g + 1 }

/-! # Theorems -/

/-! ## Basic facts about the AC-3 packetizer -/

theorem pims_nonneg (h : ac3_header_t) : 0 ≤ pims h := by
  unfold pims
  positivity

theorem c_int_of_nonneg {q : ℚ} (hq : 0 ≤ q) : c_int q = ⌊q⌋ := by
  simp [c_int, hq]

theorem c_int_nonneg {q : ℚ} (hq : 0 ≤ q) : 0 ≤ c_int q := by
  rw [c_int_of_nonneg hq]
  exact Int.floor_nonneg.mpr hq

theorem c_int_le {q : ℚ} (hq : 0 ≤ q) : (c_int q : ℚ) ≤ q := by
  rw [c_int_of_nonneg hq]
  exact Int.floor_le q

theorem c_int_pos {q : ℚ} (hq : 1 ≤ q) : 1 ≤ c_int q := by
  rw [c_int_of_nonneg (le_trans zero_le_one hq)]
  exact Int.le_floor.mpr (by simpa using hq)

/-- The call `get_ac3_packet` in terms of the frame it acts on. -/
theorem get_ac3_packet_eq (find : ac3_locator) (s : ac3_packetizer_c) :
    get_ac3_packet find s =
      match located find s with
      | none => (none, s)
      | some (pos, hdr) =>
        if s.displacement < 0 then
          (none, remove_ac3_packet
            { s with displacement :=
                if ((s.displacement + c_int (pims hdr) : Int) : ℚ) > -(pims hdr / 2) then 0
                else s.displacement + c_int (pims hdr) } pos hdr.bytes)
        else if s.displacement > 0 then
          (some ((s.contents.drop pos.toNat).take hdr.bytes, hdr),
            { s with displacement :=
                if ((s.displacement - c_int (pims hdr) : Int) : ℚ) < pims hdr / 2 then 0
                else s.displacement - c_int (pims hdr) })
        else
          (some ((s.contents.drop pos.toNat).take hdr.bytes, hdr),
            remove_ac3_packet s pos hdr.bytes) := by
  unfold get_ac3_packet located ac3_packetizer_c.contents
  cases hpb : s.packet_buffer with
  | none => rfl
  | some pb =>
    simp only [Option.getD_some]
    by_cases h1 : (find pb s.buffer_size).1 < 0
    · simp only [if_pos h1]
    · by_cases h2 : (find pb s.buffer_size).1 + ((find pb s.buffer_size).2.bytes : Int) >
          s.buffer_size
      · simp only [if_neg h1, if_pos h2]
      · simp only [if_neg h1, if_neg h2]

theorem located_bounds {find : ac3_locator} {s : ac3_packetizer_c} {pos : Int}
    {hdr : ac3_header_t} (h : located find s = some (pos, hdr)) :
    0 ≤ pos ∧ pos + (hdr.bytes : Int) ≤ s.buffer_size ∧ s.packet_buffer ≠ none := by
  unfold located at h
  cases hpb : s.packet_buffer with
  | none => simp [hpb] at h
  | some pb =>
    simp only [hpb] at h
    split_ifs at h with h1 h2
    simp only [Option.some.injEq] at h
    rw [h] at h1 h2
    simp only at h1 h2
    refine ⟨by omega, by omega, by simp⟩

theorem remove_ac3_packet_contents {s : ac3_packetizer_c} {pos : Int} {n : Nat}
    (hc : s.consistent) (h0 : 0 ≤ pos) (h1 : pos + (n : Int) ≤ s.buffer_size) :
    (remove_ac3_packet s pos n).contents = s.contents.drop (pos.toNat + n) ∧
    (remove_ac3_packet s pos n).buffer_size = s.buffer_size - (pos + n) ∧
    (remove_ac3_packet s pos n).consistent := by
  unfold ac3_packetizer_c.consistent at hc ⊢
  have hn : (pos + (n : Int)).toNat = pos.toNat + n := by omega
  have key : (remove_ac3_packet s pos n).contents = s.contents.drop (pos.toNat + n) := by
    unfold remove_ac3_packet
    simp only [ac3_packetizer_c.contents]
    by_cases hz : s.buffer_size - (pos + (n : Int)) ≠ 0
    · simp only [if_pos hz, Option.getD_some, hn]
      apply List.take_of_length_le
      simp only [List.length_drop]
      unfold ac3_packetizer_c.contents at hc
      omega
    · simp only [if_neg hz, Option.getD_none]
      symm
      apply List.drop_eq_nil_of_le
      unfold ac3_packetizer_c.contents at hc
      omega
  refine ⟨key, rfl, ?_⟩
  rw [key]
  simp only [remove_ac3_packet, List.length_drop]
  omega

theorem remove_ac3_packet_fields (s : ac3_packetizer_c) (pos n : Int) :
    (remove_ac3_packet s pos n).displacement = s.displacement ∧
    (remove_ac3_packet s pos n).queue = s.queue ∧
    (remove_ac3_packet s pos n).packetno = s.packetno ∧
    (remove_ac3_packet s pos n).linear = s.linear ∧
    (remove_ac3_packet s pos n).samples_per_sec = s.samples_per_sec :=
  ⟨rfl, rfl, rfl, rfl, rfl⟩

/-- A call entered with `displacement = 0`: the displacement stays 0, a `NULL`
return leaves the state untouched, and a returned packet is the located frame,
which is removed together with the bytes before it. -/
theorem get_ac3_packet_zero (find : ac3_locator) (s : ac3_packetizer_c)
    (hc : s.consistent) (hd : s.displacement = 0) :
    (get_ac3_packet find s).2.displacement = 0 ∧
    ((get_ac3_packet find s).1 = none → (get_ac3_packet find s).2 = s) ∧
    (∀ packet hdr, (get_ac3_packet find s).1 = some (packet, hdr) →
      ∃ pos : Int, located find s = some (pos, hdr) ∧ 0 ≤ pos ∧
        packet = (s.contents.drop pos.toNat).take hdr.bytes ∧
        packet.length = hdr.bytes ∧
        (get_ac3_packet find s).2.contents = s.contents.drop (pos.toNat + hdr.bytes) ∧
        (get_ac3_packet find s).2.buffer_size = s.buffer_size - (pos + hdr.bytes)) := by
  rw [get_ac3_packet_eq]
  cases hl : located find s with
  | none => simp [hd]
  | some r =>
    obtain ⟨pos, hdr⟩ := r
    obtain ⟨h0, h1, _⟩ := located_bounds hl
    obtain ⟨hcont, hsize, _⟩ := remove_ac3_packet_contents hc h0 h1
    have hlen : ((s.contents.drop pos.toNat).take hdr.bytes).length = hdr.bytes := by
      unfold ac3_packetizer_c.consistent at hc
      simp only [List.length_take, List.length_drop]
      omega
    simp only [hd, lt_irrefl, if_false, gt_iff_lt]
    refine ⟨(remove_ac3_packet_fields s pos hdr.bytes).1.trans hd, by simp, ?_⟩
    intro packet hdr2 hp
    simp only [Option.some.injEq, Prod.mk.injEq] at hp
    obtain ⟨hp1, hp2⟩ := hp
    subst hp2
    exact ⟨pos, rfl, h0, hp1.symm, hp1 ▸ hlen, hcont, hsize⟩

theorem get_ac3_packet_iter_succ (find : ac3_locator) (n : Nat) (s : ac3_packetizer_c) :
    get_ac3_packet_iter find (n + 1) s =
      (get_ac3_packet find (get_ac3_packet_iter find n s)).2 := by
  induction n generalizing s with
  | zero => rfl
  | succ n ih =>
    show get_ac3_packet_iter find (n + 1) (get_ac3_packet find s).2 = _
    rw [ih]
    rfl

theorem located_congr (find : ac3_locator) {s t : ac3_packetizer_c}
    (h1 : t.packet_buffer = s.packet_buffer) (h2 : t.buffer_size = s.buffer_size) :
    located find t = located find s := by
  unfold located
  rw [h1, h2]

theorem contents_congr {s t : ac3_packetizer_c}
    (h1 : t.packet_buffer = s.packet_buffer) : t.contents = s.contents := by
  unfold ac3_packetizer_c.contents
  rw [h1]

theorem consistent_congr {s t : ac3_packetizer_c}
    (h1 : t.packet_buffer = s.packet_buffer) (h2 : t.buffer_size = s.buffer_size)
    (hc : s.consistent) : t.consistent := by
  unfold ac3_packetizer_c.consistent at hc ⊢
  rw [contents_congr h1, h2]
  exact hc

/-- A call entered with positive displacement and a fully buffered frame: the
frame is returned, the buffer is untouched and the displacement moves toward 0
without passing it. -/
theorem get_ac3_packet_duplicate {find : ac3_locator} {s : ac3_packetizer_c} {pos : Int}
    {hdr : ac3_header_t} (hl : located find s = some (pos, hdr))
    (hd : 0 < s.displacement) :
    (get_ac3_packet find s).1 = some ((s.contents.drop pos.toNat).take hdr.bytes, hdr) ∧
    (get_ac3_packet find s).2.packet_buffer = s.packet_buffer ∧
    (get_ac3_packet find s).2.buffer_size = s.buffer_size ∧
    (get_ac3_packet find s).2.queue = s.queue ∧
    0 ≤ (get_ac3_packet find s).2.displacement ∧
    (get_ac3_packet find s).2.displacement ≤ s.displacement ∧
    (1 ≤ pims hdr → (get_ac3_packet find s).2.displacement < s.displacement) := by
  rw [get_ac3_packet_eq, hl]
  have hneg : ¬ s.displacement < 0 := by omega
  simp only [if_neg hneg, gt_iff_lt, if_pos hd, true_and]
  have hp := pims_nonneg hdr
  have ht := c_int_nonneg hp
  by_cases hclamp : ((s.displacement - c_int (pims hdr) : Int) : ℚ) < pims hdr / 2
  · simp only [if_pos hclamp]
    exact ⟨le_refl _, le_of_lt hd, fun _ => hd⟩
  · simp only [if_neg hclamp]
    have h2 : (0 : ℚ) ≤ ((s.displacement - c_int (pims hdr) : Int) : ℚ) := by
      have : (0 : ℚ) ≤ pims hdr / 2 := by positivity
      linarith [not_lt.mp hclamp]
    have h3 : 0 ≤ s.displacement - c_int (pims hdr) := by exact_mod_cast h2
    refine ⟨h3, by omega, fun h1 => ?_⟩
    have := c_int_pos h1
    omega

theorem get_ac3_packet_iter_positive {find : ac3_locator} {s : ac3_packetizer_c} {pos : Int}
    {hdr : ac3_header_t} (hl : located find s = some (pos, hdr))
    (hd : 0 < s.displacement) (n : Nat)
    (hpos : ∀ i, i < n → 0 < (get_ac3_packet_iter find i s).displacement) :
    (get_ac3_packet_iter find n s).packet_buffer = s.packet_buffer ∧
    (get_ac3_packet_iter find n s).buffer_size = s.buffer_size ∧
    0 ≤ (get_ac3_packet_iter find n s).displacement := by
  induction n with
  | zero => exact ⟨rfl, rfl, le_of_lt hd⟩
  | succ n ih =>
    obtain ⟨hb, hs, _⟩ := ih (fun i hi => hpos i (Nat.lt_succ_of_lt hi))
    have hl2 : located find (get_ac3_packet_iter find n s) = some (pos, hdr) :=
      (located_congr find hb hs).trans hl
    obtain ⟨_, hb2, hs2, _, hd2, _, _⟩ :=
      get_ac3_packet_duplicate hl2 (hpos n (Nat.lt_succ_self n))
    rw [get_ac3_packet_iter_succ]
    exact ⟨hb2.trans hb, hs2.trans hs, hd2⟩

theorem get_ac3_packet_iter_reaches_zero (find : ac3_locator) (pos : Int) (hdr : ac3_header_t)
    (hp : 1 ≤ pims hdr) (k : Nat) :
    ∀ s : ac3_packetizer_c, located find s = some (pos, hdr) → 0 < s.displacement →
      s.displacement ≤ (k : Int) →
      ∃ n, n ≤ k ∧ (∀ i, i < n → 0 < (get_ac3_packet_iter find i s).displacement) ∧
        (get_ac3_packet_iter find n s).displacement = 0 := by
  induction k with
  | zero => intro s _ hd hk; omega
  | succ k ih =>
    intro s hl hd hk
    obtain ⟨_, hb, hs, _, hd0, _, hlt⟩ := get_ac3_packet_duplicate hl hd
    have hlt := hlt hp
    by_cases hz : (get_ac3_packet find s).2.displacement = 0
    · refine ⟨1, by omega, ?_, hz⟩
      intro i hi
      have : i = 0 := by omega
      subst this
      exact hd
    · have hl1 : located find (get_ac3_packet find s).2 = some (pos, hdr) :=
        (located_congr find hb hs).trans hl
      obtain ⟨n, hn, hall, hfin⟩ := ih (get_ac3_packet find s).2 hl1 (by omega) (by omega)
      refine ⟨n + 1, by omega, ?_, hfin⟩
      intro i hi
      cases i with
      | zero => exact hd
      | succ j => exact hall j (by omega)

/-- C3. With `displacement > 0` and a fully buffered frame located at `pos`, a call
of `get_ac3_packet` returns a packet (the bytes of that frame) and leaves
`packet_buffer` and `buffer_size` unchanged; as long as the calls are entered with
positive displacement they keep returning that frame, the displacement never
passes below 0, and the first call entered with `displacement = 0` returns the
bytes of the frame and removes exactly `pos + bytes` bytes from the front of the
buffer.  When the frame lasts at least 1 ms the displacement does reach 0, after
at most `displacement` calls. -/
theorem positive_displacement_repeats_frame (find : ac3_locator) (s : ac3_packetizer_c)
    (pos : Int) (hdr : ac3_header_t) (hc : s.consistent)
    (hl : located find s = some (pos, hdr)) (hd : 0 < s.displacement) :
    ((get_ac3_packet find s).1 = some ((s.contents.drop pos.toNat).take hdr.bytes, hdr) ∧
      (get_ac3_packet find s).2.packet_buffer = s.packet_buffer ∧
      (get_ac3_packet find s).2.buffer_size = s.buffer_size) ∧
    (∀ n, (∀ i, i < n → 0 < (get_ac3_packet_iter find i s).displacement) →
      (∀ i, i < n → (get_ac3_packet find (get_ac3_packet_iter find i s)).1 =
        some ((s.contents.drop pos.toNat).take hdr.bytes, hdr)) ∧
      (get_ac3_packet_iter find n s).packet_buffer = s.packet_buffer ∧
      (get_ac3_packet_iter find n s).buffer_size = s.buffer_size ∧
      0 ≤ (get_ac3_packet_iter find n s).displacement ∧
      ((get_ac3_packet_iter find n s).displacement = 0 →
        (get_ac3_packet find (get_ac3_packet_iter find n s)).1 =
          some ((s.contents.drop pos.toNat).take hdr.bytes, hdr) ∧
        (get_ac3_packet find (get_ac3_packet_iter find n s)).2.contents =
          s.contents.drop (pos.toNat + hdr.bytes) ∧
        (get_ac3_packet find (get_ac3_packet_iter find n s)).2.buffer_size =
          s.buffer_size - (pos + hdr.bytes))) ∧
    (1 ≤ pims hdr →
      ∃ n, n ≤ s.displacement.toNat ∧
        (∀ i, i < n → 0 < (get_ac3_packet_iter find i s).displacement) ∧
        (get_ac3_packet_iter find n s).displacement = 0) := by
  refine ⟨?_, ?_, ?_⟩
  · obtain ⟨h1, h2, h3, _⟩ := get_ac3_packet_duplicate hl hd
    exact ⟨h1, h2, h3⟩
  · intro n hpos
    obtain ⟨hb, hs, hd0⟩ := get_ac3_packet_iter_positive hl hd n hpos
    refine ⟨?_, hb, hs, hd0, ?_⟩
    · intro i hi
      obtain ⟨hbi, hsi, _⟩ :=
        get_ac3_packet_iter_positive hl hd i (fun j hj => hpos j (lt_trans hj hi))
      have hli : located find (get_ac3_packet_iter find i s) = some (pos, hdr) :=
        (located_congr find hbi hsi).trans hl
      obtain ⟨h1, _⟩ := get_ac3_packet_duplicate hli (hpos i hi)
      rw [h1, contents_congr hbi]
    · intro hz
      have hln : located find (get_ac3_packet_iter find n s) = some (pos, hdr) :=
        (located_congr find hb hs).trans hl
      have hcn : (get_ac3_packet_iter find n s).consistent := consistent_congr hb hs hc
      obtain ⟨_, _, hpk⟩ := get_ac3_packet_zero find _ hcn hz
      rw [get_ac3_packet_eq, hln] at hpk ⊢
      have hneg : ¬ (get_ac3_packet_iter find n s).displacement < 0 := by omega
      have hnpos : ¬ (get_ac3_packet_iter find n s).displacement > 0 := by omega
      simp only [if_neg hneg, if_neg hnpos] at hpk ⊢
      obtain ⟨pos2, hpos2, _, _, _, hcont, hsz⟩ := hpk _ _ rfl
      simp only [Option.some.injEq, Prod.mk.injEq, and_true] at hpos2
      subst hpos2
      rw [contents_congr hb] at hcont ⊢
      rw [hs] at hsz
      exact ⟨rfl, hcont, hsz⟩
  · intro hp
    exact get_ac3_packet_iter_reaches_zero find pos hdr hp s.displacement.toNat s hl hd
      (by omega)

/-- C5. Zero displacement is absorbing in the AC-3 packetizer: a call of
`get_ac3_packet` entered with `displacement = 0` leaves it 0; when it returns
`NULL` the state is untouched (no frame is dropped); when it returns a packet,
that packet is the located frame `buffer[pos .. pos + bytes)` and exactly
`pos + bytes` bytes are removed from the front of the buffer (no duplicate: the
frame is consumed). -/
theorem zero_displacement_absorbing (find : ac3_locator) (s : ac3_packetizer_c)
    (hc : s.consistent) (hd : s.displacement = 0) :
    (get_ac3_packet find s).2.displacement = 0 ∧
    ((get_ac3_packet find s).1 = none → (get_ac3_packet find s).2 = s) ∧
    (∀ packet hdr, (get_ac3_packet find s).1 = some (packet, hdr) →
      ∃ pos : Int, located find s = some (pos, hdr) ∧ 0 ≤ pos ∧
        packet = (s.contents.drop pos.toNat).take hdr.bytes ∧
        packet.length = hdr.bytes ∧
        (get_ac3_packet find s).2.contents = s.contents.drop (pos.toNat + hdr.bytes) ∧
        (get_ac3_packet find s).2.buffer_size = s.buffer_size - (pos + hdr.bytes)) :=
  get_ac3_packet_zero find s hc hd

/-- The displacement after one call on a fully buffered frame follows the rule
of section 4.4 with the duration truncated where it is added. -/
theorem get_ac3_packet_displacement {find : ac3_locator} {s : ac3_packetizer_c}
    {r : Int × ac3_header_t} (hl : located find s = some r) :
    (get_ac3_packet find s).2.displacement =
      section_4_4_rule_truncated s.displacement (pims r.2) := by
  obtain ⟨pos, hdr⟩ := r
  rw [get_ac3_packet_eq, hl]
  unfold section_4_4_rule_truncated
  by_cases h1 : s.displacement < 0
  · simp only [if_pos h1, (remove_ac3_packet_fields _ _ _).1]
  · by_cases h2 : s.displacement > 0
    · simp only [if_neg h1, if_pos h2]
    · simp only [if_neg h1, if_neg h2, (remove_ac3_packet_fields _ _ _).1]

theorem displacement_fold (find : ac3_locator) (n : Nat) :
    ∀ (s : ac3_packetizer_c) (ds : List ℚ), durations find n s = some ds →
      ds.length = n ∧
      (get_ac3_packet_iter find n s).displacement =
        ds.foldl section_4_4_rule_truncated s.displacement := by
  induction n with
  | zero =>
    intro s ds h
    simp only [durations, Option.some.injEq] at h
    subst h
    exact ⟨rfl, rfl⟩
  | succ n ih =>
    intro s ds h
    unfold durations at h
    cases hl : located find s with
    | none => simp [hl] at h
    | some r =>
      simp only [hl, Option.map_eq_some'] at h
      obtain ⟨ds1, h1, h2⟩ := h
      subst h2
      obtain ⟨hlen, hfold⟩ := ih _ _ h1
      refine ⟨by simp [hlen], ?_⟩
      show (get_ac3_packet_iter find n (get_ac3_packet find s).2).displacement = _
      rw [hfold, get_ac3_packet_displacement hl]
      rfl

/-- C2 (amended). For every initial displacement and every sequence of `n` calls of
`get_ac3_packet` that each find a fully buffered frame, of durations `d1..dn`,
the displacement after the calls is the fold over `d1..dn` of the rule of the
specification's section 4.4 in which the duration is truncated to whole
milliseconds where it is added or subtracted. -/
theorem displacement_accumulation (find : ac3_locator) (n : Nat) (s : ac3_packetizer_c)
    (ds : List ℚ) (h : durations find n s = some ds) :
    ds.length = n ∧
    (get_ac3_packet_iter find n s).displacement =
      ds.foldl section_4_4_rule_truncated s.displacement :=
  displacement_fold find n s ds h

theorem located_constant_frames (b r : Nat) (s : ac3_packetizer_c)
    (h1 : s.packet_buffer ≠ none) (h2 : (b : Int) ≤ s.buffer_size) :
    located (constant_frames b r) s = some (0, { bytes := b, bit_rate := r }) := by
  unfold located constant_frames
  cases hpb : s.packet_buffer with
  | none => exact absurd hpb h1
  | some pb => simp [h2]

/-! ### The count of dropped frames (C4) -/

/-- The clamp test of the drop branch after `k` frames, against the frame count. -/
theorem clamp_iff_dropped_frames {D : Int} {d : ℚ} (hD : D < 0) (hd : 1 ≤ d) {k : Nat}
    (hk : 1 ≤ k) :
    (((D + (k : Int) * c_int d : Int) : ℚ) > -(d / 2)) ↔ dropped_frames D d ≤ k := by
  have ht : 1 ≤ c_int d := c_int_pos hd
  have htq : (0 : ℚ) < (c_int d : ℚ) := by exact_mod_cast (by omega : 0 < c_int d)
  have habs : ((|D| : Int) : ℚ) = -(D : ℚ) := by
    rw [abs_of_neg hD]; push_cast; ring
  unfold dropped_frames
  rw [habs]
  set x : ℚ := (-(D : ℚ) - d / 2) / (c_int d : ℚ) with hx
  have h1 : (((D + (k : Int) * c_int d : Int) : ℚ) > -(d / 2)) ↔ x < (k : ℚ) := by
    rw [hx, div_lt_iff₀ htq]
    push_cast
    constructor <;> intro h <;> linarith
  have h2 : x < (k : ℚ) ↔ ⌊x⌋ < (k : Int) := by
    rw [Int.floor_lt]; norm_cast
  rw [h1, h2]
  omega

theorem drops_before_emit_count (find : ac3_locator) (n : Nat) :
    ∀ (s : ac3_packetizer_c) (extra : Nat),
      (∀ i, i ≤ n → located find (get_ac3_packet_iter find i s) ≠ none) →
      (∀ i, i < n → (get_ac3_packet_iter find i s).displacement < 0) →
      ¬ (get_ac3_packet_iter find n s).displacement < 0 →
      drops_before_emit find (n + 1 + extra) s = some n := by
  induction n with
  | zero =>
    intro s extra hav _ hn
    have h0 := hav 0 (le_refl _)
    simp only at h0
    have hn : ¬ s.displacement < 0 := hn
    rw [show 0 + 1 + extra = extra + 1 by omega]
    unfold drops_before_emit
    cases hl : located find s with
    | none => exact absurd hl h0
    | some r => simp only [if_neg hn]
  | succ n ih =>
    intro s extra hav hneg hn
    have h0 := hav 0 (Nat.zero_le _)
    have hd0 : s.displacement < 0 := hneg 0 (Nat.succ_pos n)
    rw [show n + 1 + 1 + extra = (n + 1 + extra) + 1 by omega]
    unfold drops_before_emit
    cases hl : located find s with
    | none => exact absurd hl h0
    | some r =>
      simp only [if_pos hd0]
      rw [ih (get_ac3_packet find s).2 extra
        (fun i hi => hav (i + 1) (by omega))
        (fun i hi => hneg (i + 1) (by omega)) hn]
      rfl

/-- The displacement during and after the drops on a stream of frames of one
duration. -/
theorem drop_phase (find : ac3_locator) (s : ac3_packetizer_c) (d : ℚ) (hd : 1 ≤ d)
    (hD : s.displacement < 0)
    (hav : ∀ i, i ≤ dropped_frames s.displacement d →
      (∀ j, j < i → (get_ac3_packet_iter find j s).displacement < 0) →
      ∃ r, located find (get_ac3_packet_iter find i s) = some r ∧ pims r.2 = d) :
    (∀ i, i < dropped_frames s.displacement d →
      (get_ac3_packet_iter find i s).displacement = s.displacement + (i : Int) * c_int d ∧
      (get_ac3_packet_iter find i s).displacement < 0) ∧
    (get_ac3_packet_iter find (dropped_frames s.displacement d) s).displacement = 0 := by
  have hK1 : 1 ≤ dropped_frames s.displacement d := by
    unfold dropped_frames; omega
  have hstep : ∀ i, i < dropped_frames s.displacement d →
      (∀ j, j < i → (get_ac3_packet_iter find j s).displacement < 0) →
      (get_ac3_packet_iter find i s).displacement = s.displacement + (i : Int) * c_int d →
      (get_ac3_packet_iter find i s).displacement < 0 →
      (get_ac3_packet_iter find (i + 1) s).displacement =
        if dropped_frames s.displacement d ≤ i + 1 then 0
        else s.displacement + ((i + 1 : Nat) : Int) * c_int d := by
    intro i hi hprev he hn
    obtain ⟨r, hl, hp⟩ := hav i (le_of_lt hi) hprev
    rw [get_ac3_packet_iter_succ, get_ac3_packet_displacement hl, hp]
    unfold section_4_4_rule_truncated
    rw [if_pos hn, he]
    have hrw : s.displacement + (i : Int) * c_int d + c_int d =
        s.displacement + ((i + 1 : Nat) : Int) * c_int d := by push_cast; ring
    rw [hrw]
    have hiff := clamp_iff_dropped_frames hD hd (k := i + 1) (by omega)
    by_cases hc : dropped_frames s.displacement d ≤ i + 1
    · rw [if_pos (hiff.mpr hc), if_pos hc]
    · rw [if_neg (fun h => hc (hiff.mp h)), if_neg hc]
  have hinv : ∀ i, i < dropped_frames s.displacement d →
      (get_ac3_packet_iter find i s).displacement = s.displacement + (i : Int) * c_int d ∧
      (get_ac3_packet_iter find i s).displacement < 0 := by
    intro i
    induction i using Nat.strong_induction_on with
    | _ i ih =>
      intro hi
      cases i with
      | zero => exact ⟨by simp [get_ac3_packet_iter], hD⟩
      | succ i =>
        obtain ⟨he, hn⟩ := ih i (Nat.lt_succ_self i) (by omega)
        have h := hstep i (by omega)
          (fun j hj => (ih j (by omega) (by omega)).2) he hn
        rw [if_neg (by omega)] at h
        refine ⟨h, ?_⟩
        rw [h]
        have hiff := clamp_iff_dropped_frames hD hd (k := i + 1) (by omega)
        have hnot :
            ¬ (((s.displacement + ((i + 1 : Nat) : Int) * c_int d : Int) : ℚ) > -(d / 2)) :=
          fun h => absurd (hiff.mp h) (by omega)
        have hq : ((s.displacement + ((i + 1 : Nat) : Int) * c_int d : Int) : ℚ) < 0 := by
          have : (0 : ℚ) < d / 2 := by linarith
          linarith [not_lt.mp hnot]
        exact_mod_cast hq
  refine ⟨hinv, ?_⟩
  obtain ⟨j, hj⟩ : ∃ j, dropped_frames s.displacement d = j + 1 := ⟨_, (Nat.sub_add_cancel hK1).symm⟩
  obtain ⟨he, hn⟩ := hinv j (by omega)
  have h := hstep j (by omega) (fun i hi => (hinv i (by omega)).2) he hn
  rw [if_pos (by omega)] at h
  rw [hj]
  exact h

/-- A call entered with negative displacement and a fully buffered frame returns
`NULL` and removes the frame together with the bytes before it. -/
theorem get_ac3_packet_drop {find : ac3_locator} {s : ac3_packetizer_c} {r : Int × ac3_header_t}
    (hl : located find s = some r) (hd : s.displacement < 0) :
    (get_ac3_packet find s).1 = none ∧
    (get_ac3_packet find s).2.buffer_size = s.buffer_size - (r.1 + r.2.bytes) ∧
    ((get_ac3_packet find s).2.packet_buffer ≠ none ↔
      s.buffer_size - (r.1 + r.2.bytes) ≠ 0) ∧
    (get_ac3_packet find s).2.queue = s.queue := by
  obtain ⟨pos, hdr⟩ := r
  rw [get_ac3_packet_eq, hl]
  simp only [if_pos hd, remove_ac3_packet, true_and]
  by_cases hz : s.buffer_size - (pos + (hdr.bytes : Int)) ≠ 0
  · simp [hz]
  · simp [hz]

/-- A call entered with displacement 0 and a fully buffered frame returns a
packet. -/
theorem get_ac3_packet_isSome {find : ac3_locator} {s : ac3_packetizer_c}
    {r : Int × ac3_header_t} (hl : located find s = some r) (hd : ¬ s.displacement < 0) :
    (get_ac3_packet find s).1.isSome = true := by
  obtain ⟨pos, hdr⟩ := r
  rw [get_ac3_packet_eq, hl]
  simp only [if_neg hd]
  split_ifs <;> rfl

/-- The count of dropped frames on a stream of fully buffered frames of one
duration `d` of at least 1 ms, from a negative displacement. -/
theorem dropped_frames_exact (find : ac3_locator) (s : ac3_packetizer_c) (d : ℚ)
    (hd : 1 ≤ d) (hD : s.displacement < 0)
    (hav : ∀ i, i ≤ dropped_frames s.displacement d →
      (∀ j, j < i → (get_ac3_packet_iter find j s).displacement < 0) →
      ∃ r, located find (get_ac3_packet_iter find i s) = some r ∧ pims r.2 = d) :
    drops_before_emit find (dropped_frames s.displacement d + 1) s =
      some (dropped_frames s.displacement d) ∧
    (∀ i, i < dropped_frames s.displacement d →
      (get_ac3_packet_iter find i s).displacement < 0 ∧
      (get_ac3_packet find (get_ac3_packet_iter find i s)).1 = none) ∧
    (get_ac3_packet_iter find (dropped_frames s.displacement d) s).displacement = 0 ∧
    (get_ac3_packet find
      (get_ac3_packet_iter find (dropped_frames s.displacement d) s)).1.isSome = true := by
  obtain ⟨hneg, hzero⟩ := drop_phase find s d hd hD hav
  have hav2 : ∀ i, i ≤ dropped_frames s.displacement d →
      ∃ r, located find (get_ac3_packet_iter find i s) = some r ∧ pims r.2 = d :=
    fun i hi => hav i hi (fun j hj => (hneg j (by omega)).2)
  refine ⟨?_, ?_, hzero, ?_⟩
  · have := drops_before_emit_count find (dropped_frames s.displacement d) s 0
      (fun i hi => by
        obtain ⟨r, hr, _⟩ := hav2 i hi
        simp [hr])
      (fun i hi => (hneg i hi).2)
      (by rw [hzero]; decide)
    simpa using this
  · intro i hi
    obtain ⟨r, hr, _⟩ := hav2 i (le_of_lt hi)
    exact ⟨(hneg i hi).2, (get_ac3_packet_drop hr (hneg i hi).2).1⟩
  · obtain ⟨r, hr, _⟩ := hav2 _ (le_refl _)
    exact get_ac3_packet_isSome hr (by rw [hzero]; decide)

/-- The state after `i` drops under the locator `constant_frames`. -/
theorem constant_frames_iter (b r : Nat) (hb : 1 ≤ b) (s : ac3_packetizer_c)
    (hpb : s.packet_buffer ≠ none) (i : Nat)
    (hsz : ((i + 1 : Nat) : Int) * (b : Int) ≤ s.buffer_size)
    (hneg : ∀ j, j < i →
      (get_ac3_packet_iter (constant_frames b r) j s).displacement < 0) :
    (get_ac3_packet_iter (constant_frames b r) i s).packet_buffer ≠ none ∧
    (get_ac3_packet_iter (constant_frames b r) i s).buffer_size =
      s.buffer_size - (i : Int) * (b : Int) := by
  induction i with
  | zero => exact ⟨hpb, by simp [get_ac3_packet_iter]⟩
  | succ i ih =>
    have hb0 : (0 : Int) ≤ (b : Int) := Int.natCast_nonneg b
    have hmul : ((i + 1 + 1 : Nat) : Int) * (b : Int) =
        ((i + 1 : Nat) : Int) * (b : Int) + (b : Int) := by push_cast; ring
    have hmul2 : ((i + 1 : Nat) : Int) * (b : Int) = (i : Int) * (b : Int) + (b : Int) := by
      push_cast; ring
    obtain ⟨h1, h2⟩ := ih (by omega) (fun j hj => hneg j (by omega))
    have hl := located_constant_frames b r _ h1 (by rw [h2]; omega)
    obtain ⟨_, hs, hp, _⟩ := get_ac3_packet_drop hl (hneg i (Nat.lt_succ_self i))
    rw [get_ac3_packet_iter_succ]
    simp only [zero_add] at hs hp
    refine ⟨hp.mpr (by omega), ?_⟩
    rw [hs, h2]
    omega

theorem dropped_frames_values :
    dropped_frames (-800) 32 = 25 ∧ dropped_frames (-48) 32 = 2 ∧ dropped_frames (-1) 32 = 1 := by
  refine ⟨?_, ?_, ?_⟩ <;> norm_num [dropped_frames, c_int] <;> rfl

theorem dropped_frames_claimed_values :
    dropped_frames_claimed (-800) 32 = 25 ∧ dropped_frames_claimed (-48) 32 = 1 ∧
    dropped_frames_claimed (-1) 32 = 0 := by
  refine ⟨?_, ?_, ?_⟩ <;> unfold dropped_frames_claimed <;> rw [Int.ceil_eq_iff] <;> norm_num

theorem pims_128 : pims { bytes := 128, bit_rate := 32000 } = 32 := by
  norm_num [pims]

/-- On `n` zero bytes the locator `constant_frames 128 32000` offers a frame of
32 ms to each of the first calls, as long as whole frames remain. -/
theorem zero_filled_available (n : Nat) (D : Int) (i : Nat) (hn : (i + 1) * 128 ≤ n)
    (hneg : ∀ j, j < i →
      (get_ac3_packet_iter (constant_frames 128 32000) j (zero_filled n D)).displacement < 0) :
    ∃ r, located (constant_frames 128 32000)
        (get_ac3_packet_iter (constant_frames 128 32000) i (zero_filled n D)) = some r ∧
      pims r.2 = 32 := by
  have hsz : (zero_filled n D).buffer_size = (n : Int) := by
    simp [zero_filled, add_to_buffer, ac3_packetizer_c.new]
  have hpb : (zero_filled n D).packet_buffer ≠ none := by
    simp [zero_filled, add_to_buffer]
  obtain ⟨h1, h2⟩ := constant_frames_iter 128 32000 (by decide) (zero_filled n D) hpb i
    (by rw [hsz]; exact_mod_cast hn) hneg
  refine ⟨_, located_constant_frames 128 32000 _ h1 ?_, pims_128⟩
  rw [h2, hsz]
  have : (((i + 1) * 128 : Nat) : Int) ≤ (n : Int) := by exact_mod_cast hn
  push_cast at this ⊢
  omega

/-- C4, counterexample. On frames of 128 bytes at 32000 bit/s (32 ms each), a
displacement of -48 ms costs 2 frames where `ceil((48 - 16) / 32) = 1`, and a
displacement of -1 ms costs 1 frame where `ceil((1 - 16) / 32) = 0`. -/
theorem dropped_frames_counterexample :
    pims { bytes := 128, bit_rate := 32000 } = 32 ∧
    (drops_before_emit (constant_frames 128 32000) 3 (zero_filled 384 (-48)) = some 2 ∧
      dropped_frames_claimed (-48) 32 = 1) ∧
    (drops_before_emit (constant_frames 128 32000) 2 (zero_filled 256 (-1)) = some 1 ∧
      dropped_frames_claimed (-1) 32 = 0) := by
  have e1 : (zero_filled 384 (-48)).displacement = -48 := rfl
  have e2 : (zero_filled 256 (-1)).displacement = -1 := rfl
  refine ⟨pims_128, ⟨?_, dropped_frames_claimed_values.2.1⟩, ⟨?_, dropped_frames_claimed_values.2.2⟩⟩
  · have h := (dropped_frames_exact (constant_frames 128 32000) (zero_filled 384 (-48)) 32
      (by norm_num) (by rw [e1]; decide)
      (fun i hi hneg => zero_filled_available 384 (-48) i
        (by rw [e1, dropped_frames_values.2.1] at hi; omega) hneg)).1
    rw [e1, dropped_frames_values.2.1] at h
    exact h
  · have h := (dropped_frames_exact (constant_frames 128 32000) (zero_filled 256 (-1)) 32
      (by norm_num) (by rw [e2]; decide)
      (fun i hi hneg => zero_filled_available 256 (-1) i
        (by rw [e2, dropped_frames_values.2.2] at hi; omega) hneg)).1
    rw [e2, dropped_frames_values.2.2] at h
    exact h

/-- C4 (amended). From a negative displacement `D`, on a stream of fully buffered
frames of one duration `d` of at least 1 ms, `get_ac3_packet` drops exactly
`max 1 (floor((|D| - d/2) / trunc d) + 1)` frames before the displacement is 0
and a frame is returned: each of the first that many calls is entered with
negative displacement and returns `NULL`, the next call is entered with
displacement 0 and returns a packet.  For `D = -800` ms and `d = 32` ms that is
25 frames. -/
theorem dropped_frames_before_emit (find : ac3_locator) (s : ac3_packetizer_c) (d : ℚ)
    (hd : 1 ≤ d) (hD : s.displacement < 0)
    (hav : ∀ i, i ≤ dropped_frames s.displacement d →
      ∃ r, located find (get_ac3_packet_iter find i s) = some r ∧ pims r.2 = d) :
    (drops_before_emit find (dropped_frames s.displacement d + 1) s =
        some (dropped_frames s.displacement d) ∧
      (∀ i, i < dropped_frames s.displacement d →
        (get_ac3_packet_iter find i s).displacement < 0 ∧
        (get_ac3_packet find (get_ac3_packet_iter find i s)).1 = none) ∧
      (get_ac3_packet_iter find (dropped_frames s.displacement d) s).displacement = 0 ∧
      (get_ac3_packet find
        (get_ac3_packet_iter find (dropped_frames s.displacement d) s)).1.isSome = true) ∧
    dropped_frames (-800) 32 = 25 :=
  ⟨dropped_frames_exact find s d hd hD (fun i hi _ => hav i hi), dropped_frames_values.1⟩

/-- C4, witness: three frames of 32 ms and a displacement of -48 ms. -/
theorem dropped_frames_before_emit_witness :
    ((1 : ℚ) ≤ 32 ∧ (zero_filled 384 (-48)).displacement < 0 ∧
      ∀ i, i ≤ dropped_frames (zero_filled 384 (-48)).displacement 32 →
        ∃ r, located (constant_frames 128 32000)
            (get_ac3_packet_iter (constant_frames 128 32000) i (zero_filled 384 (-48))) =
              some r ∧ pims r.2 = 32) ∧
    (get_ac3_packet_iter (constant_frames 128 32000)
      (dropped_frames (zero_filled 384 (-48)).displacement 32)
      (zero_filled 384 (-48))).displacement = 0 := by
  have e1 : (zero_filled 384 (-48)).displacement = -48 := rfl
  have hav : ∀ i, i ≤ dropped_frames (zero_filled 384 (-48)).displacement 32 →
      ∃ r, located (constant_frames 128 32000)
          (get_ac3_packet_iter (constant_frames 128 32000) i (zero_filled 384 (-48))) =
            some r ∧ pims r.2 = 32 := by
    intro i hi
    rw [e1, dropped_frames_values.2.1] at hi
    have hlt : ∀ k, k ≤ 2 → (∀ j, j < k →
        (get_ac3_packet_iter (constant_frames 128 32000) j
          (zero_filled 384 (-48))).displacement < 0) := by
      intro k hk j hj
      have := (dropped_frames_exact (constant_frames 128 32000) (zero_filled 384 (-48)) 32
        (by norm_num) (by rw [e1]; decide)
        (fun i hi hneg => zero_filled_available 384 (-48) i
          (by rw [e1, dropped_frames_values.2.1] at hi; omega) hneg)).2.1 j
        (by rw [e1, dropped_frames_values.2.1]; omega)
      exact this.1
    exact zero_filled_available 384 (-48) i (by omega) (hlt i hi)
  exact ⟨⟨by norm_num, by rw [e1]; decide, hav⟩,
    (dropped_frames_before_emit (constant_frames 128 32000) (zero_filled 384 (-48)) 32
      (by norm_num) (by rw [e1]; decide) hav).1.2.2.1⟩

/-! ### Emitted packets are slices of the input (C1) -/

theorem slice_append (I c : List byte) (e : Nat × Nat) (h : e.1 + e.2 ≤ I.length) :
    slice (I ++ c) e = slice I e := by
  unfold slice
  rw [List.drop_append_of_le_length (by omega), List.take_append_of_le_length]
  simp only [List.length_drop]
  omega

/-- A call of `add_to_buffer` that returns has appended the first `size` bytes of
`buf` to the first `buffer_size` bytes of the buffer. -/
theorem add_to_buffer_some (s s0 : ac3_packetizer_c) (buf : List byte) (size : Int)
    (h : add_to_buffer s buf size = some s0) :
    0 ≤ size ∧
    s0 = { s with
      packet_buffer := some (s.contents.take s.buffer_size.toNat ++ buf.take size.toNat),
      buffer_size := s.buffer_size + size } := by
  unfold add_to_buffer at h
  by_cases h1 : size < 0 ∨ s.buffer_size + size < 0
  · rw [if_pos h1] at h
    exact absurd h (by simp)
  · rw [if_neg h1] at h
    by_cases h2 : s.packet_buffer.isSome ∧ s.buffer_size + size = 0
    · rw [if_pos h2] at h
      exact absurd h (by simp)
    · rw [if_neg h2] at h
      simp only [Option.some.injEq] at h
      exact ⟨by omega, h.symm⟩

/-- A call of `add_to_buffer` returns unless the size is negative or an allocated
buffer would be resized to 0 bytes. -/
theorem add_to_buffer_isSome (s : ac3_packetizer_c) (buf : List byte) (size : Int)
    (hsize : 0 ≤ size) (hsz : 0 ≤ s.buffer_size)
    (h : s.packet_buffer = none ∨ 0 < s.buffer_size + size) :
    (add_to_buffer s buf size).isSome := by
  unfold add_to_buffer
  rw [if_neg (by omega), if_neg]
  · rfl
  · rintro ⟨h1, h2⟩
    rcases h with h | h
    · rw [h] at h1
      exact absurd h1 (by simp)
    · omega

/-- A call of `process` that returns is a call of `add_to_buffer` that returns,
followed by the loop. -/
theorem process_some (find : ac3_locator) (fuel : Nat) (s : ac3_packetizer_c)
    (buf : List byte) (size last_frame : Int) (r : ac3_packetizer_c × Int)
    (h : process find fuel s buf size last_frame = some r) :
    ∃ s0, add_to_buffer s buf size = some s0 ∧ process_loop find fuel s0 = (r.1, true) ∧
      r.2 = (if last_frame ≠ 0 then 0 else EMOREDATA) := by
  unfold process at h
  cases ha : add_to_buffer s buf size with
  | none => rw [ha] at h; exact absurd h (by simp)
  | some s0 =>
    rw [ha] at h
    refine ⟨s0, rfl, ?_⟩
    simp only [] at h
    cases hp : process_loop find fuel s0 with
    | mk s1 b =>
      rw [hp] at h
      cases b with
      | false => exact absurd h (by simp)
      | true =>
        simp only [Option.some.injEq] at h
        rw [← h]
        exact ⟨rfl, rfl⟩

theorem add_to_buffer_invariant (find : ac3_locator) (I c : List byte)
    (s s0 : ac3_packetizer_c) (h : slices_invariant find I s)
    (hs : add_to_buffer s c c.length = some s0) :
    slices_invariant find (I ++ c) s0 := by
  obtain ⟨hc, k, ext, hk, hcont, hq, hext, hpw, hne⟩ := h
  obtain ⟨-, hs0⟩ := add_to_buffer_some s s0 c c.length hs
  have hcont2 : s0.contents = s.contents ++ c := by
    unfold ac3_packetizer_c.consistent at hc
    rw [hs0]
    simp only [ac3_packetizer_c.contents, Option.getD_some]
    unfold ac3_packetizer_c.contents at hc
    rw [List.take_of_length_le (by omega), List.take_of_length_le (by simp)]
  have hsize2 : s0.buffer_size = s.buffer_size + c.length := by rw [hs0]
  refine ⟨?_, k, ext, ?_, ?_, ?_, hext, hpw, hne⟩
  · unfold ac3_packetizer_c.consistent at hc ⊢
    rw [hcont2, hsize2]
    simp only [List.length_append]
    omega
  · simp only [List.length_append]; omega
  · rw [hcont2, hcont, List.drop_append_of_le_length hk]
  · have hq2 : consumed_packets s0 = consumed_packets s := by rw [hs0]; rfl
    rw [hq2, hq]
    apply List.map_congr_left
    intro e he
    rw [slice_append I c e (by have := hext e he; omega)]

/-- One round of the loop of `process` keeps the invariant: the state after
`get_ac3_packet`, with the returned packet (if any) handed to `add_packet`. -/
theorem get_ac3_packet_invariant (find : ac3_locator) (I : List byte) (s : ac3_packetizer_c)
    (h : slices_invariant find I s) :
    match get_ac3_packet find s with
    | (none, s1) => slices_invariant find I s1
    | (some (packet, hdr), s1) =>
      ∀ tc pn, slices_invariant find I
        { s1 with
          queue := s1.queue ++ [{ data := packet, size := hdr.bytes, timecode := tc,
                                  duplicate := decide (0 < s.displacement) }],
          packetno := pn } := by
  obtain ⟨hc, k, ext, hk, hcont, hq, hext, hpw, hne⟩ := h
  rw [get_ac3_packet_eq]
  cases hl : located find s with
  | none => exact ⟨hc, k, ext, hk, hcont, hq, hext, hpw, hne⟩
  | some r =>
    obtain ⟨pos, hdr⟩ := r
    obtain ⟨h0, h1, hnn⟩ := located_bounds hl
    have hlen : s.buffer_size = (I.length : Int) - (k : Int) := by
      unfold ac3_packetizer_c.consistent at hc
      rw [hc, hcont, List.length_drop]
      omega
    have hbytes : nonempty_frames find → 1 ≤ hdr.bytes := by
      intro hn
      unfold located at hl
      cases hpb : s.packet_buffer with
      | none => exact absurd hpb hnn
      | some pb =>
        simp only [hpb] at hl
        split_ifs at hl with c1 c2
        simp only [Option.some.injEq] at hl
        have := hn pb s.buffer_size (by omega)
        rw [hl] at this
        exact this
    by_cases hd1 : s.displacement < 0
    · -- the frame is dropped
      simp only [if_pos hd1]
      generalize (if ((s.displacement + c_int (pims hdr) : Int) : ℚ) > -(pims hdr / 2) then 0
        else s.displacement + c_int (pims hdr)) = dnew
      have hc0 : ({ s with displacement := dnew } : ac3_packetizer_c).consistent := hc
      obtain ⟨e1, e2, e3⟩ := remove_ac3_packet_contents hc0 h0 h1
      refine ⟨e3, k + (pos.toNat + hdr.bytes), ext, by omega, ?_, hq, ?_, hpw, hne⟩
      · rw [e1]
        show List.drop _ s.contents = _
        rw [hcont, List.drop_drop]
      · intro e he
        have := hext e he
        omega
    · simp only [if_neg hd1]
      by_cases hd2 : s.displacement > 0
      · -- the frame is duplicated
        simp only [if_pos hd2]
        intro tc pn
        refine ⟨hc, k, ext, hk, hcont, ?_, hext, hpw, hne⟩
        rw [← hq]
        have hd2' : 0 < s.displacement := hd2
        simp [consumed_packets, List.filter_append, hd2']
      · -- the frame is emitted and consumed
        simp only [if_neg hd2]
        intro tc pn
        obtain ⟨e1, e2, e3⟩ := remove_ac3_packet_contents hc h0 h1
        have hnd : ¬ (0 < s.displacement) := hd2
        refine ⟨e3, k + (pos.toNat + hdr.bytes), ext ++ [(k + pos.toNat, hdr.bytes)],
          by omega, ?_, ?_, ?_, ?_, ?_⟩
        · show (remove_ac3_packet s pos hdr.bytes).contents = _
          rw [e1, hcont, List.drop_drop]
        · have hq2 : consumed_packets s = s.queue.filter (fun p => !p.duplicate) := rfl
          simp only [consumed_packets, List.filter_append, List.map_append,
            (remove_ac3_packet_fields s pos hdr.bytes).2.1]
          rw [← hq2, hq]
          simp [hnd, slice, hcont, List.drop_drop]
        · intro e he
          rcases List.mem_append.mp he with he | he
          · have := hext e he
            omega
          · simp only [List.mem_singleton] at he
            subst he
            simp only
            omega
        · rw [List.pairwise_append]
          refine ⟨hpw, List.pairwise_singleton _ _, ?_⟩
          intro a ha b hb
          simp only [List.mem_singleton] at hb
          subst hb
          have := hext a ha
          simp only
          omega
        · intro hn e he
          rcases List.mem_append.mp he with he | he
          · exact hne hn e he
          · simp only [List.mem_singleton] at he
            subst he
            exact hbytes hn

theorem process_loop_invariant (find : ac3_locator) (I : List byte) (fuel : Nat) :
    ∀ s : ac3_packetizer_c, slices_invariant find I s →
      slices_invariant find I (process_loop find fuel s).1 := by
  induction fuel with
  | zero => intro s h; exact h
  | succ fuel ih =>
    intro s h
    have hstep := get_ac3_packet_invariant find I s h
    unfold process_loop
    cases hg : get_ac3_packet find s with
    | mk o s1 =>
      rw [hg] at hstep
      cases o with
      | none => exact hstep
      | some p =>
        obtain ⟨packet, hdr⟩ := p
        exact ih _ (hstep _ _)

theorem process_invariant (find : ac3_locator) (I : List byte) (fuel : Nat)
    (s : ac3_packetizer_c) (c : List byte) (last_frame : Int) (r : ac3_packetizer_c × Int)
    (h : slices_invariant find I s)
    (hr : process find fuel s c c.length last_frame = some r) :
    slices_invariant find (I ++ c) r.1 := by
  obtain ⟨s0, ha, hp, -⟩ := process_some find fuel s c c.length last_frame r hr
  have h1 := process_loop_invariant find (I ++ c) fuel s0
    (add_to_buffer_invariant find I c s s0 h ha)
  rw [hp] at h1
  exact h1

theorem process_all_invariant (find : ac3_locator) (fuel : Nat)
    (calls : List (List byte × Int)) :
    ∀ (I : List byte) (s t : ac3_packetizer_c), slices_invariant find I s →
      process_all find fuel s calls = some t →
      slices_invariant find (I ++ (calls.map Prod.fst).flatten) t := by
  induction calls with
  | nil =>
    intro I s t h hr
    simp only [process_all, Option.some.injEq] at hr
    subst hr
    simpa using h
  | cons c cs ih =>
    intro I s t h hr
    unfold process_all at hr
    cases hp : process find fuel s c.1 c.1.length c.2 with
    | none => simp [hp] at hr
    | some r =>
      simp only [hp] at hr
      have h1 := process_invariant find I fuel s c.1 c.2 r h hp
      have h2 := ih (I ++ c.1) r.1 t h1 hr
      simpa [List.append_assoc] using h2

theorem new_invariant (find : ac3_locator) (nsps : Nat) (nch nbr D : Int) (linear : ℚ) :
    slices_invariant find [] (ac3_packetizer_c.new nsps nch nbr D linear) := by
  refine ⟨rfl, 0, [], le_refl _, rfl, rfl, ?_, List.Pairwise.nil, ?_⟩
  · intro e he; simp at he
  · intro _ e he; simp at he

/-- C1 (amended). After any sequence of `process` calls on a fresh AC-3 packetizer, with
input chunks `c1..cn` and `I = c1 ++ ... ++ cn`, and for any frame locator: the
packets handed to `add_packet` with consumption (not the duplicates fetched
while `displacement > 0`) are, in emission order, the slices of `I` with
extents `ext`, each ending where or before the next begins and all ending at or
before the consumed position `k`; the buffer holds exactly the suffix of `I`
after position `k`; and when the locator reports no empty frame the offsets of
the slices are strictly increasing. -/
theorem emitted_packets_are_slices (find : ac3_locator) (fuel : Nat) (nsps : Nat)
    (nch nbr D : Int) (linear : ℚ) (calls : List (List byte × Int)) (t : ac3_packetizer_c)
    (hrun : process_all find fuel (ac3_packetizer_c.new nsps nch nbr D linear) calls =
      some t) :
    ∃ (k : Nat) (ext : List (Nat × Nat)),
      (consumed_packets t).map (fun p => (p.data, p.size)) =
        ext.map (fun e => (slice (calls.map Prod.fst).flatten e, e.2)) ∧
      (∀ e ∈ ext, e.1 + e.2 ≤ k) ∧ k ≤ ((calls.map Prod.fst).flatten).length ∧
      ext.Pairwise (fun a b => a.1 + a.2 ≤ b.1) ∧
      t.contents = ((calls.map Prod.fst).flatten).drop k ∧
      t.buffer_size = (((calls.map Prod.fst).flatten).length : Int) - (k : Int) ∧
      (nonempty_frames find → ext.Pairwise (fun a b => a.1 < b.1)) := by
  have h := process_all_invariant find fuel calls [] _ t
    (new_invariant find nsps nch nbr D linear) hrun
  rw [List.nil_append] at h
  obtain ⟨hc, k, ext, hk, hcont, hq, hext, hpw, hne⟩ := h
  refine ⟨k, ext, hq, hext, hk, hpw, hcont, ?_, ?_⟩
  · unfold ac3_packetizer_c.consistent at hc
    rw [hc, hcont, List.length_drop]
    omega
  · intro hn
    have hpos := hne hn
    refine List.Pairwise.imp_of_mem ?_ hpw
    intro a b ha _ hab
    have := hpos a ha
    omega

/-! ### Examples for the AC-3 packetizer -/

theorem nonempty_constant_frames (b r : Nat) (hb : 1 ≤ b) :
    nonempty_frames (constant_frames b r) := by
  intro buf size _
  unfold constant_frames
  split_ifs <;> exact hb

/-- The state `zero_filled n D` is what `add_to_buffer` makes of a fresh
packetizer and `n` zero bytes. -/
theorem zero_filled_eq (n : Nat) (D : Int) :
    add_to_buffer (ac3_packetizer_c.new 48000 2 0 D 1) (List.replicate n 0) n =
      some (zero_filled n D) := by
  unfold add_to_buffer
  rw [if_neg (by simp [ac3_packetizer_c.new]), if_neg (by simp [ac3_packetizer_c.new])]
  simp [zero_filled, ac3_packetizer_c.new, ac3_packetizer_c.contents]

theorem zero_filled_consistent (n : Nat) (D : Int) : (zero_filled n D).consistent := by
  simp [ac3_packetizer_c.consistent, zero_filled, add_to_buffer, ac3_packetizer_c.contents,
    ac3_packetizer_c.new]

theorem zero_filled_located (b r n : Nat) (D : Int) (h : b ≤ n) :
    located (constant_frames b r) (zero_filled n D) = some (0, { bytes := b, bit_rate := r }) := by
  apply located_constant_frames
  · simp [zero_filled, add_to_buffer]
  · simp [zero_filled, add_to_buffer, ac3_packetizer_c.new]
    exact_mod_cast h

/-- C1, witness: two `process` calls, on 6 and on 3 bytes, with frames of 4
bytes. -/
theorem emitted_packets_are_slices_witness :
    ∃ t, process_all (constant_frames 4 1000) 3 (ac3_packetizer_c.new 48000 2 0 0 1)
        [([1, 2, 3, 4, 5, 6], 0), ([7, 8, 9], 1)] = some t ∧
      nonempty_frames (constant_frames 4 1000) ∧
      ∃ (k : Nat) (ext : List (Nat × Nat)),
        (consumed_packets t).map (fun p => (p.data, p.size)) =
          ext.map (fun e => (slice [1, 2, 3, 4, 5, 6, 7, 8, 9] e, e.2)) ∧
        (∀ e ∈ ext, e.1 + e.2 ≤ k) ∧ k ≤ 9 ∧
        ext.Pairwise (fun a b => a.1 + a.2 ≤ b.1) ∧
        t.contents = List.drop k [1, 2, 3, 4, 5, 6, 7, 8, 9] ∧
        t.buffer_size = 9 - (k : Int) ∧
        ext.Pairwise (fun a b => a.1 < b.1) := by
  obtain ⟨t, ht⟩ := Option.isSome_iff_exists.mp
    (by decide : (process_all (constant_frames 4 1000) 3 (ac3_packetizer_c.new 48000 2 0 0 1)
      [([1, 2, 3, 4, 5, 6], 0), ([7, 8, 9], 1)]).isSome = true)
  have hn := nonempty_constant_frames 4 1000 (by decide)
  obtain ⟨k, ext, h1, h2, h3, h4, h5, h6, h7⟩ :=
    emitted_packets_are_slices (constant_frames 4 1000) 3 48000 2 0 0 1
      [([1, 2, 3, 4, 5, 6], 0), ([7, 8, 9], 1)] t ht
  exact ⟨t, ht, hn, k, ext, h1, h2, h3, h4, h5, h6, h7 hn⟩

/-- C1, counterexample. A locator that reports a frame of 0 bytes, and two
`process` calls with an empty chunk each: both calls hand over an empty packet
with consumption, the input `I` is empty, and both packets are the slice of `I`
at offset 0; no choice of offsets within `I` is strictly increasing. -/
theorem emitted_packets_counterexample :
    ∃ t, process_all empty_frames 2 (ac3_packetizer_c.new 48000 2 0 0 1)
        [([], 0), ([], 0)] = some t ∧
      (consumed_packets t).map (fun p => (p.data, p.size)) = [([], 0), ([], 0)] ∧
      ¬ ∃ ext : List (Nat × Nat),
        (consumed_packets t).map (fun p => (p.data, p.size)) =
          ext.map (fun e => (slice ([] : List byte) e, e.2)) ∧
        (∀ e ∈ ext, e.1 + e.2 ≤ ([] : List byte).length) ∧
        ext.Pairwise (fun a b => a.1 < b.1) := by
  obtain ⟨t, ht⟩ := Option.isSome_iff_exists.mp
    (by decide : (process_all empty_frames 2 (ac3_packetizer_c.new 48000 2 0 0 1)
      [([], 0), ([], 0)]).isSome = true)
  have hq : (process_all empty_frames 2 (ac3_packetizer_c.new 48000 2 0 0 1)
      [([], 0), ([], 0)]).map
        (fun t => (consumed_packets t).map (fun p => (p.data, p.size))) =
      some [([], 0), ([], 0)] := by decide
  rw [ht] at hq
  simp only [Option.map_some', Option.some.injEq] at hq
  refine ⟨t, ht, hq, ?_⟩
  rintro ⟨ext, h1, h2, h3⟩
  rw [hq] at h1
  have hlen := congrArg List.length h1
  simp only [List.length_cons, List.length_nil, List.length_map] at hlen
  match ext, hlen, h2, h3 with
  | [e1, e2], _, h2, h3 =>
    have a1 := h2 e1 (by simp)
    have a2 := h2 e2 (by simp)
    simp only [List.length_nil] at a1 a2
    rw [List.pairwise_cons] at h3
    have := h3.1 e2 (by simp)
    omega

theorem durations_example :
    durations (constant_frames 834 192000) 1 (zero_filled 834 (-100)) = some [139 / 4] := by
  have hl := zero_filled_located 834 192000 834 (-100) (le_refl _)
  have hp : pims { bytes := 834, bit_rate := 192000 } = 139 / 4 := by norm_num [pims]
  simp only [durations, hl, hp, Option.map_some']

/-- C2, witness: one frame of 34.75 ms from a displacement of -100 ms. -/
theorem displacement_accumulation_witness :
    durations (constant_frames 834 192000) 1 (zero_filled 834 (-100)) = some [139 / 4] ∧
    ([139 / 4] : List ℚ).length = 1 ∧
    (get_ac3_packet_iter (constant_frames 834 192000) 1 (zero_filled 834 (-100))).displacement =
      List.foldl section_4_4_rule_truncated (zero_filled 834 (-100)).displacement [139 / 4] :=
  ⟨durations_example,
    displacement_accumulation (constant_frames 834 192000) 1 (zero_filled 834 (-100)) [139 / 4]
      durations_example⟩

/-- C3, witness: one frame of 32 ms and a displacement of 64 ms. -/
theorem positive_displacement_repeats_frame_witness :
    (zero_filled 128 64).consistent ∧
    located (constant_frames 128 32000) (zero_filled 128 64) =
      some (0, { bytes := 128, bit_rate := 32000 }) ∧
    0 < (zero_filled 128 64).displacement ∧
    (get_ac3_packet (constant_frames 128 32000) (zero_filled 128 64)).2.packet_buffer =
      (zero_filled 128 64).packet_buffer ∧
    (get_ac3_packet (constant_frames 128 32000) (zero_filled 128 64)).2.buffer_size =
      (zero_filled 128 64).buffer_size :=
  ⟨zero_filled_consistent 128 64, zero_filled_located 128 32000 128 64 (le_refl _), by decide,
    (positive_displacement_repeats_frame (constant_frames 128 32000) (zero_filled 128 64) 0
      { bytes := 128, bit_rate := 32000 } (zero_filled_consistent 128 64)
      (zero_filled_located 128 32000 128 64 (le_refl _)) (by decide)).1.2⟩

/-- C5, witness: one frame of 32 ms and no displacement. -/
theorem zero_displacement_absorbing_witness :
    (zero_filled 128 0).consistent ∧ (zero_filled 128 0).displacement = 0 ∧
    (get_ac3_packet (constant_frames 128 32000) (zero_filled 128 0)).2.displacement = 0 :=
  ⟨zero_filled_consistent 128 0, rfl,
    (zero_displacement_absorbing (constant_frames 128 32000) (zero_filled 128 0)
      (zero_filled_consistent 128 0) rfl).1⟩

/-- C2, counterexample. A frame of 834 bytes at 192000 bit/s (AC-3 at 44.1 kHz)
lasts 34.75 ms; from a displacement of -100 ms the code reaches -66 ms, the rule
of section 4.4 over rational durations reaches -65.25 ms. -/
theorem displacement_accumulation_counterexample :
    durations (constant_frames 834 192000) 1 (zero_filled 834 (-100)) = some [139 / 4] ∧
    (get_ac3_packet_iter (constant_frames 834 192000) 1 (zero_filled 834 (-100))).displacement
      = -66 ∧
    List.foldl section_4_4_rule ((-100 : Int) : ℚ) [139 / 4] = -261 / 4 ∧
    (((get_ac3_packet_iter (constant_frames 834 192000) 1
        (zero_filled 834 (-100))).displacement : Int) : ℚ) ≠
      List.foldl section_4_4_rule ((-100 : Int) : ℚ) [139 / 4] := by
  have hl := zero_filled_located 834 192000 834 (-100) (le_refl _)
  have hp : pims { bytes := 834, bit_rate := 192000 } = 139 / 4 := by norm_num [pims]
  have hd : durations (constant_frames 834 192000) 1 (zero_filled 834 (-100)) = some [139 / 4] := by
    simp only [durations, hl, hp, Option.map_some']
  have h66 : (get_ac3_packet_iter (constant_frames 834 192000) 1
      (zero_filled 834 (-100))).displacement = -66 := by
    show (get_ac3_packet _ _).2.displacement = -66
    rw [get_ac3_packet_displacement hl, hp]
    norm_num [section_4_4_rule_truncated, zero_filled, add_to_buffer, ac3_packetizer_c.new, c_int]
  have hs : List.foldl section_4_4_rule ((-100 : Int) : ℚ) [139 / 4] = -261 / 4 := by
    norm_num [section_4_4_rule]
  refine ⟨hd, h66, hs, ?_⟩
  rw [h66, hs]
  norm_num

/-! ## Rounding to `double` -/

theorem round_even_intCast (n : Int) : round_even (n : ℚ) = n := by
  simp [round_even]

theorem round_even_bounds (x : ℚ) :
    x - 1 / 2 ≤ (round_even x : ℚ) ∧ (round_even x : ℚ) ≤ x + 1 / 2 := by
  have h0 := Int.fract_nonneg x
  have h1 := Int.fract_lt_one x
  have hx : x = (⌊x⌋ : ℚ) + Int.fract x := (Int.floor_add_fract x).symm
  unfold round_even
  split_ifs with ha hb hc
  · constructor <;> linarith
  · push_cast; constructor <;> linarith
  · have : 2 * Int.fract x = 1 := le_antisymm (not_lt.mp hb) (not_lt.mp ha)
    constructor <;> linarith
  · have : 2 * Int.fract x = 1 := le_antisymm (not_lt.mp hb) (not_lt.mp ha)
    push_cast; constructor <;> linarith

theorem round_even_near (x : ℚ) (m : Int) (h : |x - m| < 1 / 2) : round_even x = m := by
  obtain ⟨h1, h2⟩ := abs_lt.mp h
  obtain ⟨b1, b2⟩ := round_even_bounds x
  have l1 : ((round_even x : Int) : ℚ) < (m : ℚ) + 1 := by linarith
  have l2 : (m : ℚ) - 1 < ((round_even x : Int) : ℚ) := by linarith
  have l1' : round_even x < m + 1 := by exact_mod_cast l1
  have l2' : m - 1 < round_even x := by exact_mod_cast l2
  omega

theorem log_two_bounds (q : ℚ) (hq : q ≠ 0) :
    (2 : ℚ) ^ Int.log 2 |q| ≤ |q| ∧ |q| < (2 : ℚ) ^ (Int.log 2 |q| + 1) := by
  have hpos : 0 < |q| := abs_pos.mpr hq
  constructor
  · have := Int.zpow_log_le_self (b := 2) (by norm_num) hpos
    exact_mod_cast this
  · have := Int.lt_zpow_succ_log_self (b := 2) (by norm_num) |q|
    exact_mod_cast this

theorem log_two_eq (q : ℚ) (k : Int) (h1 : (2 : ℚ) ^ k ≤ |q|) (h2 : |q| < (2 : ℚ) ^ (k + 1)) :
    Int.log 2 |q| = k := by
  have hpos : 0 < |q| := lt_of_lt_of_le (by positivity) h1
  apply le_antisymm
  · have : Int.log 2 |q| < k + 1 := by
      rw [← Int.lt_zpow_iff_log_lt (by norm_num) hpos]
      exact_mod_cast h2
    omega
  · rw [← Int.zpow_le_iff_le_log (by norm_num) hpos]
    exact_mod_cast h1

theorem to_double_zero : to_double 0 = 0 := by simp [to_double]

theorem to_double_eq (q : ℚ) (k m : Int) (h1 : (2 : ℚ) ^ (k + 52) ≤ |q|)
    (h2 : |q| < (2 : ℚ) ^ (k + 53)) (h3 : |q / (2 : ℚ) ^ k - m| < 1 / 2) :
    to_double q = (m : ℚ) * (2 : ℚ) ^ k := by
  have hq : q ≠ 0 := by
    intro h
    rw [h, abs_zero] at h1
    have : (0 : ℚ) < (2 : ℚ) ^ (k + 52) := by positivity
    linarith
  have hl : Int.log 2 |q| = k + 52 := log_two_eq q (k + 52) h1 (by
    have : k + 52 + 1 = k + 53 := by ring
    rw [this]; exact h2)
  unfold to_double
  rw [if_neg hq]
  simp only [hl]
  have : k + 52 - 52 = k := by ring
  rw [this, round_even_near _ m h3]

theorem to_double_error (q : ℚ) : |to_double q - q| * 2 ^ 53 ≤ |q| := by
  by_cases hq : q = 0
  · simp [hq, to_double]
  · obtain ⟨h1, -⟩ := log_two_bounds q hq
    unfold to_double
    rw [if_neg hq]
    simp only []
    set e : Int := Int.log 2 |q| - 52 with he
    have hl : Int.log 2 |q| = e + 52 := by omega
    rw [hl] at h1
    have hpos : (0 : ℚ) < (2 : ℚ) ^ e := by positivity
    obtain ⟨b1, b2⟩ := round_even_bounds (q / (2 : ℚ) ^ e)
    have hx : q = q / (2 : ℚ) ^ e * (2 : ℚ) ^ e := by field_simp
    have habs : |(round_even (q / (2 : ℚ) ^ e) : ℚ) * (2 : ℚ) ^ e - q| ≤ (2 : ℚ) ^ e / 2 := by
      have : (round_even (q / (2 : ℚ) ^ e) : ℚ) * (2 : ℚ) ^ e - q
          = ((round_even (q / (2 : ℚ) ^ e) : ℚ) - q / (2 : ℚ) ^ e) * (2 : ℚ) ^ e := by
        field_simp
      rw [this, abs_mul, abs_of_pos hpos]
      have : |(round_even (q / (2 : ℚ) ^ e) : ℚ) - q / (2 : ℚ) ^ e| ≤ 1 / 2 := by
        rw [abs_le]; constructor <;> linarith
      nlinarith
    have hsplit : (2 : ℚ) ^ (e + 52) = (2 : ℚ) ^ e * 2 ^ 52 := by
      rw [zpow_add₀ (by norm_num : (2 : ℚ) ≠ 0)]
      norm_num
    rw [hsplit] at h1
    have h53 : ((2 : ℚ) ^ 53) = 2 * 2 ^ 52 := by norm_num
    calc |(round_even (q / (2 : ℚ) ^ e) : ℚ) * (2 : ℚ) ^ e - q| * 2 ^ 53
        ≤ (2 : ℚ) ^ e / 2 * 2 ^ 53 := by
          apply mul_le_mul_of_nonneg_right habs (by positivity)
      _ = (2 : ℚ) ^ e * 2 ^ 52 := by rw [h53]; ring
      _ ≤ |q| := h1

theorem to_double_intCast (n : Int) (h : |n| < 2 ^ 53) : to_double (n : ℚ) = n := by
  by_cases hn : n = 0
  · simp [hn, to_double]
  · have hq : (n : ℚ) ≠ 0 := by exact_mod_cast hn
    obtain ⟨h1, -⟩ := log_two_bounds (n : ℚ) hq
    unfold to_double
    rw [if_neg hq]
    simp only []
    set e : Int := Int.log 2 |(n : ℚ)| - 52 with he
    have hl : Int.log 2 |(n : ℚ)| = e + 52 := by omega
    rw [hl] at h1
    have hlt : |(n : ℚ)| < (2 : ℚ) ^ (53 : Int) := by
      have : ((|n| : Int) : ℚ) < ((2 ^ 53 : Int) : ℚ) := by exact_mod_cast h
      rw [Int.cast_abs] at this
      norm_num at this ⊢
      exact this
    have hle : e + 52 < 53 := by
      have := lt_of_le_of_lt h1 hlt
      exact (zpow_lt_zpow_iff_right₀ (by norm_num : (1 : ℚ) < 2)).mp this
    obtain ⟨j, hj⟩ : ∃ j : Nat, e = -(j : Int) := ⟨(-e).toNat, by omega⟩
    have hdiv : (n : ℚ) / (2 : ℚ) ^ e = ((n * 2 ^ j : Int) : ℚ) := by
      rw [hj, zpow_neg, zpow_natCast]
      push_cast
      field_simp
    rw [hdiv, round_even_intCast, hj, zpow_neg, zpow_natCast]
    push_cast
    field_simp

theorem to_double_natCast (n : Nat) (h : n < 2 ^ 53) : to_double (n : ℚ) = n := by
  have := to_double_intCast (n : Int) (by
    rw [abs_of_nonneg (by positivity)]
    exact_mod_cast h)
  exact_mod_cast this

/-- The double quotient of two integers, the dividend below 2^53, has the integer
part of the exact quotient. -/
theorem to_double_div_floor (a b : Nat) (ha : a < 2 ^ 53) (hb : 1 ≤ b) :
    ((a / b : Nat) : ℚ) ≤ to_double ((a : ℚ) / (b : ℚ)) ∧
    to_double ((a : ℚ) / (b : ℚ)) < ((a / b : Nat) : ℚ) + 1 := by
  have hb0 : (0 : ℚ) < (b : ℚ) := by exact_mod_cast hb
  have hdm : b * (a / b) + a % b = a := Nat.div_add_mod a b
  have hdmq : (b : ℚ) * ((a / b : Nat) : ℚ) + ((a % b : Nat) : ℚ) = (a : ℚ) := by
    exact_mod_cast hdm
  have hmod : a % b < b := Nat.mod_lt a hb
  by_cases hr : a % b = 0
  · have hq : (a : ℚ) / (b : ℚ) = ((a / b : Nat) : ℚ) := by
      rw [hr] at hdmq
      field_simp
      push_cast at hdmq ⊢
      linarith
    have hlt : a / b < 2 ^ 53 := lt_of_le_of_lt (Nat.div_le_self a b) ha
    rw [hq, to_double_natCast _ hlt]
    constructor <;> linarith
  · have hr1 : (1 : ℚ) ≤ ((a % b : Nat) : ℚ) := by
      have : 1 ≤ a % b := Nat.one_le_iff_ne_zero.mpr hr
      exact_mod_cast this
    have hr2 : ((a % b : Nat) : ℚ) + 1 ≤ (b : ℚ) := by exact_mod_cast hmod
    have hq : (a : ℚ) / (b : ℚ) = ((a / b : Nat) : ℚ) + ((a % b : Nat) : ℚ) / (b : ℚ) := by
      field_simp
      linarith
    have haq : (a : ℚ) < 2 ^ 53 := by exact_mod_cast ha
    have hqn : (0 : ℚ) ≤ (a : ℚ) / (b : ℚ) := by positivity
    have herr := to_double_error ((a : ℚ) / (b : ℚ))
    rw [abs_of_nonneg hqn] at herr
    have hinv : (a : ℚ) / (b : ℚ) < 2 ^ 53 / (b : ℚ) := by
      apply div_lt_div_of_pos_right haq hb0
    have herr2 : |to_double ((a : ℚ) / (b : ℚ)) - (a : ℚ) / (b : ℚ)| < 1 / (b : ℚ) := by
      have h53 : (0 : ℚ) < 2 ^ 53 := by positivity
      have : |to_double ((a : ℚ) / (b : ℚ)) - (a : ℚ) / (b : ℚ)| * 2 ^ 53 < 2 ^ 53 / (b : ℚ) :=
        lt_of_le_of_lt herr hinv
      have h2 : 2 ^ 53 / (b : ℚ) = 1 / (b : ℚ) * 2 ^ 53 := by ring
      rw [h2] at this
      exact lt_of_mul_lt_mul_right this h53.le
    obtain ⟨e1, e2⟩ := abs_lt.mp herr2
    have hfr1 : 1 / (b : ℚ) ≤ ((a % b : Nat) : ℚ) / (b : ℚ) := by
      apply div_le_div_of_nonneg_right hr1 hb0.le
    have hfr2 : ((a % b : Nat) : ℚ) / (b : ℚ) + 1 / (b : ℚ) ≤ 1 := by
      rw [← add_div, div_le_one hb0]
      exact hr2
    constructor <;> linarith


theorem floor_natCast_div (a b : Nat) (hb : 1 ≤ b) :
    ⌊(a : ℚ) / (b : ℚ)⌋ = ((a / b : Nat) : Int) := by
  have hs0 : (0 : ℚ) < (b : ℚ) := by exact_mod_cast hb
  have hdm : b * (a / b) + a % b = a := Nat.div_add_mod _ _
  have hmod : a % b < b := Nat.mod_lt _ hb
  generalize a / b = n at hdm
  generalize a % b = r at hdm hmod
  have hdmq : (b : ℚ) * (n : ℚ) + (r : ℚ) = (a : ℚ) := by exact_mod_cast hdm
  have hmodq : (r : ℚ) < (b : ℚ) := by exact_mod_cast hmod
  have hr0 : (0 : ℚ) ≤ (r : ℚ) := by positivity
  rw [Int.floor_eq_iff]
  constructor
  · rw [le_div_iff₀ hs0]
    push_cast
    nlinarith
  · rw [div_lt_iff₀ hs0]
    push_cast
    nlinarith

/-- The cast to an integer of the double quotient of two integers, the dividend
below 2^53, is the integer part of the exact quotient. -/
theorem c_int_to_double_div (a b : Nat) (ha : a < 2 ^ 53) (hb : 1 ≤ b) :
    c_int (to_double ((a : ℚ) / (b : ℚ))) = ⌊(a : ℚ) / (b : ℚ)⌋ := by
  obtain ⟨b1, b2⟩ := to_double_div_floor a b ha hb
  have hnn : (0 : ℚ) ≤ to_double ((a : ℚ) / (b : ℚ)) := le_trans (by positivity) b1
  rw [c_int_of_nonneg hnn, floor_natCast_div a b hb, Int.floor_eq_iff]
  exact ⟨by exact_mod_cast b1, by exact_mod_cast b2⟩

/-- A number with at most 53 significant bits is a `double`. -/
theorem to_double_repr (n k : Int) (h : |n| < 2 ^ 53) :
    to_double ((n : ℚ) * (2 : ℚ) ^ k) = (n : ℚ) * (2 : ℚ) ^ k := by
  by_cases hn : n = 0
  · simp [hn, to_double]
  · have hnq : (n : ℚ) ≠ 0 := by exact_mod_cast hn
    have hkpos : (0 : ℚ) < (2 : ℚ) ^ k := by positivity
    have hq : (n : ℚ) * (2 : ℚ) ^ k ≠ 0 := mul_ne_zero hnq hkpos.ne'
    obtain ⟨h1, -⟩ := log_two_bounds _ hq
    unfold to_double
    rw [if_neg hq]
    simp only []
    set e : Int := Int.log 2 |(n : ℚ) * (2 : ℚ) ^ k| - 52 with he
    have hl : Int.log 2 |(n : ℚ) * (2 : ℚ) ^ k| = e + 52 := by omega
    rw [hl] at h1
    have hlt : |(n : ℚ)| < (2 : ℚ) ^ (53 : Int) := by
      have : ((|n| : Int) : ℚ) < ((2 ^ 53 : Int) : ℚ) := by exact_mod_cast h
      rw [Int.cast_abs] at this
      norm_num at this ⊢
      exact this
    have hlt2 : |(n : ℚ) * (2 : ℚ) ^ k| < (2 : ℚ) ^ (53 + k) := by
      rw [abs_mul, abs_of_pos hkpos, zpow_add₀ (by norm_num : (2 : ℚ) ≠ 0)]
      exact mul_lt_mul_of_pos_right hlt hkpos
    have hle : e + 52 < 53 + k := by
      have := lt_of_le_of_lt h1 hlt2
      exact (zpow_lt_zpow_iff_right₀ (by norm_num : (1 : ℚ) < 2)).mp this
    obtain ⟨j, hj⟩ : ∃ j : Nat, k = e + (j : Int) := ⟨(k - e).toNat, by omega⟩
    have hepos : (0 : ℚ) < (2 : ℚ) ^ e := by positivity
    have hdiv : (n : ℚ) * (2 : ℚ) ^ k / (2 : ℚ) ^ e = ((n * 2 ^ j : Int) : ℚ) := by
      rw [hj, zpow_add₀ (by norm_num : (2 : ℚ) ≠ 0), zpow_natCast]
      push_cast
      field_simp
      ring
    rw [hdiv, round_even_intCast, hj, zpow_add₀ (by norm_num : (2 : ℚ) ≠ 0), zpow_natCast]
    push_cast
    ring

/-- The double quotient of two integers, the dividend below 2^53, lies on the same
side of every integer as the exact quotient. -/
theorem to_double_div_lt (a b : Nat) (ha : a < 2 ^ 53) (hb : 1 ≤ b) (m : Int) :
    ((m : ℚ) < to_double ((a : ℚ) / (b : ℚ)) ↔ (m : ℚ) < (a : ℚ) / (b : ℚ)) := by
  have hb0 : (0 : ℚ) < (b : ℚ) := by exact_mod_cast hb
  have hdm : b * (a / b) + a % b = a := Nat.div_add_mod a b
  have hmod : a % b < b := Nat.mod_lt a hb
  have hlt : a / b < 2 ^ 53 := lt_of_le_of_lt (Nat.div_le_self a b) ha
  generalize a / b = n at hdm hlt
  generalize a % b = r at hdm hmod
  have hdmq : (b : ℚ) * (n : ℚ) + (r : ℚ) = (a : ℚ) := by exact_mod_cast hdm
  by_cases hr : r = 0
  · have hq : (a : ℚ) / (b : ℚ) = (n : ℚ) := by
      rw [hr] at hdmq
      field_simp
      push_cast at hdmq ⊢
      linarith
    rw [hq, to_double_natCast _ hlt]
  · have hr1 : (1 : ℚ) ≤ (r : ℚ) := by
      have : 1 ≤ r := Nat.one_le_iff_ne_zero.mpr hr
      exact_mod_cast this
    have hr2 : (r : ℚ) + 1 ≤ (b : ℚ) := by exact_mod_cast hmod
    have hq : (a : ℚ) / (b : ℚ) = (n : ℚ) + (r : ℚ) / (b : ℚ) := by
      field_simp
      linarith
    have haq : (a : ℚ) < 2 ^ 53 := by exact_mod_cast ha
    have hqn : (0 : ℚ) ≤ (a : ℚ) / (b : ℚ) := by positivity
    have herr := to_double_error ((a : ℚ) / (b : ℚ))
    rw [abs_of_nonneg hqn] at herr
    have hinv : (a : ℚ) / (b : ℚ) < 2 ^ 53 / (b : ℚ) := by
      apply div_lt_div_of_pos_right haq hb0
    have herr2 : |to_double ((a : ℚ) / (b : ℚ)) - (a : ℚ) / (b : ℚ)| < 1 / (b : ℚ) := by
      have h53 : (0 : ℚ) < 2 ^ 53 := by positivity
      have : |to_double ((a : ℚ) / (b : ℚ)) - (a : ℚ) / (b : ℚ)| * 2 ^ 53 < 2 ^ 53 / (b : ℚ) :=
        lt_of_le_of_lt herr hinv
      have h2 : 2 ^ 53 / (b : ℚ) = 1 / (b : ℚ) * 2 ^ 53 := by ring
      rw [h2] at this
      exact lt_of_mul_lt_mul_right this h53.le
    obtain ⟨e1, e2⟩ := abs_lt.mp herr2
    have hfr1 : 1 / (b : ℚ) ≤ (r : ℚ) / (b : ℚ) := by
      apply div_le_div_of_nonneg_right hr1 hb0.le
    have hfr2 : (r : ℚ) / (b : ℚ) + 1 / (b : ℚ) ≤ 1 := by
      rw [← add_div, div_le_one hb0]
      exact hr2
    have l1 : (n : ℚ) < to_double ((a : ℚ) / (b : ℚ)) := by linarith
    have l2 : to_double ((a : ℚ) / (b : ℚ)) < (n : ℚ) + 1 := by linarith
    have l3 : (n : ℚ) < (a : ℚ) / (b : ℚ) := by linarith
    have l4 : (a : ℚ) / (b : ℚ) < (n : ℚ) + 1 := by linarith
    have key : ∀ x : ℚ, (n : ℚ) < x → x < (n : ℚ) + 1 → ((m : ℚ) < x ↔ m ≤ (n : Int)) := by
      intro x hx1 hx2
      constructor
      · intro hmx
        have : (m : ℚ) < ((n : Int) : ℚ) + 1 := by push_cast; linarith
        have : m < (n : Int) + 1 := by exact_mod_cast this
        omega
      · intro hmn
        have : (m : ℚ) ≤ ((n : Int) : ℚ) := by exact_mod_cast hmn
        push_cast at this
        linarith
    rw [key _ l1 l2, key _ l3 l4]

theorem round_even_tie (m : Int) (hm : m % 2 = 0) : round_even ((m : ℚ) + 1 / 2) = m := by
  have hfl : ⌊(m : ℚ) + 1 / 2⌋ = m := by
    rw [Int.floor_eq_iff]
    constructor <;> norm_num
  have hfr : Int.fract ((m : ℚ) + 1 / 2) = 1 / 2 := by
    unfold Int.fract
    rw [hfl]
    ring
  unfold round_even
  rw [hfr, hfl, if_neg (by norm_num), if_neg (by norm_num), if_pos hm]

/-- The double nearest to `q`, given the binade of `q` and the rounded
significand. -/
theorem to_double_of_round (q : ℚ) (k m : Int) (h1 : (2 : ℚ) ^ (k + 52) ≤ |q|)
    (h2 : |q| < (2 : ℚ) ^ (k + 53)) (h3 : round_even (q / (2 : ℚ) ^ k) = m) :
    to_double q = (m : ℚ) * (2 : ℚ) ^ k := by
  have hq : q ≠ 0 := by
    intro h
    rw [h, abs_zero] at h1
    have : (0 : ℚ) < (2 : ℚ) ^ (k + 52) := by positivity
    linarith
  have hl : Int.log 2 |q| = k + 52 := log_two_eq q (k + 52) h1 (by
    have : k + 52 + 1 = k + 53 := by ring
    rw [this]; exact h2)
  unfold to_double
  rw [if_neg hq]
  simp only [hl]
  have : k + 52 - 52 = k := by ring
  rw [this, h3]

/-- The frame duration of lines 120-121 computed in `double` arithmetic has the
integer part of the exact quotient `pims`, and compares with half integers as it
does: `get_ac3_packet` behaves alike with either. -/
theorem pims_rounding (h : ac3_header_t) (hb : 8000 * h.bytes < 2 ^ 53)
    (hr1 : 1 ≤ h.bit_rate) (hr2 : h.bit_rate < 2 ^ 53) :
    c_int (pims_double h) = c_int (pims h) ∧
    ∀ d : Int, (((d : ℚ) > -(pims_double h / 2)) ↔ ((d : ℚ) > -(pims h / 2))) ∧
      (((d : ℚ) < pims_double h / 2) ↔ ((d : ℚ) < pims h / 2)) := by
  have e1 : to_double ((h.bytes : ℚ)) = (h.bytes : ℚ) := to_double_natCast _ (by omega)
  have e2 : to_double ((h.bytes : ℚ) * 1000) = ((1000 * h.bytes : Nat) : ℚ) := by
    have := to_double_natCast (1000 * h.bytes) (by omega)
    rw [← this]
    congr 1
    push_cast
    ring
  have e3 : to_double ((h.bit_rate : ℚ)) = (h.bit_rate : ℚ) := to_double_natCast _ hr2
  have e4 : to_double ((h.bit_rate : ℚ) / 8) = (h.bit_rate : ℚ) / 8 := by
    have := to_double_repr (h.bit_rate : Int) (-3) (by
      rw [abs_of_nonneg (by positivity)]
      exact_mod_cast hr2)
    have e : ((h.bit_rate : Int) : ℚ) * (2 : ℚ) ^ (-3 : Int) = (h.bit_rate : ℚ) / 8 := by
      rw [zpow_neg]
      push_cast
      norm_num
      ring
    rw [e] at this
    exact this
  have hr0 : (0 : ℚ) < (h.bit_rate : ℚ) := by exact_mod_cast hr1
  have e5 : ((1000 * h.bytes : Nat) : ℚ) / ((h.bit_rate : ℚ) / 8) =
      ((8000 * h.bytes : Nat) : ℚ) / (h.bit_rate : ℚ) := by
    push_cast
    field_simp
    ring
  have e6 : pims h = ((8000 * h.bytes : Nat) : ℚ) / (h.bit_rate : ℚ) := by
    unfold pims
    push_cast
    field_simp
    ring
  have hpd : pims_double h = to_double (((8000 * h.bytes : Nat) : ℚ) / (h.bit_rate : ℚ)) := by
    unfold pims_double double_mul double_div
    rw [e1, e2, e3, e4, e5]
  have hnn : (0 : ℚ) ≤ ((8000 * h.bytes : Nat) : ℚ) / (h.bit_rate : ℚ) := by positivity
  have hfloor := c_int_to_double_div _ _ hb hr1
  have key := to_double_div_lt (8000 * h.bytes) h.bit_rate hb hr1
  rw [hpd, e6]
  generalize ((8000 * h.bytes : Nat) : ℚ) / (h.bit_rate : ℚ) = X at key hfloor hnn ⊢
  refine ⟨?_, fun d => ⟨?_, ?_⟩⟩
  · rw [hfloor, c_int_of_nonneg hnn]
  · have := key (-(2 * d))
    simp only [Int.cast_neg, Int.cast_mul, Int.cast_ofNat] at this
    constructor
    · intro hd
      have := this.mp (by linarith)
      linarith
    · intro hd
      have := this.mpr (by linarith)
      linarith
  · have := key (2 * d)
    simp only [Int.cast_mul, Int.cast_ofNat] at this
    constructor
    · intro hd
      have := this.mp (by linarith)
      linarith
    · intro hd
      have := this.mpr (by linarith)
      linarith

/-! ## Basic facts about the MPEG audio packetizer -/

section mp3
variable {G : Type}

theorem handle_garbage_fields (env : mp3_env G) (s : mp3_packetizer_c G) (bytes : Int) :
    (handle_garbage env s bytes).byte_buffer = s.byte_buffer ∧
    (handle_garbage env s bytes).valid_headers_found = s.valid_headers_found ∧
    (handle_garbage env s bytes).searches = s.searches ∧
    (handle_garbage env s bytes).packetno = s.packetno ∧
    (handle_garbage env s bytes).spf = s.spf ∧
    (∃ r : garbage_report, r.bytes = bytes ∧
      (handle_garbage env s bytes).reports = s.reports ++ [r]) ∧
    (handle_garbage env s bytes).base =
      if s.packetno = 0 then
        (env.handle_avi_audio_sync s.base bytes
          (decide (s.avi_block_align % 384 = 0) || decide (s.avi_block_align % 576 = 0))).1
      else s.base := by
  unfold handle_garbage
  by_cases h0 : s.packetno = 0
  · rw [if_pos h0, if_pos h0]
    by_cases h1 : (env.handle_avi_audio_sync s.base bytes
        (decide (s.avi_block_align % 384 = 0) || decide (s.avi_block_align % 576 = 0))).2 ≠ -1
    · rw [if_pos h1]
      exact ⟨rfl, rfl, rfl, rfl, rfl, ⟨.delay bytes _, rfl, rfl⟩, rfl⟩
    · rw [if_neg h1]
      exact ⟨rfl, rfl, rfl, rfl, rfl, ⟨.skipped bytes, rfl, rfl⟩, rfl⟩
  · rw [if_neg h0, if_neg h0]
    exact ⟨rfl, rfl, rfl, rfl, rfl, ⟨.skipped bytes, rfl, rfl⟩, rfl⟩

theorem first_packet_setup_fields (s : mp3_packetizer_c G) (hdr : mp3_header_t) :
    (first_packet_setup s hdr).byte_buffer = s.byte_buffer ∧
    (first_packet_setup s hdr).valid_headers_found = s.valid_headers_found ∧
    (first_packet_setup s hdr).searches = s.searches ∧
    (first_packet_setup s hdr).reports = s.reports ∧
    (first_packet_setup s hdr).base = s.base ∧
    (first_packet_setup s hdr).spf =
      if s.packetno = 0 then hdr.samples_per_channel else s.spf := by
  unfold first_packet_setup
  split_ifs <;> exact ⟨rfl, rfl, rfl, rfl, rfl, rfl⟩

theorem skip_garbage_fields (env : mp3_env G) (s : mp3_packetizer_c G) (pos : Int) :
    (skip_garbage env s pos).byte_buffer = s.byte_buffer.drop pos.toNat ∧
    (skip_garbage env s pos).valid_headers_found = s.valid_headers_found ∧
    (skip_garbage env s pos).searches = s.searches ∧
    (skip_garbage env s pos).packetno = s.packetno ∧
    (skip_garbage env s pos).spf = s.spf ∧
    ((0 < pos → ∃ r : garbage_report, r.bytes = pos ∧
        (skip_garbage env s pos).reports = s.reports ++ [r]) ∧
      (pos ≤ 0 → (skip_garbage env s pos).reports = s.reports)) ∧
    (skip_garbage env s pos).base =
      if pos > 0 then (handle_garbage env s pos).base else s.base := by
  unfold skip_garbage
  by_cases hp : pos > 0
  · obtain ⟨h1, h2, h3, h4, h5, h6, _⟩ := handle_garbage_fields env s pos
    rw [if_pos hp, if_pos hp]
    refine ⟨?_, h2, h3, h4, h5, ⟨fun _ => h6, fun h => absurd hp (by omega)⟩, rfl⟩
    show List.drop pos.toNat (handle_garbage env s pos).byte_buffer = _
    rw [h1]
  · rw [if_neg hp, if_neg hp]
    have : pos.toNat = 0 := by omega
    exact ⟨by rw [this, List.drop_zero], rfl, rfl, rfl, rfl,
      ⟨fun h => absurd h (by omega), fun _ => rfl⟩, rfl⟩

theorem sync_state_fields (env : mp3_env G) (s : mp3_packetizer_c G) (pos : Int)
    (hdr : mp3_header_t) :
    (sync_state env s pos hdr).byte_buffer = s.byte_buffer.drop pos.toNat ∧
    (sync_state env s pos hdr).valid_headers_found = s.valid_headers_found ∧
    (sync_state env s pos hdr).searches = s.searches ∧
    ((0 < pos → ∃ r : garbage_report, r.bytes = pos ∧
        (sync_state env s pos hdr).reports = s.reports ++ [r]) ∧
      (pos ≤ 0 → (sync_state env s pos hdr).reports = s.reports)) := by
  obtain ⟨a1, a2, a3, a4, _⟩ := first_packet_setup_fields (skip_garbage env s pos) hdr
  obtain ⟨b1, b2, b3, _, _, b6, _⟩ := skip_garbage_fields env s pos
  unfold sync_state
  refine ⟨a1.trans b1, a2.trans b2, a3.trans b3, ?_, ?_⟩
  · intro h
    obtain ⟨r, hr, e⟩ := b6.1 h
    exact ⟨r, hr, a4.trans e⟩
  · intro h
    exact a4.trans (b6.2 h)

theorem sync_state_base (env : mp3_env G) (u : mp3_packetizer_c G) (pos : Int)
    (hdr : mp3_header_t) :
    (sync_state env u pos hdr).base =
      if pos > 0 then
        (if u.packetno = 0 then
          (env.handle_avi_audio_sync u.base pos
            (decide (u.avi_block_align % 384 = 0) || decide (u.avi_block_align % 576 = 0))).1
        else u.base)
      else u.base := by
  unfold sync_state
  rw [(first_packet_setup_fields _ hdr).2.2.2.2.1, (skip_garbage_fields env u pos).2.2.2.2.2.2,
    (handle_garbage_fields env u pos).2.2.2.2.2.2]

theorem sync_state_spf (env : mp3_env G) (u : mp3_packetizer_c G) (pos : Int)
    (hdr : mp3_header_t) :
    (sync_state env u pos hdr).spf =
      if u.packetno = 0 then hdr.samples_per_channel else u.spf := by
  unfold sync_state
  rw [(first_packet_setup_fields _ hdr).2.2.2.2.2, (skip_garbage_fields env u pos).2.2.2.1,
    (skip_garbage_fields env u pos).2.2.2.2.1]

/-- What the synchronisation helpers are asked depends on the state only through
the base class state, `packetno`, `spf` and the block alignment. -/
theorem sync_state_congr (env : mp3_env G) (s t : mp3_packetizer_c G) (pos : Int)
    (hdr : mp3_header_t) (h1 : t.base = s.base) (h2 : t.packetno = s.packetno)
    (h3 : t.spf = s.spf) (h4 : t.avi_block_align = s.avi_block_align) :
    (sync_state env t pos hdr).base = (sync_state env s pos hdr).base ∧
    pins (sync_state env t pos hdr) hdr = pins (sync_state env s pos hdr) hdr := by
  refine ⟨?_, ?_⟩
  · rw [sync_state_base env t, sync_state_base env s, h1, h2, h4]
  · unfold pins
    rw [sync_state_spf env t, sync_state_spf env s, h2, h3]

theorem no_sync_pending_congr (env : mp3_env G) (s t : mp3_packetizer_c G) (pos : Int)
    (hdr : mp3_header_t) (h1 : t.base = s.base) (h2 : t.packetno = s.packetno)
    (h3 : t.spf = s.spf) (h4 : t.avi_block_align = s.avi_block_align)
    (h : no_sync_pending env s pos hdr) : no_sync_pending env t pos hdr := by
  obtain ⟨e1, e2⟩ := sync_state_congr env s t pos hdr h1 h2 h3 h4
  unfold no_sync_pending at h ⊢
  rw [e1, e2]
  exact h

/-- The first loop of `get_mp3_packet` ends at once on a header that is not a tag
and whose frame is buffered. -/
theorem find_frame_found (env : mp3_env G) (fuel : Nat) (s : mp3_packetizer_c G)
    (h0 : 0 ≤ env.find_mp3_header s.byte_buffer (byte_buffer_size s))
    (htag : (env.decode_mp3_header (s.byte_buffer.drop
      (env.find_mp3_header s.byte_buffer (byte_buffer_size s)).toNat)).is_tag = false)
    (hfit : env.find_mp3_header s.byte_buffer (byte_buffer_size s) +
      ((env.decode_mp3_header (s.byte_buffer.drop
        (env.find_mp3_header s.byte_buffer (byte_buffer_size s)).toNat)).framesize : Int) ≤
      byte_buffer_size s) :
    find_frame env (fuel + 1) s =
      some (some (env.find_mp3_header s.byte_buffer (byte_buffer_size s),
          env.decode_mp3_header (s.byte_buffer.drop
            (env.find_mp3_header s.byte_buffer (byte_buffer_size s)).toNat)),
        { s with searches := s.searches ++ [(0, byte_buffer_size s)] }) := by
  unfold find_frame search
  simp only [Int.toNat_zero, List.drop_zero]
  rw [if_neg (by omega), if_neg (by omega)]
  simp [htag]

/-- The last part of `get_mp3_packet` with no synchronisation correction pending
and the frame buffered: the frame is returned and removed. -/
theorem deliver_plain (env : mp3_env G) (s : mp3_packetizer_c G) (pos : Int)
    (hdr : mp3_header_t) (hs : no_sync_pending env s pos hdr)
    (hfit : hdr.framesize ≤ (sync_state env s pos hdr).byte_buffer.length) :
    deliver env s pos hdr =
      some (some ((sync_state env s pos hdr).byte_buffer.take hdr.framesize, hdr),
        byte_buffer_remove (sync_state env s pos hdr) hdr.framesize) := by
  obtain ⟨h1, h2⟩ := hs
  unfold deliver
  have hnot : ¬ ((hdr.framesize : Int) >
      byte_buffer_size (first_packet_setup (skip_garbage env s pos) hdr)) := by
    unfold sync_state at hfit
    unfold byte_buffer_size
    omega
  simp only [sync_state] at h1 h2 ⊢
  simp only [if_neg hnot, h1, h2, Bool.false_eq_true, if_false]

theorem get_mp3_packet_stages (env : mp3_env G) (fuel : Nat) (s s1 s2 : mp3_packetizer_c G)
    (pos pos2 : Int) (hdr hdr2 : mp3_header_t) (hsize : 0 < s.byte_buffer.length)
    (h1 : find_frame env fuel s = some (some (pos, hdr), s1))
    (h2 : confirm_headers env s1 s1.byte_buffer (byte_buffer_size s1) pos hdr =
      (some (pos2, hdr2), s2)) :
    get_mp3_packet env fuel s = deliver env s2 pos2 hdr2 := by
  unfold get_mp3_packet
  have hne : ¬ byte_buffer_size s = 0 := by
    unfold byte_buffer_size
    omega
  rw [if_neg hne, h1]
  simp only [h2]

theorem accepts_located_header (env : mp3_env G) (fuel : Nat) (s : mp3_packetizer_c G)
    (pos : Int) (hdr : mp3_header_t)
    (hv : s.valid_headers_found = true) (hsize : 0 < s.byte_buffer.length)
    (hpos : env.find_mp3_header s.byte_buffer (byte_buffer_size s) = pos) (h0 : 0 ≤ pos)
    (hhdr : env.decode_mp3_header (s.byte_buffer.drop pos.toNat) = hdr)
    (htag : hdr.is_tag = false)
    (hfit : pos + (hdr.framesize : Int) ≤ byte_buffer_size s)
    (hsync : no_sync_pending env s pos hdr) :
    ∃ t, get_mp3_packet env (fuel + 1) s =
        some (some ((s.byte_buffer.drop pos.toNat).take hdr.framesize, hdr), t) ∧
      ((s.byte_buffer.drop pos.toNat).take hdr.framesize).length = hdr.framesize ∧
      t.byte_buffer = s.byte_buffer.drop (pos.toNat + hdr.framesize) ∧
      (0 < pos → ∃ r : garbage_report, r.bytes = pos ∧ t.reports = s.reports ++ [r]) ∧
      (pos = 0 → t.reports = s.reports) ∧
      t.searches = s.searches ++ [(0, byte_buffer_size s)] ∧
      t.valid_headers_found = true := by
  subst hpos hhdr
  set pos := env.find_mp3_header s.byte_buffer (byte_buffer_size s) with hp
  set hdr := env.decode_mp3_header (s.byte_buffer.drop pos.toNat) with hh
  set s1 : mp3_packetizer_c G := { s with searches := s.searches ++ [(0, byte_buffer_size s)] }
    with hs1
  have hff : find_frame env (fuel + 1) s = some (some (pos, hdr), s1) :=
    find_frame_found env fuel s h0 htag hfit
  have hconf : confirm_headers env s1 s1.byte_buffer (byte_buffer_size s1) pos hdr =
      (some (pos, hdr), s1) := by
    unfold confirm_headers
    rw [if_pos (show s1.valid_headers_found = true from hv)]
  have hsync1 : no_sync_pending env s1 pos hdr :=
    no_sync_pending_congr env s s1 pos hdr rfl rfl rfl rfl hsync
  obtain ⟨f1, f2, f3, f4, f5⟩ := sync_state_fields env s1 pos hdr
  have hsz : byte_buffer_size s = (s.byte_buffer.length : Int) := rfl
  have hfit1 : hdr.framesize ≤ (sync_state env s1 pos hdr).byte_buffer.length := by
    rw [f1]
    show hdr.framesize ≤ (s.byte_buffer.drop pos.toNat).length
    rw [List.length_drop]
    omega
  refine ⟨byte_buffer_remove (sync_state env s1 pos hdr) hdr.framesize,
    ?_, ?_, ?_, ?_, ?_, ?_, ?_⟩
  · rw [get_mp3_packet_stages env (fuel + 1) s s1 s1 pos pos hdr hdr hsize hff hconf,
      deliver_plain env s1 pos hdr hsync1 hfit1, f1]
  · rw [List.length_take, List.length_drop]
    omega
  · show List.drop _ (sync_state env s1 pos hdr).byte_buffer = _
    rw [f1]
    show List.drop _ (List.drop pos.toNat s.byte_buffer) = _
    rw [List.drop_drop]
    simp
  · intro hpos
    exact f4 hpos
  · intro hpos
    exact f5 (le_of_eq hpos)
  · exact f3
  · exact f2.trans hv

/-- The confirmation block when the first candidate is followed at once by a
second header. -/
theorem confirm_headers_pair (env : mp3_env G) (s : mp3_packetizer_c G) (buf : List byte)
    (size pos : Int) (hdr : mp3_header_t) (hv : s.valid_headers_found = false)
    (hroom : pos + (hdr.framesize : Int) + 4 < size)
    (hnext : env.find_mp3_header (buf.drop (pos + (hdr.framesize : Int)).toNat)
      (size - pos - (hdr.framesize : Int)) = 0) :
    confirm_headers env s buf size pos hdr =
      (some (pos, hdr),
        { s with
          searches := s.searches ++ [(pos + (hdr.framesize : Int), size - pos - (hdr.framesize : Int))],
          valid_headers_found := true }) := by
  unfold confirm_headers search
  simp only [hv, Bool.false_eq_true, if_false, hnext]
  rw [if_neg (by omega)]
  simp

/-- The confirmation block when the first candidate is not followed at once by a
header: the next candidate behind it is examined. -/
theorem confirm_headers_retry (env : mp3_env G) (s : mp3_packetizer_c G) (buf : List byte)
    (size pos : Int) (hdr : mp3_header_t) (hv : s.valid_headers_found = false)
    (hroom : pos + (hdr.framesize : Int) + 4 < size)
    (hnext : 0 < env.find_mp3_header (buf.drop (pos + (hdr.framesize : Int)).toNat)
      (size - pos - (hdr.framesize : Int)))
    (r : Int) (hr : env.find_mp3_header (buf.drop (pos + 1).toNat) (size - (pos + 1)) = r)
    (hr0 : 0 ≤ r)
    (hroom2 : pos + 1 + r + (hdr.framesize : Int) + 4 ≤ size)
    (hdr2 : mp3_header_t) (hh2 : env.decode_mp3_header (buf.drop (pos + 1 + r).toNat) = hdr2)
    (p2 : Int) (hp2 : env.find_mp3_header (buf.drop (pos + 1 + r + (hdr2.framesize : Int)).toNat)
      (size - (pos + 1) - r - (hdr2.framesize : Int)) = p2) (hp20 : 0 ≤ p2) :
    confirm_headers env s buf size pos hdr =
      if p2 = 0 then
        (some (0, hdr2),
          { byte_buffer_remove (handle_garbage env
              { s with searches := s.searches ++
                [(pos + (hdr.framesize : Int), size - pos - (hdr.framesize : Int)),
                 (pos + 1, size - (pos + 1)),
                 (pos + 1 + r + (hdr2.framesize : Int),
                   size - (pos + 1) - r - (hdr2.framesize : Int))] }
              (pos + 1 + r)) (pos + 1 + r) with valid_headers_found := true })
      else
        (some (r, hdr2),
          { s with
            searches := s.searches ++
              [(pos + (hdr.framesize : Int), size - pos - (hdr.framesize : Int)),
               (pos + 1, size - (pos + 1)),
               (pos + 1 + r + (hdr2.framesize : Int),
                 size - (pos + 1) - r - (hdr2.framesize : Int))],
            valid_headers_found := true }) := by
  subst hr hh2 hp2
  unfold confirm_headers search
  simp only [hv, Bool.false_eq_true, if_false]
  rw [if_neg (by omega), if_neg (by omega), if_neg (by omega), if_neg (by omega),
    if_neg (by omega), if_neg (by omega)]
  simp only [List.append_assoc, List.singleton_append]
  split_ifs <;> rfl

/-- Garbage reported and removed inside the confirmation block leaves the
synchronisation helpers with the same question as garbage skipped afterwards. -/
theorem no_sync_pending_after_garbage (env : mp3_env G) (s u : mp3_packetizer_c G)
    (q : Int) (hq : 0 < q) (hdr : mp3_header_t)
    (h1 : u.base = s.base) (h2 : u.packetno = s.packetno) (h3 : u.spf = s.spf)
    (h4 : u.avi_block_align = s.avi_block_align)
    (h : no_sync_pending env s q hdr) :
    no_sync_pending env
      { byte_buffer_remove (handle_garbage env u q) q with valid_headers_found := true }
      0 hdr := by
  obtain ⟨g1, g2, g3, g4, g5, g6, g7⟩ := handle_garbage_fields env u q
  have eb : (sync_state env
      { byte_buffer_remove (handle_garbage env u q) q with valid_headers_found := true }
      0 hdr).base = (sync_state env s q hdr).base := by
    rw [sync_state_base, sync_state_base, if_neg (by omega), if_pos hq]
    show (handle_garbage env u q).base = _
    rw [g7, h1, h2, h4]
  have ep : pins (sync_state env
      { byte_buffer_remove (handle_garbage env u q) q with valid_headers_found := true }
      0 hdr) hdr = pins (sync_state env s q hdr) hdr := by
    unfold pins
    have hvp : ({ byte_buffer_remove (handle_garbage env u q) q with
        valid_headers_found := true } : mp3_packetizer_c G).packetno = s.packetno :=
      g4.trans h2
    have hvs : ({ byte_buffer_remove (handle_garbage env u q) q with
        valid_headers_found := true } : mp3_packetizer_c G).spf = s.spf :=
      g5.trans h3
    rw [sync_state_spf, sync_state_spf, hvp, hvs]
  unfold no_sync_pending at h ⊢
  rw [eb, ep]
  exact h

/-- The last part of `get_mp3_packet` when a duplicate is asked for. -/
theorem deliver_duplicate (env : mp3_env G) (s : mp3_packetizer_c G) (pos : Int)
    (hdr : mp3_header_t)
    (hneg : env.needs_negative_displacement (sync_state env s pos hdr).base
      (pins (sync_state env s pos hdr) hdr) = false)
    (hpos : env.needs_positive_displacement (sync_state env s pos hdr).base
      (pins (sync_state env s pos hdr) hdr) = true)
    (hfit : hdr.framesize ≤ (sync_state env s pos hdr).byte_buffer.length)
    (h4 : 4 ≤ hdr.framesize) :
    deliver env s pos hdr =
      some (some ((((sync_state env s pos hdr).byte_buffer.take hdr.framesize).take 4 ++
            List.replicate (hdr.framesize - 4) 0), hdr),
        { sync_state env s pos hdr with
          base := env.displace (sync_state env s pos hdr).base
            (pins (sync_state env s pos hdr) hdr) }) := by
  unfold deliver
  have hnot : ¬ ((hdr.framesize : Int) >
      byte_buffer_size (first_packet_setup (skip_garbage env s pos) hdr)) := by
    unfold sync_state at hfit
    unfold byte_buffer_size
    omega
  have h4' : ¬ hdr.framesize < 4 := by omega
  simp only [sync_state] at hneg hpos ⊢
  simp only [if_neg hnot, hneg, hpos, Bool.false_eq_true, if_false, if_true, if_neg h4']

/-- The last part of `get_mp3_packet` never changes `valid_headers_found`. -/
theorem deliver_valid_headers_found (env : mp3_env G) (s : mp3_packetizer_c G) (pos : Int)
    (hdr : mp3_header_t) (res : Option (List byte × mp3_header_t)) (t : mp3_packetizer_c G)
    (h : deliver env s pos hdr = some (res, t)) :
    t.valid_headers_found = s.valid_headers_found := by
  have hv : (first_packet_setup (skip_garbage env s pos) hdr).valid_headers_found =
      s.valid_headers_found :=
    (first_packet_setup_fields _ hdr).2.1.trans (skip_garbage_fields env s pos).2.1
  unfold deliver at h
  simp only at h
  split_ifs at h <;> simp only [Option.some.injEq, Prod.mk.injEq] at h <;>
    obtain ⟨_, rfl⟩ := h <;> exact hv

end mp3

section mp3
variable {G : Type}

/-- C9. Once `valid_headers_found` is true, `get_mp3_packet` accepts any located
header without confirmation: when the locator finds a header that is not a tag at
`pos`, with frame size `f` and `pos + f` within the buffer, and no
synchronisation correction is pending, the call returns exactly
`buffer[pos .. pos + f)`, removes exactly `pos + f` bytes from the front of the
buffer, reports `pos` bytes of garbage if and only if `pos > 0`, and searches for
no second header (its only search is the one over the whole buffer). -/
theorem accepts_without_confirmation (env : mp3_env G) (fuel : Nat) (s : mp3_packetizer_c G)
    (pos : Int) (hdr : mp3_header_t)
    (hv : s.valid_headers_found = true) (hsize : 0 < s.byte_buffer.length)
    (hpos : env.find_mp3_header s.byte_buffer (byte_buffer_size s) = pos) (h0 : 0 ≤ pos)
    (hhdr : env.decode_mp3_header (s.byte_buffer.drop pos.toNat) = hdr)
    (htag : hdr.is_tag = false)
    (hfit : pos + (hdr.framesize : Int) ≤ byte_buffer_size s)
    (hsync : no_sync_pending env s pos hdr) :
    ∃ t, get_mp3_packet env (fuel + 1) s =
        some (some ((s.byte_buffer.drop pos.toNat).take hdr.framesize, hdr), t) ∧
      ((s.byte_buffer.drop pos.toNat).take hdr.framesize).length = hdr.framesize ∧
      t.byte_buffer = s.byte_buffer.drop (pos.toNat + hdr.framesize) ∧
      (0 < pos → ∃ r : garbage_report, r.bytes = pos ∧ t.reports = s.reports ++ [r]) ∧
      (pos = 0 → t.reports = s.reports) ∧
      t.searches = s.searches ++ [(0, byte_buffer_size s)] ∧
      t.valid_headers_found = true :=
  accepts_located_header env fuel s pos hdr hv hsize hpos h0 hhdr htag hfit hsync

/-- The path of `get_mp3_packet` on which the first candidate is followed at once
by a second header, with no synchronisation correction pending. -/
theorem confirmed_pair_delivered (env : mp3_env G) (fuel : Nat) (s : mp3_packetizer_c G)
    (pos : Int) (hdr : mp3_header_t)
    (hv : s.valid_headers_found = false) (hsize : 0 < s.byte_buffer.length)
    (hpos : env.find_mp3_header s.byte_buffer (byte_buffer_size s) = pos) (h0 : 0 ≤ pos)
    (hhdr : env.decode_mp3_header (s.byte_buffer.drop pos.toNat) = hdr)
    (htag : hdr.is_tag = false)
    (hroom : pos + (hdr.framesize : Int) + 4 < byte_buffer_size s)
    (hnext : env.find_mp3_header (s.byte_buffer.drop (pos + (hdr.framesize : Int)).toNat)
      (byte_buffer_size s - pos - (hdr.framesize : Int)) = 0)
    (hsync : no_sync_pending env s pos hdr) :
    ∃ t, get_mp3_packet env (fuel + 1) s =
        some (some ((s.byte_buffer.drop pos.toNat).take hdr.framesize, hdr), t) ∧
      t.byte_buffer = s.byte_buffer.drop (pos.toNat + hdr.framesize) ∧
      (0 < pos → ∃ r : garbage_report, r.bytes = pos ∧ t.reports = s.reports ++ [r]) ∧
      (pos = 0 → t.reports = s.reports) ∧
      t.valid_headers_found = true := by
  subst hpos hhdr
  set pos := env.find_mp3_header s.byte_buffer (byte_buffer_size s) with hp
  set hdr := env.decode_mp3_header (s.byte_buffer.drop pos.toNat) with hh
  set s1 : mp3_packetizer_c G := { s with searches := s.searches ++ [(0, byte_buffer_size s)] }
    with hs1
  have hsz : byte_buffer_size s = (s.byte_buffer.length : Int) := rfl
  have hfit0 : pos + (hdr.framesize : Int) ≤ byte_buffer_size s := by omega
  have hff : find_frame env (fuel + 1) s = some (some (pos, hdr), s1) :=
    find_frame_found env fuel s h0 htag hfit0
  have hconf := confirm_headers_pair env s1 s1.byte_buffer (byte_buffer_size s1) pos hdr hv
    hroom hnext
  set s2 : mp3_packetizer_c G := { s1 with
      searches := s1.searches ++ [(pos + (hdr.framesize : Int),
        byte_buffer_size s1 - pos - (hdr.framesize : Int))],
      valid_headers_found := true } with hs2
  have hsync2 : no_sync_pending env s2 pos hdr :=
    no_sync_pending_congr env s s2 pos hdr rfl rfl rfl rfl hsync
  obtain ⟨f1, f2, f3, f4, f5⟩ := sync_state_fields env s2 pos hdr
  have hfit2 : hdr.framesize ≤ (sync_state env s2 pos hdr).byte_buffer.length := by
    rw [f1]
    show hdr.framesize ≤ (s.byte_buffer.drop pos.toNat).length
    rw [List.length_drop]
    omega
  refine ⟨byte_buffer_remove (sync_state env s2 pos hdr) hdr.framesize, ?_, ?_, ?_, ?_, ?_⟩
  · rw [get_mp3_packet_stages env (fuel + 1) s s1 s2 pos pos hdr hdr hsize hff hconf,
      deliver_plain env s2 pos hdr hsync2 hfit2, f1]
  · show List.drop _ (sync_state env s2 pos hdr).byte_buffer = _
    rw [f1]
    show List.drop _ (List.drop pos.toNat s.byte_buffer) = _
    rw [List.drop_drop]
    simp
  · exact f4
  · intro hpos
    exact f5 (le_of_eq hpos)
  · exact f2

/-- C8. For a buffer `[L garbage bytes][frame F1][frame F2]` with `L >= 1`, in which
the locator first finds a header at offset `L` and finds a header exactly at
offset `L + |F1|`, with `|F2| > 4`, `valid_headers_found` false and no
synchronisation correction pending, one call of `get_mp3_packet` makes exactly
one garbage report, of `L` bytes, returns exactly the bytes of `F1`, leaves the
buffer equal to `F2` (no frame is dropped) and sets `valid_headers_found`. -/
theorem leading_garbage_reported (env : mp3_env G) (fuel : Nat) (s : mp3_packetizer_c G)
    (garbage F1 F2 : List byte) (hdr : mp3_header_t)
    (hv : s.valid_headers_found = false)
    (hbuf : s.byte_buffer = garbage ++ F1 ++ F2) (hL : 1 ≤ garbage.length)
    (hfind : env.find_mp3_header s.byte_buffer (byte_buffer_size s) = (garbage.length : Int))
    (hdec : env.decode_mp3_header (F1 ++ F2) = hdr)
    (hf : hdr.framesize = F1.length) (htag : hdr.is_tag = false)
    (hnext : env.find_mp3_header F2 (F2.length : Int) = 0) (hF2 : 4 < F2.length)
    (hsync : no_sync_pending env s (garbage.length : Int) hdr) :
    ∃ (t : mp3_packetizer_c G) (r : garbage_report),
      get_mp3_packet env (fuel + 1) s = some (some (F1, hdr), t) ∧
      t.byte_buffer = F2 ∧
      r.bytes = (garbage.length : Int) ∧ t.reports = s.reports ++ [r] ∧
      t.valid_headers_found = true := by
  have hsz : byte_buffer_size s =
      (garbage.length : Int) + (F1.length : Int) + (F2.length : Int) := by
    unfold byte_buffer_size
    rw [hbuf]
    simp only [List.length_append]
    push_cast
    ring
  have hd1 : s.byte_buffer.drop ((garbage.length : Int)).toNat = F1 ++ F2 := by
    rw [hbuf, Int.toNat_natCast, List.append_assoc, List.drop_left]
  have hd2 : s.byte_buffer.drop ((garbage.length : Int) + (hdr.framesize : Int)).toNat = F2 := by
    have : ((garbage.length : Int) + (hdr.framesize : Int)).toNat =
        (garbage ++ F1).length := by
      rw [hf, List.length_append]
      omega
    rw [this, hbuf, List.drop_left]
  have hlen : byte_buffer_size s - (garbage.length : Int) - (hdr.framesize : Int) =
      (F2.length : Int) := by
    rw [hsz, hf]
    ring
  obtain ⟨t, h1, h2, h3, _, h5⟩ := confirmed_pair_delivered env fuel s (garbage.length : Int)
    hdr hv (by rw [hbuf]; simp only [List.length_append]; omega) hfind
    (Int.natCast_nonneg _) (by rw [hd1]; exact hdec) htag
    (by rw [hsz, hf]; omega) (by rw [hd2, hlen]; exact hnext) hsync
  obtain ⟨r, hr1, hr2⟩ := h3 (by omega)
  refine ⟨t, r, ?_, ?_, hr1, hr2, h5⟩
  · rw [h1, hd1, hf, List.take_left]
  · rw [h2, hbuf, Int.toNat_natCast, hf, ← List.length_append, List.drop_left]

/-- The path of `get_mp3_packet` on which the first candidate fails the
two-header check and the next candidate behind it is examined: the call goes on
with the position and state that the confirmation block leaves. -/
theorem second_candidate_path (env : mp3_env G) (fuel : Nat) (s : mp3_packetizer_c G)
    (p r p2 : Int) (hdr1 hdr2 : mp3_header_t)
    (hv : s.valid_headers_found = false) (hsize : 0 < s.byte_buffer.length)
    (hp : env.find_mp3_header s.byte_buffer (byte_buffer_size s) = p) (hp0 : 0 ≤ p)
    (hd1 : env.decode_mp3_header (s.byte_buffer.drop p.toNat) = hdr1)
    (htag : hdr1.is_tag = false)
    (hroom : p + (hdr1.framesize : Int) + 4 < byte_buffer_size s)
    (hiso : 0 < env.find_mp3_header (s.byte_buffer.drop (p + (hdr1.framesize : Int)).toNat)
      (byte_buffer_size s - p - (hdr1.framesize : Int)))
    (hr : env.find_mp3_header (s.byte_buffer.drop (p + 1).toNat)
      (byte_buffer_size s - (p + 1)) = r) (hr0 : 0 ≤ r)
    (hroom2 : p + 1 + r + (hdr1.framesize : Int) + 4 ≤ byte_buffer_size s)
    (hd2 : env.decode_mp3_header (s.byte_buffer.drop (p + 1 + r).toNat) = hdr2)
    (hp2 : env.find_mp3_header
      (s.byte_buffer.drop (p + 1 + r + (hdr2.framesize : Int)).toNat)
      (byte_buffer_size s - (p + 1) - r - (hdr2.framesize : Int)) = p2) (hp20 : 0 ≤ p2) :
    ∃ u : mp3_packetizer_c G,
      u.byte_buffer = s.byte_buffer ∧ u.base = s.base ∧ u.packetno = s.packetno ∧
      u.spf = s.spf ∧ u.avi_block_align = s.avi_block_align ∧ u.reports = s.reports ∧
      get_mp3_packet env (fuel + 1) s =
        if p2 = 0 then
          deliver env
            { byte_buffer_remove (handle_garbage env u (p + 1 + r)) (p + 1 + r) with
              valid_headers_found := true } 0 hdr2
        else
          deliver env { u with valid_headers_found := true } r hdr2 := by
  subst hp hd1
  set p := env.find_mp3_header s.byte_buffer (byte_buffer_size s) with hpdef
  set hdr1 := env.decode_mp3_header (s.byte_buffer.drop p.toNat) with hh
  set s1 : mp3_packetizer_c G := { s with searches := s.searches ++ [(0, byte_buffer_size s)] }
    with hs1
  have hfit0 : p + (hdr1.framesize : Int) ≤ byte_buffer_size s := by omega
  have hff : find_frame env (fuel + 1) s = some (some (p, hdr1), s1) :=
    find_frame_found env fuel s hp0 htag hfit0
  have hconf := confirm_headers_retry env s1 s1.byte_buffer (byte_buffer_size s1) p hdr1 hv
    hroom hiso r hr hr0 hroom2 hdr2 hd2 p2 hp2 hp20
  refine ⟨{ s1 with searches := s1.searches ++
      [(p + (hdr1.framesize : Int), byte_buffer_size s1 - p - (hdr1.framesize : Int)),
       (p + 1, byte_buffer_size s1 - (p + 1)),
       (p + 1 + r + (hdr2.framesize : Int),
         byte_buffer_size s1 - (p + 1) - r - (hdr2.framesize : Int))] },
    rfl, rfl, rfl, rfl, rfl, rfl, ?_⟩
  by_cases hz : p2 = 0
  · rw [if_pos hz] at hconf ⊢
    exact get_mp3_packet_stages env (fuel + 1) s s1 _ p 0 hdr1 hdr2 hsize hff hconf
  · rw [if_neg hz] at hconf ⊢
    exact get_mp3_packet_stages env (fuel + 1) s s1 _ p r hdr1 hdr2 hsize hff hconf

/-- C7 (amended). With `valid_headers_found` false, `get_mp3_packet` rejects an
isolated false-positive header: when the first candidate, at `p` with frame
size `f` and not a tag, is not followed at once by a header at `p + f` but the
search from `p + f` does find a header further on, while the first candidate
that the search from `p + 1` finds, at `q = p + 1 + r > p`, is followed at once
by a header at `q` plus its frame size, and enough bytes are buffered
(`p + f + 4` below and `q + f + 4` within the buffer size, the frame at `q`
buffered whole), then with no synchronisation correction pending the returned
packet is the frame starting at `q`, exactly `q` bytes are reported as garbage,
in one report, and removed together with the frame, and `valid_headers_found`
becomes true. -/
theorem rejects_isolated_header (env : mp3_env G) (fuel : Nat) (s : mp3_packetizer_c G)
    (p r : Int) (hdr1 hdr2 : mp3_header_t)
    (hv : s.valid_headers_found = false) (hsize : 0 < s.byte_buffer.length)
    (hp : env.find_mp3_header s.byte_buffer (byte_buffer_size s) = p) (hp0 : 0 ≤ p)
    (hd1 : env.decode_mp3_header (s.byte_buffer.drop p.toNat) = hdr1)
    (htag : hdr1.is_tag = false)
    (hroom : p + (hdr1.framesize : Int) + 4 < byte_buffer_size s)
    (hiso : 0 < env.find_mp3_header (s.byte_buffer.drop (p + (hdr1.framesize : Int)).toNat)
      (byte_buffer_size s - p - (hdr1.framesize : Int)))
    (hr : env.find_mp3_header (s.byte_buffer.drop (p + 1).toNat)
      (byte_buffer_size s - (p + 1)) = r) (hr0 : 0 ≤ r)
    (hroom2 : p + 1 + r + (hdr1.framesize : Int) + 4 ≤ byte_buffer_size s)
    (hd2 : env.decode_mp3_header (s.byte_buffer.drop (p + 1 + r).toNat) = hdr2)
    (hconf : env.find_mp3_header
      (s.byte_buffer.drop (p + 1 + r + (hdr2.framesize : Int)).toNat)
      (byte_buffer_size s - (p + 1) - r - (hdr2.framesize : Int)) = 0)
    (hfit : p + 1 + r + (hdr2.framesize : Int) ≤ byte_buffer_size s)
    (hsync : no_sync_pending env s (p + 1 + r) hdr2) :
    ∃ (t : mp3_packetizer_c G) (rep : garbage_report),
      p < p + 1 + r ∧
      get_mp3_packet env (fuel + 1) s =
        some (some ((s.byte_buffer.drop (p + 1 + r).toNat).take hdr2.framesize, hdr2), t) ∧
      ((s.byte_buffer.drop (p + 1 + r).toNat).take hdr2.framesize).length = hdr2.framesize ∧
      t.byte_buffer = s.byte_buffer.drop ((p + 1 + r).toNat + hdr2.framesize) ∧
      rep.bytes = p + 1 + r ∧ t.reports = s.reports ++ [rep] ∧
      t.valid_headers_found = true := by
  obtain ⟨u, u1, u2, u3, u4, u5, u6, hget⟩ := second_candidate_path env fuel s p r 0 hdr1 hdr2
    hv hsize hp hp0 hd1 htag hroom hiso hr hr0 hroom2 hd2 hconf (le_refl _)
  rw [if_pos rfl] at hget
  have hq : 0 < p + 1 + r := by omega
  set s2 : mp3_packetizer_c G :=
    { byte_buffer_remove (handle_garbage env u (p + 1 + r)) (p + 1 + r) with
      valid_headers_found := true } with hs2
  have hsync2 : no_sync_pending env s2 0 hdr2 :=
    no_sync_pending_after_garbage env s u (p + 1 + r) hq hdr2 u2 u3 u4 u5 hsync
  obtain ⟨g1, _, _, _, _, ⟨rep, hrep1, hrep2⟩, _⟩ := handle_garbage_fields env u (p + 1 + r)
  obtain ⟨f1, f2, _, _, f5⟩ := sync_state_fields env s2 0 hdr2
  have hbb : s2.byte_buffer = s.byte_buffer.drop (p + 1 + r).toNat := by
    show List.drop _ (handle_garbage env u (p + 1 + r)).byte_buffer = _
    rw [g1, u1]
  have hsz : byte_buffer_size s = (s.byte_buffer.length : Int) := rfl
  have hfit2 : hdr2.framesize ≤ (sync_state env s2 0 hdr2).byte_buffer.length := by
    rw [f1, hbb]
    simp only [Int.toNat_zero, List.drop_zero, List.length_drop]
    omega
  refine ⟨byte_buffer_remove (sync_state env s2 0 hdr2) hdr2.framesize, rep, by omega,
    ?_, ?_, ?_, hrep1, ?_, f2⟩
  · rw [hget, deliver_plain env s2 0 hdr2 hsync2 hfit2, f1, hbb]
    simp
  · rw [List.length_take, List.length_drop]
    omega
  · show List.drop _ (sync_state env s2 0 hdr2).byte_buffer = _
    rw [f1, hbb]
    simp only [Int.toNat_zero, List.drop_zero, List.drop_drop]
    simp
  · show (sync_state env s2 0 hdr2).reports = _
    rw [f5 (le_refl _)]
    show (handle_garbage env u (p + 1 + r)).reports = _
    rw [hrep2, u6]

/-- C10 (amended). When `valid_headers_found` is false and the two-header check
fails for both the first candidate and the next candidate found behind it (each
search behind a candidate's frame finds a header, but not at offset 0),
`get_mp3_packet` sets `valid_headers_found` to true and does not give up: it
goes on with the header of the second candidate, and when that frame's size
does not exceed the bytes buffered after the garbage skip and no
synchronisation correction is pending it returns a packet of that size. -/
theorem unconfirmed_headers_degrade (env : mp3_env G) (fuel : Nat)
    (s : mp3_packetizer_c G) (p r p2 : Int) (hdr1 hdr2 : mp3_header_t)
    (hv : s.valid_headers_found = false) (hsize : 0 < s.byte_buffer.length)
    (hp : env.find_mp3_header s.byte_buffer (byte_buffer_size s) = p) (hp0 : 0 ≤ p)
    (hd1 : env.decode_mp3_header (s.byte_buffer.drop p.toNat) = hdr1)
    (htag : hdr1.is_tag = false)
    (hroom : p + (hdr1.framesize : Int) + 4 < byte_buffer_size s)
    (hiso : 0 < env.find_mp3_header (s.byte_buffer.drop (p + (hdr1.framesize : Int)).toNat)
      (byte_buffer_size s - p - (hdr1.framesize : Int)))
    (hr : env.find_mp3_header (s.byte_buffer.drop (p + 1).toNat)
      (byte_buffer_size s - (p + 1)) = r) (hr0 : 0 ≤ r)
    (hroom2 : p + 1 + r + (hdr1.framesize : Int) + 4 ≤ byte_buffer_size s)
    (hd2 : env.decode_mp3_header (s.byte_buffer.drop (p + 1 + r).toNat) = hdr2)
    (hp2 : env.find_mp3_header
      (s.byte_buffer.drop (p + 1 + r + (hdr2.framesize : Int)).toNat)
      (byte_buffer_size s - (p + 1) - r - (hdr2.framesize : Int)) = p2) (hp2pos : 0 < p2) :
    (∀ res t, get_mp3_packet env (fuel + 1) s = some (res, t) →
      t.valid_headers_found = true) ∧
    (r + (hdr2.framesize : Int) ≤ byte_buffer_size s → no_sync_pending env s r hdr2 →
      ∃ packet t, get_mp3_packet env (fuel + 1) s = some (some (packet, hdr2), t) ∧
        packet.length = hdr2.framesize ∧ t.valid_headers_found = true) := by
  obtain ⟨u, u1, u2, u3, u4, u5, u6, hget⟩ := second_candidate_path env fuel s p r p2 hdr1 hdr2
    hv hsize hp hp0 hd1 htag hroom hiso hr hr0 hroom2 hd2 hp2 (le_of_lt hp2pos)
  rw [if_neg (by omega)] at hget
  have hvalid : ∀ res t, get_mp3_packet env (fuel + 1) s = some (res, t) →
      t.valid_headers_found = true := by
    intro res t h
    rw [hget] at h
    exact deliver_valid_headers_found env _ r hdr2 res t h
  refine ⟨hvalid, ?_⟩
  intro hfit hsync
  set s2 : mp3_packetizer_c G := { u with valid_headers_found := true } with hs2
  have hsync2 : no_sync_pending env s2 r hdr2 :=
    no_sync_pending_congr env s s2 r hdr2 u2 u3 u4 u5 hsync
  obtain ⟨f1, _⟩ := sync_state_fields env s2 r hdr2
  have hbb : s2.byte_buffer = s.byte_buffer := u1
  have hsz : byte_buffer_size s = (s.byte_buffer.length : Int) := rfl
  have hfit2 : hdr2.framesize ≤ (sync_state env s2 r hdr2).byte_buffer.length := by
    rw [f1, hbb, List.length_drop]
    omega
  have hres := deliver_plain env s2 r hdr2 hsync2 hfit2
  rw [← hget] at hres
  refine ⟨_, _, hres, ?_, hvalid _ _ hres⟩
  rw [List.length_take]
  omega

/-- C10, counterexample. In a buffer of 17 bytes the candidate at 0 (frame size 6)
has its next header 1 byte late, the next candidate, at 7 (frame size 5), has
its next header 1 byte late as well; the call still returns a packet of 5 bytes
and sets `valid_headers_found`. -/
theorem unconfirmed_headers_counterexample :
    sample_env.find_mp3_header [255, 251, 6, 0, 1, 1, 9, 255, 251, 5, 0, 2, 9, 255, 251, 4, 0] 17
      = 0 ∧
    (sample_env.decode_mp3_header
      [255, 251, 6, 0, 1, 1, 9, 255, 251, 5, 0, 2, 9, 255, 251, 4, 0]).framesize = 6 ∧
    sample_env.find_mp3_header [9, 255, 251, 5, 0, 2, 9, 255, 251, 4, 0] 11 = 1 ∧
    sample_env.find_mp3_header
      [251, 6, 0, 1, 1, 9, 255, 251, 5, 0, 2, 9, 255, 251, 4, 0] 16 = 6 ∧
    (sample_env.decode_mp3_header [255, 251, 5, 0, 2, 9, 255, 251, 4, 0]).framesize = 5 ∧
    sample_env.find_mp3_header [9, 255, 251, 4, 0] 5 = 1 ∧
    (get_mp3_packet sample_env 1
      (sample_packetizer [255, 251, 6, 0, 1, 1, 9, 255, 251, 5, 0, 2, 9, 255, 251, 4, 0] 0)).map
        (fun res => (res.1.map Prod.fst, res.2.valid_headers_found, res.2.byte_buffer)) =
      some (some [9, 255, 251, 5, 0], true, [2, 9, 255, 251, 4, 0]) := by
  decide

/-- C6. When the MPEG audio packetizer duplicates a frame (the frame, of size
`f >= 4`, lies at the head of the buffer, is buffered whole and is confirmed,
either because `valid_headers_found` is already true or because a header follows
it at once, and `needs_positive_displacement` holds while
`needs_negative_displacement` does not), `get_mp3_packet` returns a packet of
exactly `f` bytes whose first 4 bytes are the 4 header bytes of the frame and
whose other `f - 4` bytes are all zero, and the buffer is left as it was: the
frame is still at offset 0, not consumed. -/
theorem duplicate_is_zeroed_copy (env : mp3_env G) (fuel : Nat) (s : mp3_packetizer_c G)
    (hdr : mp3_header_t) (hsize : 0 < s.byte_buffer.length)
    (hfind : env.find_mp3_header s.byte_buffer (byte_buffer_size s) = 0)
    (hdec : env.decode_mp3_header s.byte_buffer = hdr) (htag : hdr.is_tag = false)
    (hfit : (hdr.framesize : Int) ≤ byte_buffer_size s) (h4 : 4 ≤ hdr.framesize)
    (hconf : s.valid_headers_found = true ∨
      (s.valid_headers_found = false ∧ (hdr.framesize : Int) + 4 < byte_buffer_size s ∧
        env.find_mp3_header (s.byte_buffer.drop hdr.framesize)
          (byte_buffer_size s - (hdr.framesize : Int)) = 0))
    (hneg : env.needs_negative_displacement (sync_state env s 0 hdr).base
      (pins (sync_state env s 0 hdr) hdr) = false)
    (hpos : env.needs_positive_displacement (sync_state env s 0 hdr).base
      (pins (sync_state env s 0 hdr) hdr) = true) :
    ∃ (packet : List byte) (t : mp3_packetizer_c G),
      get_mp3_packet env (fuel + 1) s = some (some (packet, hdr), t) ∧
      packet.length = hdr.framesize ∧
      packet.take 4 = s.byte_buffer.take 4 ∧
      packet.drop 4 = List.replicate (hdr.framesize - 4) 0 ∧
      t.byte_buffer = s.byte_buffer := by
  have hsz : byte_buffer_size s = (s.byte_buffer.length : Int) := rfl
  have hd0 : env.decode_mp3_header (s.byte_buffer.drop
      (env.find_mp3_header s.byte_buffer (byte_buffer_size s)).toNat) = hdr := by
    rw [hfind]
    exact hdec
  set s1 : mp3_packetizer_c G := { s with searches := s.searches ++ [(0, byte_buffer_size s)] }
    with hs1
  have hff : find_frame env (fuel + 1) s = some (some (0, hdr), s1) := by
    have h := find_frame_found env fuel s (by rw [hfind]) (by rw [hd0]; exact htag)
      (by rw [hd0, hfind]; omega)
    rw [hd0, hfind] at h
    exact h
  -- the state that reaches the last part, whichever way the frame is confirmed
  have key : ∃ s2 : mp3_packetizer_c G, s2.byte_buffer = s.byte_buffer ∧ s2.base = s.base ∧
      s2.packetno = s.packetno ∧ s2.spf = s.spf ∧ s2.avi_block_align = s.avi_block_align ∧
      get_mp3_packet env (fuel + 1) s = deliver env s2 0 hdr := by
    rcases hconf with hv | ⟨hv, hroom, hnext⟩
    · refine ⟨s1, rfl, rfl, rfl, rfl, rfl, ?_⟩
      apply get_mp3_packet_stages env (fuel + 1) s s1 s1 0 0 hdr hdr hsize hff
      unfold confirm_headers
      rw [if_pos (show s1.valid_headers_found = true from hv)]
    · have hc := confirm_headers_pair env s1 s1.byte_buffer (byte_buffer_size s1) 0 hdr hv
        (by show (0 : Int) + (hdr.framesize : Int) + 4 < byte_buffer_size s; omega)
        (by
          show env.find_mp3_header (s.byte_buffer.drop (0 + (hdr.framesize : Int)).toNat)
            (byte_buffer_size s - 0 - (hdr.framesize : Int)) = 0
          have e1 : ((0 : Int) + (hdr.framesize : Int)).toNat = hdr.framesize := by omega
          have e2 : byte_buffer_size s - 0 - (hdr.framesize : Int) =
              byte_buffer_size s - (hdr.framesize : Int) := by omega
          rw [e1, e2]
          exact hnext)
      exact ⟨{ s1 with
          searches := s1.searches ++
            [(0 + (hdr.framesize : Int), byte_buffer_size s1 - 0 - (hdr.framesize : Int))],
          valid_headers_found := true }, rfl, rfl, rfl, rfl, rfl,
        get_mp3_packet_stages env (fuel + 1) s s1 _ 0 0 hdr hdr hsize hff hc⟩
  obtain ⟨s2, b1, b2, b3, b4, b5, hget⟩ := key
  obtain ⟨e1, e2⟩ := sync_state_congr env s s2 0 hdr b2 b3 b4 b5
  obtain ⟨f1, _⟩ := sync_state_fields env s2 0 hdr
  have hbb : (sync_state env s2 0 hdr).byte_buffer = s.byte_buffer := by
    rw [f1, b1]
    simp
  have hres := deliver_duplicate env s2 0 hdr (by rw [e1, e2]; exact hneg)
    (by rw [e1, e2]; exact hpos) (by rw [hbb]; omega) h4
  rw [← hget, hbb] at hres
  refine ⟨_, _, hres, ?_, ?_, ?_, hbb⟩
  · simp only [List.length_append, List.length_take, List.length_replicate]
    omega
  · rw [List.take_append_of_le_length (by
      simp only [List.length_take]
      omega)]
    simp only [List.take_take]
    congr 1
    omega
  · rw [List.drop_append_of_le_length (by
      simp only [List.length_take]
      omega)]
    have : (List.take 4 (List.take hdr.framesize s.byte_buffer)).length = 4 := by
      simp only [List.length_take]
      omega
    rw [List.drop_eq_nil_of_le (le_of_eq this), List.nil_append]

end mp3

/-- C9, witness: three bytes of garbage before one frame, `valid_headers_found`
already set. -/
theorem accepts_without_confirmation_witness :
    sample_env.find_mp3_header [1, 2, 3, 255, 251, 6, 0, 1, 1] 9 = 3 ∧
    (get_mp3_packet sample_env 1
      { sample_packetizer [1, 2, 3, 255, 251, 6, 0, 1, 1] 0 with
        valid_headers_found := true }).map
        (fun res => (res.1.map Prod.fst, res.2.byte_buffer, res.2.searches)) =
      some (some [255, 251, 6, 0, 1, 1], [], [(0, 9)]) := by
  obtain ⟨t, h1, _, h3, _, _, h6, _⟩ := accepts_without_confirmation sample_env 0
    { sample_packetizer [1, 2, 3, 255, 251, 6, 0, 1, 1] 0 with valid_headers_found := true }
    3 (sample_decode [255, 251, 6, 0, 1, 1]) rfl (by decide) (by decide) (by decide) rfl rfl
    (by decide) ⟨rfl, rfl⟩
  refine ⟨by decide, ?_⟩
  rw [h1]
  simp only [Option.map_some', h3, h6]
  rfl

/-- C8, witness: 20 bytes of garbage before two frames. -/
theorem leading_garbage_reported_witness :
    sample_env.find_mp3_header
      (List.replicate 20 7 ++ [255, 251, 6, 0, 1, 1] ++ [255, 251, 5, 0, 2]) 31 = 20 ∧
    (get_mp3_packet sample_env 1
      (sample_packetizer
        (List.replicate 20 7 ++ [255, 251, 6, 0, 1, 1] ++ [255, 251, 5, 0, 2]) 0)).map
        (fun res => (res.1.map Prod.fst, res.2.byte_buffer,
          res.2.reports.map garbage_report.bytes, res.2.valid_headers_found)) =
      some (some [255, 251, 6, 0, 1, 1], [255, 251, 5, 0, 2], [20], true) := by
  obtain ⟨t, r, h1, h2, h3, h4, h5⟩ := leading_garbage_reported sample_env 0
    (sample_packetizer (List.replicate 20 7 ++ [255, 251, 6, 0, 1, 1] ++ [255, 251, 5, 0, 2]) 0)
    (List.replicate 20 7) [255, 251, 6, 0, 1, 1] [255, 251, 5, 0, 2]
    (sample_decode ([255, 251, 6, 0, 1, 1] ++ [255, 251, 5, 0, 2]))
    rfl rfl (by decide) (by decide) rfl rfl rfl (by decide) (by decide) ⟨rfl, rfl⟩
  refine ⟨by decide, ?_⟩
  rw [h1]
  simp only [Option.map_some', h2, h4, h5]
  simp [sample_packetizer, h3]

/-- C7, counterexample. First buffer: the header at 0 announces 12 bytes and no
header follows at 12 or behind it; the candidate at 4 announces 4 bytes and is
followed at once by a header at 8, and 20 bytes are buffered: `get_mp3_packet`
returns `NULL`, removes nothing and leaves `valid_headers_found` false.  Second
buffer: the header at 0 announces 8 bytes and no header follows at 8; the
candidate at 11 announces 4 bytes and is followed at once by a header at 15, but
the first candidate behind 0 is the one at 4, which announces 6 bytes and is not
followed by a header at 10: the returned packet is not the frame at 11. -/
theorem rejects_isolated_header_counterexample :
    (sample_env.find_mp3_header
      [255, 251, 12, 0, 255, 251, 4, 0, 255, 251, 4, 0, 9, 9, 9, 9, 9, 9, 9, 9] 20 = 0 ∧
    (sample_env.decode_mp3_header
      [255, 251, 12, 0, 255, 251, 4, 0, 255, 251, 4, 0, 9, 9, 9, 9, 9, 9, 9, 9]).framesize = 12 ∧
    sample_env.find_mp3_header [9, 9, 9, 9, 9, 9, 9, 9] 8 = -1 ∧
    sample_env.find_mp3_header
      [251, 12, 0, 255, 251, 4, 0, 255, 251, 4, 0, 9, 9, 9, 9, 9, 9, 9, 9] 19 = 3 ∧
    (sample_env.decode_mp3_header
      [255, 251, 4, 0, 255, 251, 4, 0, 9, 9, 9, 9, 9, 9, 9, 9]).framesize = 4 ∧
    sample_env.find_mp3_header [255, 251, 4, 0, 9, 9, 9, 9, 9, 9, 9, 9] 12 = 0 ∧
    (get_mp3_packet sample_env 1
      (sample_packetizer
        [255, 251, 12, 0, 255, 251, 4, 0, 255, 251, 4, 0, 9, 9, 9, 9, 9, 9, 9, 9] 0)).map
        (fun res => (res.1.map Prod.fst, res.2.byte_buffer, res.2.valid_headers_found)) =
      some (none, [255, 251, 12, 0, 255, 251, 4, 0, 255, 251, 4, 0, 9, 9, 9, 9, 9, 9, 9, 9],
        false)) ∧
    (sample_env.find_mp3_header
      [255, 251, 8, 0, 255, 251, 6, 0, 9, 9, 9, 255, 251, 4, 0, 255, 251, 4, 0, 0, 0, 0, 0]
        23 = 0 ∧
    sample_env.find_mp3_header
      [9, 9, 9, 255, 251, 4, 0, 255, 251, 4, 0, 0, 0, 0, 0] 15 = 3 ∧
    (sample_env.decode_mp3_header
      [255, 251, 4, 0, 255, 251, 4, 0, 0, 0, 0, 0]).framesize = 4 ∧
    sample_env.find_mp3_header [255, 251, 4, 0, 0, 0, 0, 0] 8 = 0 ∧
    sample_env.find_mp3_header
      [251, 8, 0, 255, 251, 6, 0, 9, 9, 9, 255, 251, 4, 0, 255, 251, 4, 0, 0, 0, 0, 0]
        22 = 3 ∧
    sample_env.find_mp3_header [9, 255, 251, 4, 0, 255, 251, 4, 0, 0, 0, 0, 0] 13 = 1 ∧
    (get_mp3_packet sample_env 1
      (sample_packetizer
        [255, 251, 8, 0, 255, 251, 6, 0, 9, 9, 9, 255, 251, 4, 0, 255, 251, 4, 0, 0, 0, 0, 0]
        0)).map
        (fun res => (res.1.map Prod.fst, res.2.byte_buffer, res.2.valid_headers_found)) =
      some (some [0, 255, 251, 6, 0, 9], [9, 9, 255, 251, 4, 0, 255, 251, 4, 0, 0, 0, 0, 0],
        true)) := by
  refine ⟨⟨?_, ?_, ?_, ?_, ?_, ?_, ?_⟩, ⟨?_, ?_, ?_, ?_, ?_, ?_, ?_⟩⟩ <;> decide

/-- C7, witness: a lone header at 0 that announces 8 bytes, followed at 4 by
frames of 6, 5 and 4 bytes. -/
theorem rejects_isolated_header_witness :
    sample_env.find_mp3_header
      [255, 251, 8, 0, 255, 251, 6, 0, 1, 1, 255, 251, 5, 0, 2, 255, 251, 4, 0] 19 = 0 ∧
    sample_env.find_mp3_header [1, 1, 255, 251, 5, 0, 2, 255, 251, 4, 0] 11 = 2 ∧
    (get_mp3_packet sample_env 1
      (sample_packetizer
        [255, 251, 8, 0, 255, 251, 6, 0, 1, 1, 255, 251, 5, 0, 2, 255, 251, 4, 0] 0)).map
        (fun res => (res.1.map Prod.fst, res.2.byte_buffer,
          res.2.reports.map garbage_report.bytes, res.2.valid_headers_found)) =
      some (some [255, 251, 6, 0, 1, 1], [255, 251, 5, 0, 2, 255, 251, 4, 0], [4], true) := by
  obtain ⟨t, rep, _, h1, _, h3, h4, h5, h6⟩ := rejects_isolated_header sample_env 0
    (sample_packetizer
      [255, 251, 8, 0, 255, 251, 6, 0, 1, 1, 255, 251, 5, 0, 2, 255, 251, 4, 0] 0)
    0 3 (sample_decode [255, 251, 8, 0]) (sample_decode [255, 251, 6, 0])
    rfl (by decide) (by decide) (by decide) (by decide) rfl (by decide) (by decide)
    (by decide) (by decide) (by decide) (by decide) (by decide) (by decide) ⟨rfl, rfl⟩
  refine ⟨by decide, by decide, ?_⟩
  rw [h1]
  simp only [Option.map_some', h3, h5, h6]
  simp [sample_packetizer, h4]
  decide

/-- C10, witness: the buffer of 17 bytes in which both candidates have their next
header 1 byte late. -/
theorem unconfirmed_headers_degrade_witness :
    sample_env.find_mp3_header [9, 255, 251, 5, 0, 2, 9, 255, 251, 4, 0] 11 = 1 ∧
    sample_env.find_mp3_header [9, 255, 251, 4, 0] 5 = 1 ∧
    ∀ res t, get_mp3_packet sample_env 1
      (sample_packetizer [255, 251, 6, 0, 1, 1, 9, 255, 251, 5, 0, 2, 9, 255, 251, 4, 0] 0) =
        some (res, t) → t.valid_headers_found = true :=
  ⟨by decide, by decide,
    (unconfirmed_headers_degrade sample_env 0
      (sample_packetizer [255, 251, 6, 0, 1, 1, 9, 255, 251, 5, 0, 2, 9, 255, 251, 4, 0] 0)
      0 6 1 (sample_decode [255, 251, 6, 0]) (sample_decode [255, 251, 5, 0])
      rfl (by decide) (by decide) (by decide) (by decide) rfl (by decide) (by decide)
      (by decide) (by decide) (by decide) (by decide) (by decide) (by decide)).1⟩

/-- C6, witness: two frames and a displacement of 26 pending. -/
theorem duplicate_is_zeroed_copy_witness :
    sample_env_late.needs_positive_displacement
      (sample_packetizer [255, 251, 6, 0, 1, 1, 255, 251, 5, 0, 2] 26).base 0 = true ∧
    (get_mp3_packet sample_env_late 1
      (sample_packetizer [255, 251, 6, 0, 1, 1, 255, 251, 5, 0, 2] 26)).map
        (fun res => (res.1.map Prod.fst, res.2.byte_buffer)) =
      some (some [255, 251, 6, 0, 0, 0], [255, 251, 6, 0, 1, 1, 255, 251, 5, 0, 2]) := by
  obtain ⟨packet, t, h1, h2, h3, h4, h5⟩ := duplicate_is_zeroed_copy sample_env_late 0
    (sample_packetizer [255, 251, 6, 0, 1, 1, 255, 251, 5, 0, 2] 26)
    (sample_decode [255, 251, 6, 0, 1, 1]) (by decide) (by decide) (by decide) rfl
    (by decide) (by decide) (Or.inr ⟨rfl, by decide, by decide⟩) rfl (by decide)
  refine ⟨by decide, ?_⟩
  rw [h1]
  simp only [Option.map_some', h5]
  have hp : packet = packet.take 4 ++ packet.drop 4 := (List.take_append_drop 4 packet).symm
  rw [hp, h3, h4]
  rfl

/-! ## The AC-3 drive loop and the synchronisation rule (C12, C17, C18, C20) -/

/-- The rule of the synchronisation corrector on a frame of at least 1 ms: the
displacement keeps its sign or becomes 0, and gets smaller when it is not 0. -/
theorem section_4_4_rule_truncated_bounds (D : Int) (d : ℚ) (hd : 1 ≤ d) :
    (section_4_4_rule_truncated D d = 0 ∨
      (0 < D ∧ 0 < section_4_4_rule_truncated D d) ∨
      (D < 0 ∧ section_4_4_rule_truncated D d < 0)) ∧
    (D ≠ 0 → |section_4_4_rule_truncated D d| < |D|) := by
  have ht : 1 ≤ c_int d := c_int_pos hd
  have hhalf : (0 : ℚ) < d / 2 := by linarith
  unfold section_4_4_rule_truncated
  by_cases h1 : D < 0
  · rw [if_pos h1]
    by_cases hc : ((D + c_int d : Int) : ℚ) > -(d / 2)
    · rw [if_pos hc]
      exact ⟨Or.inl rfl, fun _ => by rw [abs_zero]; exact abs_pos.mpr (by omega)⟩
    · rw [if_neg hc]
      have hq : ((D + c_int d : Int) : ℚ) < 0 := by linarith [not_lt.mp hc]
      have hneg : D + c_int d < 0 := by exact_mod_cast hq
      refine ⟨Or.inr (Or.inr ⟨h1, hneg⟩), fun _ => ?_⟩
      rw [abs_of_neg hneg, abs_of_neg h1]
      omega
  · rw [if_neg h1]
    by_cases h2 : D > 0
    · rw [if_pos h2]
      by_cases hc : ((D - c_int d : Int) : ℚ) < d / 2
      · rw [if_pos hc]
        exact ⟨Or.inl rfl, fun _ => by rw [abs_zero]; exact abs_pos.mpr (by omega)⟩
      · rw [if_neg hc]
        have hq : (0 : ℚ) < ((D - c_int d : Int) : ℚ) := by linarith [not_lt.mp hc]
        have hpos : 0 < D - c_int d := by exact_mod_cast hq
        refine ⟨Or.inr (Or.inl ⟨h2, hpos⟩), fun _ => ?_⟩
        rw [abs_of_pos hpos, abs_of_pos h2]
        omega
    · rw [if_neg h2]
      have : D = 0 := by omega
      exact ⟨Or.inl this, fun h => absurd this h⟩

/-- C20. The AC-3 synchronisation corrector never overshoots: for every
displacement `D` and every fully buffered frame of at least 1 ms, one call of
`get_ac3_packet` yields a displacement `D'` that is 0 or has the sign of `D` (a
negative displacement never becomes positive and a positive one never
negative), and `|D'| < |D|` whenever `D` is not 0. -/
theorem sync_corrector_never_overshoots (find : ac3_locator) (s : ac3_packetizer_c)
    (r : Int × ac3_header_t) (hl : located find s = some r) (hd : 1 ≤ pims r.2) :
    ((get_ac3_packet find s).2.displacement = 0 ∨
      (0 < s.displacement ∧ 0 < (get_ac3_packet find s).2.displacement) ∨
      (s.displacement < 0 ∧ (get_ac3_packet find s).2.displacement < 0)) ∧
    (s.displacement ≠ 0 →
      |(get_ac3_packet find s).2.displacement| < |s.displacement|) := by
  rw [get_ac3_packet_displacement hl]
  exact section_4_4_rule_truncated_bounds s.displacement (pims r.2) hd

/-- A call of `get_ac3_packet` leaves the queue, `packetno` and the stream
parameters alone. -/
theorem get_ac3_packet_fields (find : ac3_locator) (s : ac3_packetizer_c) :
    (get_ac3_packet find s).2.queue = s.queue ∧
    (get_ac3_packet find s).2.packetno = s.packetno ∧
    (get_ac3_packet find s).2.linear = s.linear ∧
    (get_ac3_packet find s).2.samples_per_sec = s.samples_per_sec := by
  rw [get_ac3_packet_eq]
  cases hl : located find s with
  | none => exact ⟨rfl, rfl, rfl, rfl⟩
  | some r =>
    obtain ⟨pos, hdr⟩ := r
    simp only
    split_ifs <;> exact ⟨rfl, rfl, rfl, rfl⟩

/-- A call of `get_ac3_packet` entered with a displacement that is not negative:
it returns `NULL` only when no fully buffered frame is located, and then leaves
the state untouched; the displacement stays non-negative. -/
theorem get_ac3_packet_nonneg (find : ac3_locator) (s : ac3_packetizer_c)
    (hd : 0 ≤ s.displacement) :
    0 ≤ (get_ac3_packet find s).2.displacement ∧
    ((get_ac3_packet find s).1 = none →
      located find s = none ∧ (get_ac3_packet find s).2 = s) := by
  cases hl : located find s with
  | none =>
    rw [get_ac3_packet_eq, hl]
    exact ⟨hd, fun _ => ⟨rfl, rfl⟩⟩
  | some r =>
    have hsome := get_ac3_packet_isSome hl (by omega)
    refine ⟨?_, fun h => ?_⟩
    · rw [get_ac3_packet_displacement hl]
      unfold section_4_4_rule_truncated
      rw [if_neg (by omega)]
      by_cases h2 : s.displacement > 0
      · rw [if_pos h2]
        by_cases hc : ((s.displacement - c_int (pims r.2) : Int) : ℚ) < pims r.2 / 2
        · rw [if_pos hc]
        · rw [if_neg hc]
          have hp := pims_nonneg r.2
          have hq : (0 : ℚ) ≤ ((s.displacement - c_int (pims r.2) : Int) : ℚ) := by
            linarith [not_lt.mp hc]
          exact_mod_cast hq
      · rw [if_neg h2]
        exact hd
    · rw [h] at hsome
      simp at hsome

/-- The loop of `process` entered with a displacement that is not negative ends
only when no fully buffered frame is left. -/
theorem process_loop_drains (find : ac3_locator) (fuel : Nat) :
    ∀ s : ac3_packetizer_c, 0 ≤ s.displacement →
      (process_loop find fuel s).2 = true →
      located find (process_loop find fuel s).1 = none ∧
      0 ≤ (process_loop find fuel s).1.displacement := by
  induction fuel with
  | zero => intro s _ h; simp [process_loop] at h
  | succ fuel ih =>
    intro s hd hfin
    obtain ⟨hd1, hnone⟩ := get_ac3_packet_nonneg find s hd
    unfold process_loop at hfin ⊢
    cases hg : get_ac3_packet find s with
    | mk o s1 =>
      rw [hg] at hd1 hnone hfin
      cases o with
      | none =>
        obtain ⟨hl, hs⟩ := hnone rfl
        simp only at hs ⊢
        rw [hs]
        exact ⟨hl, hd⟩
      | some p =>
        obtain ⟨packet, hdr⟩ := p
        exact ih _ hd1 hfin

/-- C12 (amended). The AC-3 drive loop runs until no further full frame is
available when it is entered with a displacement that is not negative: for
every such state and every input chunk, when `process` returns, the locator
finds no fully buffered frame in the remaining buffer. -/
theorem drive_loop_drains_buffer (find : ac3_locator) (fuel : Nat) (s : ac3_packetizer_c)
    (buf : List byte) (size last_frame : Int) (r : ac3_packetizer_c × Int)
    (hd : 0 ≤ s.displacement)
    (hr : process find fuel s buf size last_frame = some r) :
    located find r.1 = none := by
  obtain ⟨s0, ha, hp, -⟩ := process_some find fuel s buf size last_frame r hr
  obtain ⟨-, hs0⟩ := add_to_buffer_some s s0 buf size ha
  have h := process_loop_drains find fuel s0 (by rw [hs0]; exact hd)
  rw [hp] at h
  exact (h rfl).1

/-- C12, counterexample. With a displacement of -800 ms and two frames of 32 ms
in the chunk, `process` returns after dropping the first frame: the second one
is still in the buffer, fully buffered. -/
theorem drive_loop_counterexample :
    (process (constant_frames 128 32000) 1 (ac3_packetizer_c.new 48000 2 0 (-800) 1)
      (List.replicate 256 0) 256 0).map
        (fun r => (located (constant_frames 128 32000) r.1, r.1.buffer_size)) =
      some (some (0, { bytes := 128, bit_rate := 32000 }), 128) := by
  have hl := zero_filled_located 128 32000 256 (-800) (by decide)
  obtain ⟨h1, h2, h3, _⟩ := get_ac3_packet_drop hl (by decide)
  have hsz : (zero_filled 256 (-800)).buffer_size = 256 := by decide
  rw [hsz] at h2 h3
  simp only [zero_add, Nat.cast_ofNat] at h2 h3
  have hloop : process_loop (constant_frames 128 32000) 1 (zero_filled 256 (-800)) =
      ((get_ac3_packet (constant_frames 128 32000) (zero_filled 256 (-800))).2, true) := by
    unfold process_loop
    cases hg : get_ac3_packet (constant_frames 128 32000) (zero_filled 256 (-800)) with
    | mk o s1 =>
      rw [hg] at h1
      simp only at h1
      subst h1
      rfl
  have hproc : process (constant_frames 128 32000) 1 (ac3_packetizer_c.new 48000 2 0 (-800) 1)
      (List.replicate 256 0) 256 0 =
      some ((get_ac3_packet (constant_frames 128 32000) (zero_filled 256 (-800))).2,
        EMOREDATA) := by
    have hz : add_to_buffer (ac3_packetizer_c.new 48000 2 0 (-800) 1) (List.replicate 256 0)
        256 = some (zero_filled 256 (-800)) := by
      have := zero_filled_eq 256 (-800)
      exact_mod_cast this
    unfold process
    rw [hz]
    simp only []
    rw [hloop]
    rfl
  rw [hproc]
  simp only [Option.map_some', Option.some.injEq, Prod.mk.injEq]
  refine ⟨located_constant_frames 128 32000 _ (h3.mpr (by norm_num)) (by rw [h2]; norm_num), ?_⟩
  rw [h2]
  norm_num

/-- C17 (amended). On the flush call of the AC-3 packetizer (`process` with
`last_frame` non-zero) the bytes that remain after the emit loop stay in the
accumulation buffer: the call leaves exactly the state that the same call
with `last_frame = 0` leaves, and differs from it only in returning 0
instead of `EMOREDATA`. -/
theorem flush_keeps_remaining_bytes (find : ac3_locator) (fuel : Nat) (s : ac3_packetizer_c)
    (buf : List byte) (size last_frame : Int) (r : ac3_packetizer_c × Int)
    (hlast : last_frame ≠ 0)
    (hr : process find fuel s buf size last_frame = some r) :
    process find fuel s buf size 0 = some (r.1, EMOREDATA) ∧ r.2 = 0 ∧ EMOREDATA ≠ 0 := by
  obtain ⟨s0, ha, hp, hc⟩ := process_some find fuel s buf size last_frame r hr
  rw [if_pos hlast] at hc
  refine ⟨?_, hc, by decide⟩
  unfold process
  rw [ha]
  simp only []
  rw [hp]
  rfl

/-- C17, counterexample. A flush call on 6 bytes, with frames of 4 bytes, emits
one frame, returns 0 and leaves 2 bytes in the buffer. -/
theorem flush_counterexample :
    (process (constant_frames 4 1000) 3 (ac3_packetizer_c.new 48000 2 0 0 1)
      [1, 2, 3, 4, 5, 6] 6 1).map
        (fun r => (r.1.queue.map (fun p => p.data), r.1.buffer_size, r.1.packet_buffer, r.2)) =
      some ([[1, 2, 3, 4]], 2, some [5, 6], 0) := by
  decide

/-- C17, witness: the flush call on 6 bytes with frames of 4 bytes. -/
theorem flush_keeps_remaining_bytes_witness :
    ∃ r, process (constant_frames 4 1000) 3 (ac3_packetizer_c.new 48000 2 0 0 1)
        [1, 2, 3, 4, 5, 6] 6 1 = some r ∧
      process (constant_frames 4 1000) 3 (ac3_packetizer_c.new 48000 2 0 0 1)
        [1, 2, 3, 4, 5, 6] 6 0 = some (r.1, EMOREDATA) ∧ r.2 = 0 := by
  obtain ⟨r, hr⟩ := Option.isSome_iff_exists.mp
    (by decide : (process (constant_frames 4 1000) 3 (ac3_packetizer_c.new 48000 2 0 0 1)
      [1, 2, 3, 4, 5, 6] 6 1).isSome = true)
  obtain ⟨h1, h2, _⟩ := flush_keeps_remaining_bytes (constant_frames 4 1000) 3
    (ac3_packetizer_c.new 48000 2 0 0 1) [1, 2, 3, 4, 5, 6] 6 1 r (by decide) hr
  exact ⟨r, hr, h1, h2⟩

/-! ### The drive loop ends (C18) -/

/-- The loop of `process` ends within `displacement + buffer_size + 1` rounds
when every frame the locator reports has at least 1 byte and lasts at least
1 ms. -/
theorem process_loop_ends (find : ac3_locator)
    (hloc : ∀ buf size, 0 ≤ (find buf size).1 →
      1 ≤ (find buf size).2.bytes ∧ 1 ≤ pims (find buf size).2)
    (fuel : Nat) :
    ∀ s : ac3_packetizer_c, s.displacement.toNat + s.buffer_size.toNat < fuel →
      (process_loop find fuel s).2 = true := by
  induction fuel with
  | zero => intro s h; omega
  | succ fuel ih =>
    intro s hm
    unfold process_loop
    cases hl : located find s with
    | none =>
      have hg : get_ac3_packet find s = (none, s) := by rw [get_ac3_packet_eq, hl]
      rw [hg]
    | some r =>
      obtain ⟨h0, h1, hnn⟩ := @located_bounds find s r.1 r.2 hl
      have hr : 1 ≤ r.2.bytes ∧ 1 ≤ pims r.2 := by
        unfold located at hl
        cases hpb : s.packet_buffer with
        | none => exact absurd hpb hnn
        | some pb =>
          simp only [hpb] at hl
          split_ifs at hl with c1 c2
          simp only [Option.some.injEq] at hl
          have := hloc pb s.buffer_size (by omega)
          rw [hl] at this
          exact this
      by_cases hneg : s.displacement < 0
      · have hnone := (get_ac3_packet_drop hl hneg).1
        cases hg : get_ac3_packet find s with
        | mk o s1 =>
          rw [hg] at hnone
          simp only at hnone
          subst hnone
          rfl
      · have hsome := get_ac3_packet_isSome hl hneg
        have hmeasure : (get_ac3_packet find s).2.displacement.toNat +
            (get_ac3_packet find s).2.buffer_size.toNat < fuel := by
          by_cases hpos : 0 < s.displacement
          · obtain ⟨_, _, hs, _, hd0, _, hlt⟩ :=
              @get_ac3_packet_duplicate find s r.1 r.2 hl hpos
            have := hlt hr.2
            rw [hs]
            omega
          · have hz : s.displacement = 0 := by omega
            have hdisp : (get_ac3_packet find s).2.displacement = 0 := by
              rw [get_ac3_packet_displacement hl]
              unfold section_4_4_rule_truncated
              rw [if_neg (by omega), if_neg (by omega)]
              exact hz
            have hsize : (get_ac3_packet find s).2.buffer_size =
                s.buffer_size - (r.1 + r.2.bytes) := by
              rw [get_ac3_packet_eq, hl]
              simp only [if_neg hneg, if_neg hpos]
              rfl
            rw [hdisp, hsize]
            omega
        cases hg : get_ac3_packet find s with
        | mk o s1 =>
          rw [hg] at hsome hmeasure
          cases o with
          | none => simp at hsome
          | some p =>
            obtain ⟨packet, hdr⟩ := p
            exact ih _ hmeasure

/-- C18 (amended). An AC-3 drive call runs to completion: for every packetizer
state (buffer contents, displacement of either sign) and every input chunk for
which `add_to_buffer` returns (it ends the program where `realloc` returns
`NULL`), given a locator whose frames have at least 1 byte and last at least
1 ms (`bytes * 1000 / (bit_rate / 8) >= 1`), the emit loop of `process` ends
after at most `displacement + buffer_size + size + 1` calls of
`get_ac3_packet`, and `process` returns. -/
theorem drive_call_completes (find : ac3_locator) (s : ac3_packetizer_c)
    (buf : List byte) (size last_frame : Int)
    (hloc : ∀ b n, 0 ≤ (find b n).1 → 1 ≤ (find b n).2.bytes ∧ 1 ≤ pims (find b n).2)
    (hadd : (add_to_buffer s buf size).isSome = true)
    (fuel : Nat)
    (hfuel : s.displacement.toNat + (s.buffer_size + size).toNat < fuel) :
    (process find fuel s buf size last_frame).isSome = true := by
  obtain ⟨s0, ha⟩ := Option.isSome_iff_exists.mp hadd
  obtain ⟨-, hs0⟩ := add_to_buffer_some s s0 buf size ha
  have h := process_loop_ends find hloc fuel s0 (by rw [hs0]; exact hfuel)
  unfold process
  rw [ha]
  simp only []
  cases hp : process_loop find fuel s0 with
  | mk s1 b =>
    rw [hp] at h
    simp only at h
    subst h
    rfl

/-- The locator `constant_frames 1 16000` (frames of 1 byte, 0.5 ms) and a
displacement of 1 ms: the loop of `process` never ends. -/
theorem process_loop_spins (fuel : Nat) :
    ∀ s : ac3_packetizer_c, s.packet_buffer ≠ none → 1 ≤ s.buffer_size →
      s.displacement = 1 → (process_loop (constant_frames 1 16000) fuel s).2 = false := by
  induction fuel with
  | zero => intro s _ _ _; rfl
  | succ fuel ih =>
    intro s hpb hsz hd
    have hl := located_constant_frames 1 16000 s hpb (by exact_mod_cast hsz)
    obtain ⟨_, hb, hs, _, _, _, _⟩ := get_ac3_packet_duplicate hl (by omega)
    have hdisp : (get_ac3_packet (constant_frames 1 16000) s).2.displacement = 1 := by
      rw [get_ac3_packet_displacement hl, hd]
      norm_num [section_4_4_rule_truncated, pims, c_int]
    have hsome := get_ac3_packet_isSome hl (by omega)
    unfold process_loop
    cases hg : get_ac3_packet (constant_frames 1 16000) s with
    | mk o s1 =>
      rw [hg] at hb hs hdisp hsome
      cases o with
      | none => simp at hsome
      | some p =>
        obtain ⟨packet, hdr⟩ := p
        exact ih _ (by simpa using (by rw [hb]; exact hpb : s1.packet_buffer ≠ none))
          (by simpa using (by rw [hs]; exact hsz : 1 ≤ s1.buffer_size)) hdisp

/-- C18, counterexample. The locator `constant_frames 1 16000` reports frames of
1 byte at 16000 bit/s, so frame size >= 1 and bit rate > 0, lasting 0.5 ms; with
a displacement of 1 ms and one byte of input, `process` does not return,
however many rounds the loop is given, although `add_to_buffer` returns.  And
with frames of 128 bytes lasting
32 ms, the second of two calls with an empty chunk does not return: the first
call leaves an allocated buffer of 0 bytes, for which `realloc` returns `NULL`
in the second. -/
theorem drive_call_counterexample :
    (add_to_buffer (ac3_packetizer_c.new 48000 2 0 1 1) [0] 1).isSome = true ∧
    (¬ ∃ fuel, (process (constant_frames 1 16000) fuel (ac3_packetizer_c.new 48000 2 0 1 1)
      [0] 1 0).isSome = true) ∧
    (∀ fuel, (process (constant_frames 128 32000) (fuel + 1)
        (ac3_packetizer_c.new 48000 2 0 0 1) [] 0 0).map
          (fun r => (r.1.packet_buffer, r.1.buffer_size)) = some (some [], 0)) ∧
    add_to_buffer { ac3_packetizer_c.new 48000 2 0 0 1 with packet_buffer := some [] } [] 0 =
      none ∧
    (∀ fuel, process_all (constant_frames 128 32000) fuel
        (ac3_packetizer_c.new 48000 2 0 0 1) [([], 0), ([], 0)] = none) := by
  refine ⟨by decide, ?_, fun fuel => rfl, rfl, fun fuel => by cases fuel <;> rfl⟩
  rintro ⟨fuel, h⟩
  obtain ⟨r, hr⟩ := Option.isSome_iff_exists.mp h
  obtain ⟨s0, ha, hp, -⟩ := process_some _ fuel _ [0] 1 0 r hr
  obtain ⟨-, hs0⟩ := add_to_buffer_some _ s0 [0] 1 ha
  have hs := process_loop_spins fuel s0 (by rw [hs0]; simp) (by rw [hs0]; decide)
    (by rw [hs0]; rfl)
  rw [hp] at hs
  exact absurd hs (by simp)

/-! ### Timestamps of the AC-3 packets (C14) -/

/-- The timestamp of packet number 0 is 0, whatever the speed ratio. -/
theorem ac3_timecode_at_zero (linear : ℚ) (sps : Nat) : ac3_timecode_at linear sps 0 = 0 := by
  simp [ac3_timecode_at, double_mul, double_div, to_double_zero, c_int]

/-- At speed ratio 1, and as long as `1000 * i * 1536` is below 2^53, the
`double` arithmetic of lines 212-213 gives the exact integer part. -/
theorem ac3_timecode_at_one (sps i : Nat) (hs1 : 1 ≤ sps) (hs2 : sps < 2 ^ 53)
    (hi : 1536000 * i < 2 ^ 53) :
    ac3_timecode_at 1 sps (i : Int) = ac3_nominal_timecode 1 sps i := by
  have e1 : to_double (((i : Int) : ℚ)) = (i : ℚ) := by
    have := to_double_natCast i (by omega)
    exact_mod_cast this
  have e2 : to_double (1000 * (i : ℚ)) = ((1000 * i : Nat) : ℚ) := by
    have := to_double_natCast (1000 * i) (by omega)
    exact_mod_cast this
  have e3 : to_double (((1000 * i : Nat) : ℚ) * 1536) = ((1536000 * i : Nat) : ℚ) := by
    have := to_double_natCast (1536000 * i) hi
    rw [← this]
    congr 1
    push_cast
    ring
  have e4 : to_double (((1536000 * i : Nat) : ℚ) * 1) = ((1536000 * i : Nat) : ℚ) := by
    rw [mul_one]
    exact to_double_natCast _ hi
  have e5 : to_double ((sps : ℚ)) = (sps : ℚ) := to_double_natCast sps hs2
  unfold ac3_timecode_at ac3_nominal_timecode double_mul double_div
  rw [e1, e2, e3, e4, e5, c_int_to_double_div _ _ hi hs1]
  congr 1
  push_cast
  ring

/-- The loop of `process` numbers the packets it hands over: `packetno` is the
length of the queue and the `i`-th packet carries the timestamp computed from
`i`. -/
theorem process_loop_timecodes (find : ac3_locator) (fuel : Nat) :
    ∀ s : ac3_packetizer_c, s.packetno = (s.queue.length : Int) →
      s.queue.map (fun p => p.timecode) =
        (List.range s.queue.length).map
          (fun (i : Nat) => ac3_timecode_at s.linear s.samples_per_sec (i : Int)) →
      (process_loop find fuel s).1.linear = s.linear ∧
      (process_loop find fuel s).1.samples_per_sec = s.samples_per_sec ∧
      (process_loop find fuel s).1.packetno = ((process_loop find fuel s).1.queue.length : Int) ∧
      (process_loop find fuel s).1.queue.map (fun p => p.timecode) =
        (List.range (process_loop find fuel s).1.queue.length).map
          (fun (i : Nat) => ac3_timecode_at s.linear s.samples_per_sec (i : Int)) := by
  induction fuel with
  | zero => intro s hp hq; exact ⟨rfl, rfl, hp, hq⟩
  | succ fuel ih =>
    intro s hp hq
    obtain ⟨f1, f2, f3, f4⟩ := get_ac3_packet_fields find s
    unfold process_loop
    cases hg : get_ac3_packet find s with
    | mk o s1 =>
      rw [hg] at f1 f2 f3 f4
      simp only at f1 f2 f3 f4
      cases o with
      | none =>
        simp only
        rw [f1, f2, f3, f4]
        exact ⟨rfl, rfl, hp, hq⟩
      | some p =>
        obtain ⟨packet, hdr⟩ := p
        simp only
        have htc : ac3_timecode s1 =
            ac3_timecode_at s.linear s.samples_per_sec (s.queue.length : Int) := by
          unfold ac3_timecode
          rw [f2, f3, f4, hp]
        have := ih { s1 with
            queue := s1.queue ++ [ac3_packet_t.mk packet hdr.bytes (ac3_timecode s1)
              (decide (0 < s.displacement))],
            packetno := s1.packetno + 1 }
          (by
            show s1.packetno + 1 = _
            rw [f2, hp, f1]
            simp)
          (by
            show List.map _ (s1.queue ++ _) = List.map _ (List.range (s1.queue ++ _).length)
            rw [f1, List.map_append, hq, List.length_append, List.length_singleton,
              List.range_succ, List.map_append]
            simp only [List.map_cons, List.map_nil, htc]
            show _ = List.map (fun (i : Nat) =>
              ac3_timecode_at s1.linear s1.samples_per_sec (i : Int)) _ ++ _
            rw [f3, f4])
        obtain ⟨a1, a2, a3, a4⟩ := this
        refine ⟨a1.trans f3, a2.trans f4, a3, ?_⟩
        rw [a4]
        show List.map (fun (i : Nat) =>
          ac3_timecode_at s1.linear s1.samples_per_sec (i : Int)) _ = _
        rw [f3, f4]

theorem process_all_timecodes (find : ac3_locator) (fuel : Nat)
    (calls : List (List byte × Int)) :
    ∀ s t : ac3_packetizer_c, s.packetno = (s.queue.length : Int) →
      s.queue.map (fun p => p.timecode) =
        (List.range s.queue.length).map
          (fun (i : Nat) => ac3_timecode_at s.linear s.samples_per_sec (i : Int)) →
      process_all find fuel s calls = some t →
      t.queue.map (fun p => p.timecode) =
        (List.range t.queue.length).map
          (fun (i : Nat) => ac3_timecode_at s.linear s.samples_per_sec (i : Int)) := by
  induction calls with
  | nil =>
    intro s t _ hq hr
    simp only [process_all, Option.some.injEq] at hr
    subst hr
    exact hq
  | cons c cs ih =>
    intro s t hp hq hr
    unfold process_all at hr
    cases hpr : process find fuel s c.1 c.1.length c.2 with
    | none => simp [hpr] at hr
    | some r =>
      simp only [hpr] at hr
      obtain ⟨s0, ha, hlp, -⟩ := process_some find fuel s c.1 c.1.length c.2 r hpr
      obtain ⟨-, hs0⟩ := add_to_buffer_some s s0 c.1 c.1.length ha
      have h := process_loop_timecodes find fuel s0 (by rw [hs0]; exact hp)
        (by rw [hs0]; exact hq)
      rw [hlp] at h
      obtain ⟨h1, h2, h3, h4⟩ := h
      have h1' : r.1.linear = s.linear := by rw [h1, hs0]
      have h2' : r.1.samples_per_sec = s.samples_per_sec := by rw [h2, hs0]
      have h4' : r.1.queue.map (fun p => p.timecode) =
          (List.range r.1.queue.length).map
            (fun (i : Nat) => ac3_timecode_at r.1.linear r.1.samples_per_sec (i : Int)) := by
        rw [h1', h2', h4, hs0]
      have := ih r.1 t h3 h4' hr
      rw [h1', h2'] at this
      exact this

theorem ac3_nominal_timecode_mono (sps : Nat) {i j : Nat} (h : i ≤ j) :
    ac3_nominal_timecode 1 sps i ≤ ac3_nominal_timecode 1 sps j := by
  unfold ac3_nominal_timecode
  apply Int.floor_mono
  have : (i : ℚ) ≤ (j : ℚ) := by exact_mod_cast h
  apply div_le_div_of_nonneg_right _ (by positivity)
  nlinarith

/-- C14 (amended). In the AC-3 packetizer the `i`-th packet handed to
`add_packet` (`i` counted from 0 over the whole lifetime of the packetizer,
across `process` calls, for any locator and any initial displacement, so
however many frames were dropped before it) carries the timestamp that lines
212-213 compute from `i` in `double` arithmetic,
`(u_int64_t)(1000.0 * i * 1536 * linear / samples_per_sec)`; the first packet
handed over has timestamp 0; and with `linear = 1`, as long as
`1000 * i * 1536` stays below 2^53, the timestamp is
`floor(1000 * i * 1536 / samples_per_sec)` and the timestamps do not
decrease.  The sampling rate is at least 1 and below 2^53. -/
theorem ac3_timestamps (find : ac3_locator) (fuel : Nat) (nsps : Nat) (nch nbr D : Int)
    (linear : ℚ) (calls : List (List byte × Int)) (t : ac3_packetizer_c)
    (hsps : 1 ≤ nsps ∧ nsps < 2 ^ 53)
    (hrun : process_all find fuel (ac3_packetizer_c.new nsps nch nbr D linear) calls =
      some t) :
    t.queue.map (fun p => p.timecode) =
      (List.range t.queue.length).map
        (fun (i : Nat) => ac3_timecode_at linear nsps (i : Int)) ∧
    (∀ p, t.queue.head? = some p → p.timecode = 0) ∧
    (linear = 1 → 1536000 * t.queue.length ≤ 2 ^ 53 →
      t.queue.map (fun p => p.timecode) =
        (List.range t.queue.length).map (ac3_nominal_timecode 1 nsps) ∧
      (t.queue.map (fun p => p.timecode)).Pairwise (fun a b => a ≤ b)) := by
  have h := process_all_timecodes find fuel calls (ac3_packetizer_c.new nsps nch nbr D linear)
    t rfl rfl hrun
  have h' : t.queue.map (fun p => p.timecode) =
      (List.range t.queue.length).map
        (fun (i : Nat) => ac3_timecode_at linear nsps (i : Int)) := h
  refine ⟨h', ?_, ?_⟩
  · intro p hp
    cases hq : t.queue with
    | nil => rw [hq] at hp; simp at hp
    | cons a rest =>
      rw [hq] at hp h'
      simp only [List.head?_cons, Option.some.injEq] at hp
      subst hp
      simp only [List.map_cons, List.length_cons, List.range_succ_eq_map, List.map_cons,
        List.cons.injEq] at h'
      rw [h'.1]
      exact ac3_timecode_at_zero linear nsps
  · intro h1 hlen
    have hnom : t.queue.map (fun p => p.timecode) =
        (List.range t.queue.length).map (ac3_nominal_timecode 1 nsps) := by
      rw [h', h1]
      apply List.map_congr_left
      intro i hi
      rw [List.mem_range] at hi
      exact ac3_timecode_at_one nsps i hsps.1 hsps.2 (by omega)
    refine ⟨hnom, ?_⟩
    rw [hnom, List.pairwise_map]
    exact List.Pairwise.imp (fun hab => ac3_nominal_timecode_mono nsps (le_of_lt hab))
      (List.pairwise_lt_range _)

/-! ## The MPEG audio drive step (C13, C15) and the connection test (C16) -/

section mp3
variable {G : Type}

/-- The members that only the first-packet block and `process` change. -/
theorem handle_garbage_counters (env : mp3_env G) (s : mp3_packetizer_c G) (bytes : Int) :
    (handle_garbage env s bytes).packetno = s.packetno ∧
    (handle_garbage env s bytes).spf = s.spf ∧
    (handle_garbage env s bytes).header_renders = s.header_renders ∧
    (handle_garbage env s bytes).linear = s.linear ∧
    (handle_garbage env s bytes).samples_per_sec = s.samples_per_sec := by
  unfold handle_garbage
  by_cases h0 : s.packetno = 0
  · rw [if_pos h0]
    by_cases h1 : (env.handle_avi_audio_sync s.base bytes
        (decide (s.avi_block_align % 384 = 0) || decide (s.avi_block_align % 576 = 0))).2 ≠ -1
    · rw [if_pos h1]
      exact ⟨rfl, rfl, rfl, rfl, rfl⟩
    · rw [if_neg h1]
      exact ⟨rfl, rfl, rfl, rfl, rfl⟩
  · rw [if_neg h0]
    exact ⟨rfl, rfl, rfl, rfl, rfl⟩

theorem find_frame_counters (env : mp3_env G) (fuel : Nat) :
    ∀ (s s1 : mp3_packetizer_c G) (r : Option (Int × mp3_header_t)),
      find_frame env fuel s = some (r, s1) →
      s1.packetno = s.packetno ∧ s1.spf = s.spf ∧ s1.header_renders = s.header_renders ∧
      s1.linear = s.linear ∧ s1.samples_per_sec = s.samples_per_sec := by
  induction fuel with
  | zero => intro s s1 r h; simp [find_frame] at h
  | succ fuel ih =>
    intro s s1 r h
    unfold find_frame search at h
    simp only at h
    split_ifs at h with c1 c2 c3
    · simp only [Option.some.injEq, Prod.mk.injEq] at h
      obtain ⟨_, rfl⟩ := h
      exact ⟨rfl, rfl, rfl, rfl, rfl⟩
    · simp only [Option.some.injEq, Prod.mk.injEq] at h
      obtain ⟨_, rfl⟩ := h
      exact ⟨rfl, rfl, rfl, rfl, rfl⟩
    · simp only [Option.some.injEq, Prod.mk.injEq] at h
      obtain ⟨_, rfl⟩ := h
      exact ⟨rfl, rfl, rfl, rfl, rfl⟩
    · obtain ⟨e1, e2, e3, e4, e5⟩ := ih _ _ _ h
      exact ⟨e1, e2, e3, e4, e5⟩

theorem confirm_headers_counters (env : mp3_env G) (s : mp3_packetizer_c G) (buf : List byte)
    (size pos : Int) (hdr : mp3_header_t) :
    (confirm_headers env s buf size pos hdr).2.packetno = s.packetno ∧
    (confirm_headers env s buf size pos hdr).2.spf = s.spf ∧
    (confirm_headers env s buf size pos hdr).2.header_renders = s.header_renders ∧
    (confirm_headers env s buf size pos hdr).2.linear = s.linear ∧
    (confirm_headers env s buf size pos hdr).2.samples_per_sec = s.samples_per_sec := by
  unfold confirm_headers search
  simp only
  split_ifs
  all_goals first
    | exact ⟨rfl, rfl, rfl, rfl, rfl⟩
    | exact handle_garbage_counters env _ _

theorem deliver_counters (env : mp3_env G) (s t : mp3_packetizer_c G) (pos : Int)
    (hdr : mp3_header_t) (res : Option (List byte × mp3_header_t))
    (h : deliver env s pos hdr = some (res, t)) :
    t.packetno = s.packetno ∧ t.linear = s.linear ∧ t.samples_per_sec = s.samples_per_sec ∧
    t.spf = (if s.packetno = 0 then hdr.samples_per_channel else s.spf) ∧
    t.header_renders = s.header_renders + (if s.packetno = 0 then 1 else 0) := by
  have hsk : (skip_garbage env s pos).packetno = s.packetno ∧
      (skip_garbage env s pos).spf = s.spf ∧
      (skip_garbage env s pos).header_renders = s.header_renders ∧
      (skip_garbage env s pos).linear = s.linear ∧
      (skip_garbage env s pos).samples_per_sec = s.samples_per_sec := by
    unfold skip_garbage
    split_ifs
    · exact handle_garbage_counters env s pos
    · exact ⟨rfl, rfl, rfl, rfl, rfl⟩
  obtain ⟨k1, k2, k3, k4, k5⟩ := hsk
  have hfp : (first_packet_setup (skip_garbage env s pos) hdr).packetno = s.packetno ∧
      (first_packet_setup (skip_garbage env s pos) hdr).linear = s.linear ∧
      (first_packet_setup (skip_garbage env s pos) hdr).samples_per_sec = s.samples_per_sec ∧
      (first_packet_setup (skip_garbage env s pos) hdr).spf =
        (if s.packetno = 0 then hdr.samples_per_channel else s.spf) ∧
      (first_packet_setup (skip_garbage env s pos) hdr).header_renders =
        s.header_renders + (if s.packetno = 0 then 1 else 0) := by
    unfold first_packet_setup
    by_cases h0 : s.packetno = 0
    · have h0' : (skip_garbage env s pos).packetno = 0 := k1.trans h0
      rw [if_pos h0', if_pos h0, if_pos h0]
      exact ⟨k1, k4, k5, rfl, by show (skip_garbage env s pos).header_renders + 1 = _; rw [k3]⟩
    · have h0' : ¬ (skip_garbage env s pos).packetno = 0 := by rw [k1]; exact h0
      rw [if_neg h0', if_neg h0, if_neg h0]
      exact ⟨k1, k4, k5, k2, by rw [k3]; simp⟩
  unfold deliver at h
  simp only at h
  split_ifs at h <;> simp only [Option.some.injEq, Prod.mk.injEq] at h <;>
    obtain ⟨_, rfl⟩ := h <;> exact hfp

/-- A call of `get_mp3_packet` and the counters: `packetno` and the stream
parameters stay; `spf` and the number of `rerender_track_headers` calls change
only while `packetno` is 0, and a call that returns a packet while `packetno`
is 0 asks for the track headers exactly once. -/
theorem get_mp3_packet_counters (env : mp3_env G) (fuel : Nat) (s t : mp3_packetizer_c G)
    (res : Option (List byte × mp3_header_t))
    (h : get_mp3_packet env fuel s = some (res, t)) :
    t.packetno = s.packetno ∧ t.linear = s.linear ∧ t.samples_per_sec = s.samples_per_sec ∧
    (s.packetno ≠ 0 → t.spf = s.spf ∧ t.header_renders = s.header_renders) ∧
    (s.packetno = 0 → res.isSome = true → t.header_renders = s.header_renders + 1) ∧
    t.header_renders ≤ s.header_renders + 1 := by
  unfold get_mp3_packet at h
  split_ifs at h with hz
  · simp only [Option.some.injEq, Prod.mk.injEq] at h
    obtain ⟨rfl, rfl⟩ := h
    exact ⟨rfl, rfl, rfl, fun _ => ⟨rfl, rfl⟩, fun _ hs => by simp at hs, by omega⟩
  · cases hff : find_frame env fuel s with
    | none => simp [hff] at h
    | some r1 =>
      obtain ⟨o, s1⟩ := r1
      obtain ⟨a1, a2, a3, a4, a5⟩ := find_frame_counters env fuel s s1 o hff
      cases o with
      | none =>
        simp only [hff, Option.some.injEq, Prod.mk.injEq] at h
        obtain ⟨rfl, rfl⟩ := h
        exact ⟨a1, a4, a5, fun _ => ⟨a2, a3⟩, fun _ hs => by simp at hs, by omega⟩
      | some ph =>
        obtain ⟨pos, hdr⟩ := ph
        simp only [hff] at h
        obtain ⟨b1, b2, b3, b4, b5⟩ := confirm_headers_counters env s1 s1.byte_buffer
          (byte_buffer_size s1) pos hdr
        cases hc : confirm_headers env s1 s1.byte_buffer (byte_buffer_size s1) pos hdr with
        | mk o2 s2 =>
          rw [hc] at h b1 b2 b3 b4 b5
          simp only at b1 b2 b3 b4 b5
          cases o2 with
          | none =>
            simp only [Option.some.injEq, Prod.mk.injEq] at h
            obtain ⟨rfl, rfl⟩ := h
            exact ⟨b1.trans a1, b4.trans a4, b5.trans a5,
              fun _ => ⟨b2.trans a2, b3.trans a3⟩, fun _ hs => by simp at hs, by omega⟩
          | some ph2 =>
            obtain ⟨pos2, hdr2⟩ := ph2
            simp only at h
            obtain ⟨d1, d2, d3, d4, d5⟩ := deliver_counters env s2 t pos2 hdr2 res h
            have hp2 : s2.packetno = s.packetno := b1.trans a1
            rw [hp2] at d4 d5
            refine ⟨d1.trans hp2, d2.trans (b4.trans a4), d3.trans (b5.trans a5), ?_, ?_, ?_⟩
            · intro hne
              rw [if_neg hne] at d4 d5
              exact ⟨d4.trans (b2.trans a2), by rw [d5, b3, a3]; simp⟩
            · intro he _
              rw [if_pos he] at d5
              rw [d5, b3, a3]
            · rw [d5, b3, a3]
              split_ifs <;> omega

end mp3

section mp3
variable {G : Type}

theorem c_int_intCast (z : Int) : c_int (z : ℚ) = z := by
  unfold c_int
  split_ifs
  · exact Int.floor_intCast z
  · exact Int.ceil_intCast z

/-- The loop of `process` once a packet has been handed over (`packetno >= 1`):
`spf` and the number of `rerender_track_headers` calls do not change any more. -/
theorem mp3_process_loop_later (env : mp3_env G) (disp : G → Int) (timecode : Int)
    (tag_fuel fuel : Nat) :
    ∀ (s t : mp3_packetizer_c G) (q q1 : List mp3_packet_t), 1 ≤ s.packetno →
      mp3_process_loop env disp timecode tag_fuel fuel s q = some (t, q1) →
      t.spf = s.spf ∧ t.header_renders = s.header_renders ∧ 1 ≤ t.packetno ∧
      t.linear = s.linear ∧ t.samples_per_sec = s.samples_per_sec := by
  induction fuel with
  | zero => intro s t q q1 _ h; simp [mp3_process_loop] at h
  | succ fuel ih =>
    intro s t q q1 hp h
    unfold mp3_process_loop at h
    cases hg : get_mp3_packet env tag_fuel s with
    | none => simp [hg] at h
    | some r =>
      obtain ⟨res, s1⟩ := r
      obtain ⟨c1, c2, c3, c4, _, _⟩ := get_mp3_packet_counters env tag_fuel s s1 res hg
      obtain ⟨c4a, c4b⟩ := c4 (by omega)
      cases res with
      | none =>
        simp only [hg, Option.some.injEq, Prod.mk.injEq] at h
        obtain ⟨rfl, _⟩ := h
        exact ⟨c4a, c4b, by omega, c2, c3⟩
      | some ph =>
        obtain ⟨packet, hdr⟩ := ph
        simp only [hg] at h
        obtain ⟨e1, e2, e3, e4, e5⟩ := ih _ t _ q1
          (by show 1 ≤ s1.packetno + 1; omega) h
        exact ⟨e1.trans c4a, e2.trans c4b, e3, e4.trans c2, e5.trans c3⟩

theorem byte_buffer_add_counters (s : mp3_packetizer_c G) (data : List byte) (size : Int) :
    (byte_buffer_add s data size).packetno = s.packetno ∧
    (byte_buffer_add s data size).spf = s.spf ∧
    (byte_buffer_add s data size).header_renders = s.header_renders ∧
    (byte_buffer_add s data size).linear = s.linear ∧
    (byte_buffer_add s data size).samples_per_sec = s.samples_per_sec :=
  ⟨rfl, rfl, rfl, rfl, rfl⟩

/-- No `process` call after the first packet asks for the track headers again. -/
theorem mp3_process_all_later (env : mp3_env G) (disp : G → Int) (tag_fuel fuel : Nat)
    (calls : List (List byte × Int)) :
    ∀ (s t : mp3_packetizer_c G) (q q1 : List mp3_packet_t), 1 ≤ s.packetno →
      mp3_process_all env disp tag_fuel fuel s q calls = some (t, q1) →
      t.header_renders = s.header_renders ∧ t.spf = s.spf ∧ 1 ≤ t.packetno := by
  induction calls with
  | nil =>
    intro s t q q1 hp h
    simp only [mp3_process_all, Option.some.injEq, Prod.mk.injEq] at h
    obtain ⟨rfl, _⟩ := h
    exact ⟨rfl, rfl, hp⟩
  | cons c cs ih =>
    intro s t q q1 hp h
    unfold mp3_process_all mp3_process at h
    cases hl : mp3_process_loop env disp c.2 tag_fuel fuel
        (byte_buffer_add s c.1 c.1.length) q with
    | none => simp [hl] at h
    | some r =>
      obtain ⟨s1, q2⟩ := r
      simp only [hl] at h
      obtain ⟨e1, e2, e3, _, _⟩ := mp3_process_loop_later env disp c.2 tag_fuel fuel
        (byte_buffer_add s c.1 c.1.length) s1 q q2 hp hl
      obtain ⟨f1, f2, f3⟩ := ih s1 t q2 q1 e3 h
      exact ⟨f1.trans e2, f2.trans e1, f3⟩

/-- A round of the loop of `process` appends to the queue. -/
theorem mp3_process_loop_queue (env : mp3_env G) (disp : G → Int) (timecode : Int)
    (tag_fuel fuel : Nat) :
    ∀ (s t : mp3_packetizer_c G) (q q1 : List mp3_packet_t),
      mp3_process_loop env disp timecode tag_fuel fuel s q = some (t, q1) →
      ∃ new, q1 = q ++ new ∧ t.packetno = s.packetno + (new.length : Int) := by
  induction fuel with
  | zero => intro s t q q1 h; simp [mp3_process_loop] at h
  | succ fuel ih =>
    intro s t q q1 h
    unfold mp3_process_loop at h
    cases hg : get_mp3_packet env tag_fuel s with
    | none => simp [hg] at h
    | some r =>
      obtain ⟨res, s1⟩ := r
      obtain ⟨c1, _⟩ := get_mp3_packet_counters env tag_fuel s s1 res hg
      cases res with
      | none =>
        simp only [hg, Option.some.injEq, Prod.mk.injEq] at h
        obtain ⟨rfl, rfl⟩ := h
        exact ⟨[], by simp, by simp [c1]⟩
      | some ph =>
        obtain ⟨packet, hdr⟩ := ph
        simp only [hg] at h
        obtain ⟨new, h1, h2⟩ := ih _ t _ q1 h
        refine ⟨_ :: new, by rw [h1, List.append_assoc]; rfl, ?_⟩
        rw [h2]
        show s1.packetno + 1 + _ = _
        rw [c1]
        simp only [List.length_cons]
        push_cast
        ring

/-- A `process` call entered with `packetno = 0` that hands over at least one
packet asks for the track headers exactly once. -/
theorem mp3_process_loop_first (env : mp3_env G) (disp : G → Int) (timecode : Int)
    (tag_fuel fuel : Nat) (s t : mp3_packetizer_c G) (q q1 : List mp3_packet_t)
    (hp : s.packetno = 0)
    (h : mp3_process_loop env disp timecode tag_fuel fuel s q = some (t, q1))
    (hne : q1 ≠ q) :
    t.header_renders = s.header_renders + 1 ∧ 1 ≤ t.packetno := by
  cases fuel with
  | zero => simp [mp3_process_loop] at h
  | succ fuel =>
    unfold mp3_process_loop at h
    cases hg : get_mp3_packet env tag_fuel s with
    | none => simp [hg] at h
    | some r =>
      obtain ⟨res, s1⟩ := r
      obtain ⟨c1, _, _, _, c5, _⟩ := get_mp3_packet_counters env tag_fuel s s1 res hg
      cases res with
      | none =>
        simp only [hg, Option.some.injEq, Prod.mk.injEq] at h
        exact absurd h.2.symm hne
      | some ph =>
        obtain ⟨packet, hdr⟩ := ph
        simp only [hg] at h
        obtain ⟨e1, e2, e3, _, _⟩ := mp3_process_loop_later env disp timecode tag_fuel fuel
          _ t _ q1 (by show 1 ≤ s1.packetno + 1; omega) h
        exact ⟨e2.trans (c5 hp rfl), e3⟩

/-- A sequence of `process` calls appends to the queue, and `packetno` counts
the packets appended. -/
theorem mp3_process_all_queue (env : mp3_env G) (disp : G → Int) (tag_fuel fuel : Nat)
    (calls : List (List byte × Int)) :
    ∀ (s t : mp3_packetizer_c G) (q q1 : List mp3_packet_t),
      mp3_process_all env disp tag_fuel fuel s q calls = some (t, q1) →
      ∃ new, q1 = q ++ new ∧ t.packetno = s.packetno + (new.length : Int) := by
  induction calls with
  | nil =>
    intro s t q q1 h
    simp only [mp3_process_all, Option.some.injEq, Prod.mk.injEq] at h
    obtain ⟨rfl, rfl⟩ := h
    exact ⟨[], by simp, by simp⟩
  | cons c cs ih =>
    intro s t q q1 h
    unfold mp3_process_all mp3_process at h
    cases hl : mp3_process_loop env disp c.2 tag_fuel fuel
        (byte_buffer_add s c.1 c.1.length) q with
    | none => simp [hl] at h
    | some r =>
      obtain ⟨s1, q2⟩ := r
      simp only [hl] at h
      obtain ⟨new1, a1, a2⟩ := mp3_process_loop_queue env disp c.2 tag_fuel fuel
        (byte_buffer_add s c.1 c.1.length) s1 q q2 hl
      obtain ⟨new2, b1, b2⟩ := ih s1 t q2 q1 h
      refine ⟨new1 ++ new2, by rw [b1, a1, List.append_assoc], ?_⟩
      rw [b2, a2, List.length_append]
      show s.packetno + _ + _ = _
      push_cast
      ring

/-- C13 (amended). Header emission happens exactly once over a sequence of
`process` calls that hands over a packet, provided no call before the first
packet reaches the first-packet block of `get_mp3_packet` (line 160) and then
returns without a packet.  From a state with `packetno = 0`: when the calls
`pre` hand over no packet and invoke `rerender_track_headers` not at all, and
the next call hands over `N >= 1` packets, `rerender_track_headers` is invoked
exactly once in that call and in no `process` call after it, whatever the
stream and the displacement. -/
theorem header_emitted_once (env : mp3_env G) (disp : G → Int) (tag_fuel fuel : Nat)
    (s s0 s1 t : mp3_packetizer_c G) (q q1 q2 : List mp3_packet_t)
    (data : List byte) (timecode rc : Int) (pre calls : List (List byte × Int))
    (hp : s.packetno = 0)
    (hpre : mp3_process_all env disp tag_fuel fuel s q pre = some (s0, q))
    (hquiet : s0.header_renders = s.header_renders)
    (hfirst : mp3_process env disp tag_fuel fuel s0 q data data.length timecode =
      some (s1, q1, rc))
    (hN : q.length < q1.length)
    (hrest : mp3_process_all env disp tag_fuel fuel s1 q1 calls = some (t, q2)) :
    s1.header_renders = s.header_renders + 1 ∧ t.header_renders = s.header_renders + 1 := by
  obtain ⟨new, hnew, hpk⟩ := mp3_process_all_queue env disp tag_fuel fuel pre s s0 q q hpre
  have hnil : new = [] := by
    have := congrArg List.length hnew
    rw [List.length_append] at this
    exact List.length_eq_zero.mp (by omega)
  have hp0 : s0.packetno = 0 := by rw [hpk, hnil, hp]; rfl
  unfold mp3_process at hfirst
  cases hl : mp3_process_loop env disp timecode tag_fuel fuel
      (byte_buffer_add s0 data data.length) q with
  | none => simp [hl] at hfirst
  | some r =>
    obtain ⟨s1', q1'⟩ := r
    simp only [hl, Option.some.injEq, Prod.mk.injEq] at hfirst
    obtain ⟨rfl, rfl, _⟩ := hfirst
    obtain ⟨e1, e2⟩ := mp3_process_loop_first env disp timecode tag_fuel fuel
      (byte_buffer_add s0 data data.length) s1' q q1' hp0 hl
      (fun h => by rw [h] at hN; omega)
    have e1' : s1'.header_renders = s.header_renders + 1 := by
      rw [e1]
      show s0.header_renders + 1 = _
      rw [hquiet]
    obtain ⟨f1, _, _⟩ := mp3_process_all_later env disp tag_fuel fuel calls s1' t q1' q2 e2 hrest
    exact ⟨e1', f1.trans e1'⟩

/-- C13, counterexample. Four frames with the same parameters and two frames to
drop for a negative displacement: the first two `process` calls each drop a
frame and return, the third hands over two packets; `rerender_track_headers`
has then been invoked three times. -/
theorem header_emitted_counterexample :
    (mp3_process_all sample_env_early id 1 5 (sample_packetizer [] (-2)) []
      [([255, 251, 6, 0, 1, 1, 255, 251, 5, 0, 2, 255, 251, 4, 0, 255, 251, 4, 0], -1),
       ([], -1), ([], -1)]).map
        (fun r => (r.1.header_renders, r.1.packetno, r.2.map (fun p => p.data))) =
      some (3, 2, [[255, 251, 4, 0], [255, 251, 4, 0]]) := by
  decide

end mp3

section mp3
variable {G : Type}

/-- The duration of lines 246-247 at speed ratio 1 is the exact integer part as
long as `10^9 * spf` is below 2^53. -/
theorem mp3_duration_exact (t : mp3_packetizer_c G) (hlin : t.linear = 1) (hspf : 0 ≤ t.spf)
    (hb : 1000000000 * t.spf < 2 ^ 53)
    (hs1 : 1 ≤ t.samples_per_sec) (hs2 : t.samples_per_sec < 2 ^ 53) :
    mp3_duration t = mp3_nominal_duration t.spf t.samples_per_sec := by
  obtain ⟨n, hn⟩ := Int.eq_ofNat_of_zero_le hspf
  have hbn : 1000000000 * n < 2 ^ 53 := by
    rw [hn] at hb
    exact_mod_cast hb
  have e1 : to_double ((t.spf : ℚ)) = (n : ℚ) := by
    rw [hn]
    have := to_double_natCast n (by omega)
    exact_mod_cast this
  have e2 : to_double (1000000000 * (n : ℚ)) = ((1000000000 * n : Nat) : ℚ) := by
    have := to_double_natCast (1000000000 * n) hbn
    exact_mod_cast this
  have e3 : to_double (((1000000000 * n : Nat) : ℚ) * 1) = ((1000000000 * n : Nat) : ℚ) := by
    rw [mul_one]
    exact to_double_natCast _ hbn
  have e4 : to_double ((t.samples_per_sec : ℚ)) = (t.samples_per_sec : ℚ) :=
    to_double_natCast _ hs2
  unfold mp3_duration mp3_nominal_duration double_mul double_div
  rw [hlin, e1, e2, e3, e4, c_int_to_double_div _ _ hbn hs1, hn]
  congr 1
  push_cast
  ring

/-- The timestamp of line 240 is the exact integer part as long as
`10^9 * packetno * spf` is below 2^53. -/
theorem mp3_packetno_timecode_exact (spf packetno : Int) (sps : Nat)
    (hspf : 0 ≤ spf) (hpk : 0 ≤ packetno) (hb : 1000000000 * packetno * spf < 2 ^ 53)
    (hs1 : 1 ≤ sps) (hs2 : sps < 2 ^ 53) :
    mp3_packetno_timecode spf sps packetno = mp3_nominal_timecode spf sps packetno ∧
    0 ≤ mp3_nominal_timecode spf sps packetno ∧
    mp3_nominal_timecode spf sps packetno < 2 ^ 53 := by
  obtain ⟨n, rfl⟩ := Int.eq_ofNat_of_zero_le hspf
  obtain ⟨j, rfl⟩ := Int.eq_ofNat_of_zero_le hpk
  have hbn : 1000000000 * j * n < 2 ^ 53 := by exact_mod_cast hb
  have hnom : mp3_nominal_timecode (n : Int) sps (j : Int) =
      ((1000000000 * j * n / sps : Nat) : Int) := by
    unfold mp3_nominal_timecode
    rw [← floor_natCast_div _ _ hs1]
    congr 1
    push_cast
    ring
  have hrange : 0 ≤ mp3_nominal_timecode (n : Int) sps (j : Int) ∧
      mp3_nominal_timecode (n : Int) sps (j : Int) < 2 ^ 53 := by
    rw [hnom]
    have : 1000000000 * j * n / sps < 2 ^ 53 := lt_of_le_of_lt (Nat.div_le_self _ _) hbn
    exact ⟨by positivity, by exact_mod_cast this⟩
  refine ⟨?_, hrange⟩
  by_cases hz : j = 0 ∨ n = 0
  · have hprod : 1000000000 * j * n = 0 := by
      rcases hz with h | h <;> rw [h] <;> simp
    rw [hnom, hprod]
    unfold mp3_packetno_timecode double_mul double_div
    rcases hz with h | h
    · subst h
      simp [to_double_zero, c_int]
    · subst h
      simp [to_double_zero, c_int]
  · have hj : 1 ≤ j := Nat.one_le_iff_ne_zero.mpr (fun h => hz (Or.inl h))
    have hn : 1 ≤ n := Nat.one_le_iff_ne_zero.mpr (fun h => hz (Or.inr h))
    have hjn : 1000000000 * j ≤ 1000000000 * j * n := Nat.le_mul_of_pos_right _ hn
    have hnn : n ≤ 1000000000 * j * n := by
      have : 1 * n ≤ (1000000000 * j) * n := Nat.mul_le_mul_right n (by omega)
      omega
    have e1 : to_double (((j : Int) : ℚ)) = (j : ℚ) := by
      have := to_double_natCast j (by omega)
      exact_mod_cast this
    have e2 : to_double (1000000000 * (j : ℚ)) = ((1000000000 * j : Nat) : ℚ) := by
      have := to_double_natCast (1000000000 * j) (by omega)
      exact_mod_cast this
    have e3 : to_double (((n : Int) : ℚ)) = (n : ℚ) := by
      have := to_double_natCast n (by omega)
      exact_mod_cast this
    have e4 : to_double (((1000000000 * j : Nat) : ℚ) * (n : ℚ)) =
        ((1000000000 * j * n : Nat) : ℚ) := by
      have := to_double_natCast (1000000000 * j * n) hbn
      rw [← this]
      congr 1
      push_cast
      ring
    have e5 : to_double ((sps : ℚ)) = (sps : ℚ) := to_double_natCast _ hs2
    unfold mp3_packetno_timecode double_mul double_div
    rw [e1, e2, e3, e4, e5, c_int_to_double_div _ _ hbn hs1, hnom, floor_natCast_div _ _ hs1]

/-- The timestamp of line 240 is the exact integer part when the operands and
the two products are exact doubles and the quotient, as a fraction `a / b`, has
a numerator below 2^53. -/
theorem mp3_packetno_timecode_exact_of (spf packetno : Int) (sps a b : Nat)
    (h1 : to_double ((packetno : ℚ)) = (packetno : ℚ))
    (h2 : to_double (1000000000 * (packetno : ℚ)) = 1000000000 * (packetno : ℚ))
    (h3 : to_double ((spf : ℚ)) = (spf : ℚ))
    (h4 : to_double (1000000000 * (packetno : ℚ) * (spf : ℚ)) =
      1000000000 * (packetno : ℚ) * (spf : ℚ))
    (h5 : to_double ((sps : ℚ)) = (sps : ℚ))
    (hb : 1 ≤ b) (ha : a < 2 ^ 53)
    (hq : 1000000000 * (packetno : ℚ) * (spf : ℚ) / (sps : ℚ) = (a : ℚ) / (b : ℚ)) :
    mp3_packetno_timecode spf sps packetno = mp3_nominal_timecode spf sps packetno ∧
    0 ≤ mp3_nominal_timecode spf sps packetno ∧
    mp3_nominal_timecode spf sps packetno < 2 ^ 53 := by
  have hnom : mp3_nominal_timecode spf sps packetno = ((a / b : Nat) : Int) := by
    unfold mp3_nominal_timecode
    rw [hq, floor_natCast_div _ _ hb]
  have hlt : a / b < 2 ^ 53 := lt_of_le_of_lt (Nat.div_le_self _ _) ha
  refine ⟨?_, by rw [hnom]; positivity, by rw [hnom]; exact_mod_cast hlt⟩
  rw [hnom]
  unfold mp3_packetno_timecode double_mul double_div
  rw [h1, h2, h3, h4, h5, hq, c_int_to_double_div _ _ ha hb, floor_natCast_div _ _ hb]

/-- Line 243 at speed ratio 1 leaves a timecode that is an exact double as it
is. -/
theorem mp3_linear_one_exact_of (z : Int) (hz : to_double ((z : ℚ)) = (z : ℚ)) :
    c_int (double_mul (to_double ((z : Int) : ℚ)) 1) = z := by
  unfold double_mul
  rw [hz, mul_one, hz, c_int_intCast]

/-- Line 243 at speed ratio 1 leaves a timecode below 2^53 in absolute value as
it is. -/
theorem mp3_linear_one_exact (z : Int) (hz : |z| < 2 ^ 53) :
    c_int (double_mul (to_double ((z : Int) : ℚ)) 1) = z := by
  unfold double_mul
  rw [to_double_intCast z hz, mul_one, to_double_intCast z hz, c_int_intCast]

/-- The packets that one run of the loop of `process` hands over: every duration
is that of the final `spf`, the `i`-th new packet has the timestamp computed
from `packetno + i` when the call has no timecode, and the one computed from
the call's timecode plus the displacement otherwise. -/
theorem mp3_process_loop_packets (env : mp3_env G) (disp : G → Int) (timecode : Int)
    (tag_fuel fuel : Nat) :
    ∀ (s t : mp3_packetizer_c G) (q q1 : List mp3_packet_t), 0 ≤ s.packetno →
      mp3_process_loop env disp timecode tag_fuel fuel s q = some (t, q1) →
      ∃ new, q1 = q ++ new ∧ t.packetno = s.packetno + (new.length : Int) ∧
        t.samples_per_sec = s.samples_per_sec ∧ t.linear = s.linear ∧
        (∀ p ∈ new,
          p.duration = mp3_duration t ∧
          (timecode ≠ -1 → p.timecode =
            c_int (double_mul (to_double ((timecode + p.displacement : Int) : ℚ)) t.linear))) ∧
        (timecode = -1 → new.map (fun p => p.timecode) =
          (List.range new.length).map (fun (i : Nat) =>
            c_int (double_mul (to_double
              ((mp3_packetno_timecode t.spf t.samples_per_sec (s.packetno + (i : Int)) : Int) : ℚ))
              t.linear))) := by
  induction fuel with
  | zero => intro s t q q1 _ h; simp [mp3_process_loop] at h
  | succ fuel ih =>
    intro s t q q1 hp h
    unfold mp3_process_loop at h
    cases hg : get_mp3_packet env tag_fuel s with
    | none => simp [hg] at h
    | some r =>
      obtain ⟨res, s1⟩ := r
      obtain ⟨c1, c2, c3, _, _, _⟩ := get_mp3_packet_counters env tag_fuel s s1 res hg
      cases res with
      | none =>
        simp only [hg, Option.some.injEq, Prod.mk.injEq] at h
        obtain ⟨rfl, rfl⟩ := h
        refine ⟨[], by simp, by simp [c1], c3, c2, ?_, ?_⟩
        · intro p hp'; simp at hp'
        · intro _; rfl
      | some ph =>
        obtain ⟨packet, hdr⟩ := ph
        simp only [hg] at h
        obtain ⟨new, h1, h2, h3, h3b, h4, h5⟩ := ih _ t _ q1
          (by show 0 ≤ s1.packetno + 1; omega) h
        obtain ⟨e1, _, _, e4, e5⟩ := mp3_process_loop_later env disp timecode tag_fuel fuel
          _ t _ q1 (by show 1 ≤ s1.packetno + 1; omega) h
        have hspf : t.spf = s1.spf := e1
        have hsps : t.samples_per_sec = s1.samples_per_sec := e5
        have hlin : t.linear = s1.linear := e4
        have hdur : mp3_duration s1 = mp3_duration t := by
          unfold mp3_duration
          rw [hspf, hsps, hlin]
        have htc : mp3_timecode s1 timecode (disp s1.base) =
            c_int (double_mul (to_double
              (((if timecode = -1 then
                  mp3_packetno_timecode t.spf t.samples_per_sec (s.packetno + ((0 : Nat) : Int))
                else timecode + disp s1.base) : Int) : ℚ)) t.linear) := by
          unfold mp3_timecode
          simp only []
          rw [c1, hspf, hsps, hlin]
          simp
        refine ⟨_ :: new, by rw [h1, List.append_assoc]; rfl, ?_, h3.trans c3, h3b.trans c2,
          ?_, ?_⟩
        · rw [h2]
          show s1.packetno + 1 + _ = _
          rw [c1]
          simp only [List.length_cons]
          push_cast
          ring
        · intro p hp'
          rcases List.mem_cons.mp hp' with rfl | hp'
          · refine ⟨hdur, fun hne => ?_⟩
            show mp3_timecode s1 timecode (disp s1.base) = _
            rw [htc, if_neg hne]
          · exact h4 p hp'
        · intro hm
          rw [List.map_cons, List.length_cons, List.range_succ_eq_map, List.map_cons,
            List.map_map, h5 hm]
          refine congrArg₂ _ ?_ ?_
          · show mp3_timecode s1 timecode (disp s1.base) = _
            rw [htc, if_pos hm]
          · apply List.map_congr_left
            intro i _
            show c_int (double_mul (to_double ((mp3_packetno_timecode _ _
              (s1.packetno + 1 + (i : Int)) : Int) : ℚ)) _) = _
            rw [c1]
            simp only [Function.comp, Nat.succ_eq_add_one]
            have : s.packetno + 1 + (i : Int) = s.packetno + ((i + 1 : Nat) : Int) := by
              push_cast
              ring
            rw [this]

/-- C15 (amended). In `process` of the MPEG audio packetizer (entered with
`packetno >= 0`; `spf >= 0` when the call ends; a sampling rate of at least 1
and below 2^53) `packetno` grows by exactly 1 with each packet handed over, and
every packet gets the duration and the timestamp that lines 239-247 compute in
`double` arithmetic, the timestamp from `packetno` (the number of packets handed
over before it) when the timecode of the call is `-1` and from the timecode of
the call plus the displacement otherwise.  With speed ratio `linear = 1` the
duration is `floor(10^9 * spf / samples_per_sec)` as long as `10^9 * spf` is
below 2^53; the timestamp is `floor(10^9 * packetno * spf / samples_per_sec)`
as long as `packetno`, `spf`, `10^9 * packetno` and `10^9 * packetno * spf` are
exact doubles and the quotient is a fraction with a numerator below 2^53, in
particular as long as `10^9 * packetno * spf` is below 2^53; and a given
timecode plus the displacement is passed on unchanged as long as it is an exact
double, in particular as long as its absolute value is below 2^53. -/
theorem mp3_packet_times (env : mp3_env G) (disp : G → Int) (tag_fuel fuel : Nat)
    (s t : mp3_packetizer_c G) (q q1 : List mp3_packet_t) (data : List byte)
    (size timecode rc : Int)
    (hp : 0 ≤ s.packetno)
    (hrun : mp3_process env disp tag_fuel fuel s q data size timecode = some (t, q1, rc))
    (hspf : 0 ≤ t.spf)
    (hsps : 1 ≤ t.samples_per_sec ∧ t.samples_per_sec < 2 ^ 53) :
    ∃ new, q1 = q ++ new ∧ t.packetno = s.packetno + (new.length : Int) ∧
      (∀ p ∈ new, p.duration = mp3_duration t) ∧
      (timecode = -1 → new.map (fun p => p.timecode) =
        (List.range new.length).map (fun (i : Nat) =>
          c_int (double_mul (to_double
            ((mp3_packetno_timecode t.spf t.samples_per_sec (s.packetno + (i : Int)) : Int) : ℚ))
            t.linear))) ∧
      (timecode ≠ -1 → ∀ p ∈ new, p.timecode =
        c_int (double_mul (to_double ((timecode + p.displacement : Int) : ℚ)) t.linear)) ∧
      (s.linear = 1 →
        (1000000000 * t.spf < 2 ^ 53 →
          ∀ p ∈ new, p.duration = mp3_nominal_duration t.spf t.samples_per_sec) ∧
        (timecode = -1 → ∀ (i : Nat) (p : mp3_packet_t), new[i]? = some p →
          1000000000 * (s.packetno + (i : Int)) * t.spf < 2 ^ 53 →
          p.timecode = mp3_nominal_timecode t.spf t.samples_per_sec (s.packetno + (i : Int))) ∧
        (timecode = -1 → ∀ (i : Nat) (p : mp3_packet_t) (a b : Nat), new[i]? = some p →
          to_double (((s.packetno + (i : Int) : Int) : ℚ)) = ((s.packetno + (i : Int) : Int) : ℚ) →
          to_double (1000000000 * ((s.packetno + (i : Int) : Int) : ℚ)) =
            1000000000 * ((s.packetno + (i : Int) : Int) : ℚ) →
          to_double ((t.spf : ℚ)) = (t.spf : ℚ) →
          to_double (1000000000 * ((s.packetno + (i : Int) : Int) : ℚ) * (t.spf : ℚ)) =
            1000000000 * ((s.packetno + (i : Int) : Int) : ℚ) * (t.spf : ℚ) →
          1 ≤ b → a < 2 ^ 53 →
          1000000000 * ((s.packetno + (i : Int) : Int) : ℚ) * (t.spf : ℚ) /
            (t.samples_per_sec : ℚ) = (a : ℚ) / (b : ℚ) →
          p.timecode = mp3_nominal_timecode t.spf t.samples_per_sec (s.packetno + (i : Int))) ∧
        (timecode ≠ -1 → ∀ p ∈ new,
          (|timecode + p.displacement| < 2 ^ 53 ∨
            to_double (((timecode + p.displacement : Int) : ℚ)) =
              ((timecode + p.displacement : Int) : ℚ)) →
          p.timecode = timecode + p.displacement)) := by
  unfold mp3_process at hrun
  cases hl : mp3_process_loop env disp timecode tag_fuel fuel
      (byte_buffer_add s data size) q with
  | none => simp [hl] at hrun
  | some r =>
    obtain ⟨s1, q2⟩ := r
    simp only [hl, Option.some.injEq, Prod.mk.injEq] at hrun
    obtain ⟨rfl, rfl, _⟩ := hrun
    obtain ⟨new, h1, h2, _, h3b, h4, h5⟩ := mp3_process_loop_packets env disp timecode
      tag_fuel fuel (byte_buffer_add s data size) s1 q q2 hp hl
    have hpk : (byte_buffer_add s data size).packetno = s.packetno := rfl
    have hlin0 : s1.linear = s.linear := h3b
    rw [hpk] at h2 h5
    refine ⟨new, h1, h2, fun p hp' => (h4 p hp').1, h5, fun hne p hp' => (h4 p hp').2 hne, ?_⟩
    intro hone
    have hlin : s1.linear = 1 := hlin0.trans hone
    have hidx : ∀ (i : Nat) (p : mp3_packet_t), timecode = -1 → new[i]? = some p →
        p.timecode = c_int (double_mul (to_double
          ((mp3_packetno_timecode s1.spf s1.samples_per_sec (s.packetno + (i : Int)) : Int) : ℚ))
          1) := by
      intro i p hm hi
      have hmap := congrArg (fun l => l[i]?) (h5 hm)
      simp only [List.getElem?_map, hi, Option.map_some'] at hmap
      have hlt : i < new.length := by
        by_contra hge
        rw [List.getElem?_eq_none (by omega)] at hi
        exact absurd hi (by simp)
      rw [List.getElem?_range hlt] at hmap
      simp only [Option.map_some', Option.some.injEq] at hmap
      rw [hmap, hlin]
    refine ⟨?_, ?_, ?_, ?_⟩
    · intro hb p hp'
      rw [(h4 p hp').1]
      exact mp3_duration_exact s1 hlin hspf hb hsps.1 hsps.2
    · intro hm i p hi hb
      obtain ⟨x1, x2, x3⟩ := mp3_packetno_timecode_exact s1.spf (s.packetno + (i : Int))
        s1.samples_per_sec hspf (by omega) hb hsps.1 hsps.2
      rw [hidx i p hm hi, x1]
      exact mp3_linear_one_exact _ (by rw [abs_of_nonneg x2]; exact x3)
    · intro hm i p a b hi e1 e2 e3 e4 hb ha hq
      obtain ⟨x1, x2, x3⟩ := mp3_packetno_timecode_exact_of s1.spf (s.packetno + (i : Int))
        s1.samples_per_sec a b e1 e2 e3 e4 (to_double_natCast _ hsps.2) hb ha hq
      rw [hidx i p hm hi, x1]
      exact mp3_linear_one_exact _ (by rw [abs_of_nonneg x2]; exact x3)
    · intro hne p hp' hb
      rw [(h4 p hp').2 hne, hlin]
      rcases hb with hb | hb
      · exact mp3_linear_one_exact _ hb
      · exact mp3_linear_one_exact_of _ hb

/-- C16. `can_connect_to` returns `CAN_CONNECT_YES` if and only if the other
packetizer is an MPEG audio packetizer with the same `samples_per_sec` and the
same `channels`; it returns `CAN_CONNECT_NO_FORMAT` exactly when the other
packetizer is not an MPEG audio packetizer, and `CAN_CONNECT_NO_PARAMETERS`
exactly when it is one but the sample rate or the channel count differs;
between two MPEG audio packetizers joinability is symmetric. -/
theorem can_connect_to_outcomes (s : mp3_packetizer_c G) (src : generic_packetizer_c G) :
    (can_connect_to s src = .CAN_CONNECT_YES ↔
      ∃ p, src = .mp3_packetizer p ∧ s.samples_per_sec = p.samples_per_sec ∧
        s.channels = p.channels) ∧
    (can_connect_to s src = .CAN_CONNECT_NO_FORMAT ↔ ∀ p, src ≠ .mp3_packetizer p) ∧
    (can_connect_to s src = .CAN_CONNECT_NO_PARAMETERS ↔
      ∃ p, src = .mp3_packetizer p ∧
        (s.samples_per_sec ≠ p.samples_per_sec ∨ s.channels ≠ p.channels)) ∧
    (∀ a b : mp3_packetizer_c G,
      can_connect_to a (.mp3_packetizer b) = .CAN_CONNECT_YES ↔
        can_connect_to b (.mp3_packetizer a) = .CAN_CONNECT_YES) := by
  have key : ∀ (a b : mp3_packetizer_c G),
      can_connect_to a (.mp3_packetizer b) = .CAN_CONNECT_YES ↔
        (a.samples_per_sec = b.samples_per_sec ∧ a.channels = b.channels) := by
    intro a b
    unfold can_connect_to dynamic_cast_mp3
    simp only
    split_ifs with h
    · constructor
      · intro h'; cases h'
      · rintro ⟨h1, h2⟩
        rcases h with h | h
        · exact absurd h1 h
        · exact absurd h2 h
    · simp only [true_iff]
      constructor
      · by_contra h1; exact h (Or.inl h1)
      · by_contra h2; exact h (Or.inr h2)
  refine ⟨?_, ?_, ?_, ?_⟩
  · cases src with
    | other_packetizer =>
      constructor
      · intro h; simp [can_connect_to, dynamic_cast_mp3] at h
      · rintro ⟨p, hp, _⟩; cases hp
    | mp3_packetizer b =>
      rw [key]
      constructor
      · intro h; exact ⟨b, rfl, h⟩
      · rintro ⟨p, hp, h⟩
        cases hp
        exact h
  · cases src with
    | other_packetizer =>
      constructor
      · intro _ p hp; cases hp
      · intro _; rfl
    | mp3_packetizer b =>
      constructor
      · intro h
        unfold can_connect_to dynamic_cast_mp3 at h
        simp only at h
        split_ifs at h
      · intro h; exact absurd rfl (h b)
  · cases src with
    | other_packetizer =>
      constructor
      · intro h; simp [can_connect_to, dynamic_cast_mp3] at h
      · rintro ⟨p, hp, _⟩; cases hp
    | mp3_packetizer b =>
      unfold can_connect_to dynamic_cast_mp3
      simp only
      constructor
      · intro h
        split_ifs at h with hc
        exact ⟨b, rfl, hc⟩
      · rintro ⟨p, hp, h⟩
        cases hp
        rw [if_pos h]
  · intro a b
    rw [key, key]
    constructor
    · rintro ⟨h1, h2⟩; exact ⟨h1.symm, h2.symm⟩
    · rintro ⟨h1, h2⟩; exact ⟨h1.symm, h2.symm⟩

end mp3

/-- C11 (failing input). With `sample_env_tags` a tag frame (`84, 65, 71`, then its size 6) sits
at offset 4, behind a lone header at 0 that is not followed by a header at
`0 + 8`, and is followed at once by a header at 10: `get_mp3_packet` returns the
6 bytes of the tag as a packet, the header filled in for it having
`is_tag = true`.  In front of the buffer the same tag is removed by the first
loop and the frame behind it is returned. -/
theorem tag_returned_as_packet :
    (get_mp3_packet sample_env_tags 1
      (sample_packetizer
        [255, 251, 8, 0, 84, 65, 71, 6, 0, 0, 255, 251, 5, 0, 2, 255, 251, 4, 0] 0)).map
        (fun r => (r.1.map (fun p => (p.1, p.2.is_tag, p.2.framesize)), r.2.byte_buffer)) =
      some (some ([84, 65, 71, 6, 0, 0], true, 6), [255, 251, 5, 0, 2, 255, 251, 4, 0]) ∧
    (get_mp3_packet sample_env_tags 2
      (sample_packetizer [84, 65, 71, 6, 0, 0, 255, 251, 5, 0, 2, 255, 251, 4, 0, 0] 0)).map
        (fun r => (r.1.map (fun p => (p.1, p.2.is_tag, p.2.framesize)), r.2.byte_buffer)) =
      some (some ([255, 251, 5, 0, 2], false, 5), [255, 251, 4, 0, 0]) := by
  refine ⟨?_, ?_⟩ <;> decide

/-- C19 (failing input). In a buffer of 17 bytes the lone header at 0 announces 8 bytes, the
candidate found behind it, at 5, announces 200 bytes: the search after
re-decoding is issued for the window starting at 205 with length -188, outside
the buffer; the three searches before it lie inside. -/
theorem search_window_outside_buffer :
    (get_mp3_packet sample_env 1
      (sample_packetizer
        [255, 251, 8, 0, 9, 255, 251, 200, 0, 9, 9, 9, 255, 251, 4, 0, 0] 0)).map
        (fun r => r.2.searches) =
      some [(0, 17), (8, 9), (1, 16), (205, -188)] := by
  decide

/-! ### Examples for the drive steps -/

/-- C12, witness: 6 bytes with frames of 4 bytes and no displacement. -/
theorem drive_loop_drains_buffer_witness :
    (0 : Int) ≤ (ac3_packetizer_c.new 48000 2 0 0 1).displacement ∧
    ∃ r, process (constant_frames 4 1000) 3 (ac3_packetizer_c.new 48000 2 0 0 1)
        [1, 2, 3, 4, 5, 6] 6 0 = some r ∧
      located (constant_frames 4 1000) r.1 = none := by
  obtain ⟨r, hr⟩ := Option.isSome_iff_exists.mp
    (by decide : (process (constant_frames 4 1000) 3 (ac3_packetizer_c.new 48000 2 0 0 1)
      [1, 2, 3, 4, 5, 6] 6 0).isSome = true)
  exact ⟨by decide, r, hr, drive_loop_drains_buffer (constant_frames 4 1000) 3
    (ac3_packetizer_c.new 48000 2 0 0 1) [1, 2, 3, 4, 5, 6] 6 0 r (by decide) hr⟩

/-- C14, witness: two `process` calls, on 6 and on 3 bytes, with frames of 4
bytes, at speed ratio 1. -/
theorem ac3_timestamps_witness :
    (1 ≤ 48000 ∧ 48000 < 2 ^ 53) ∧
    ∃ t, process_all (constant_frames 4 1000) 3 (ac3_packetizer_c.new 48000 2 0 0 1)
        [([1, 2, 3, 4, 5, 6], 0), ([7, 8, 9], 1)] = some t ∧
      t.queue.length = 2 ∧
      t.queue.map (fun p => p.timecode) =
        (List.range t.queue.length).map (ac3_nominal_timecode 1 48000) := by
  obtain ⟨t, ht⟩ := Option.isSome_iff_exists.mp
    (by decide : (process_all (constant_frames 4 1000) 3 (ac3_packetizer_c.new 48000 2 0 0 1)
      [([1, 2, 3, 4, 5, 6], 0), ([7, 8, 9], 1)]).isSome = true)
  have hlen : (process_all (constant_frames 4 1000) 3 (ac3_packetizer_c.new 48000 2 0 0 1)
      [([1, 2, 3, 4, 5, 6], 0), ([7, 8, 9], 1)]).map (fun t => t.queue.length) = some 2 := by
    decide
  rw [ht] at hlen
  simp only [Option.map_some', Option.some.injEq] at hlen
  exact ⟨by norm_num, t, ht, hlen, ((ac3_timestamps (constant_frames 4 1000) 3 48000 2 0 0 1
    [([1, 2, 3, 4, 5, 6], 0), ([7, 8, 9], 1)] t (by norm_num) ht).2.2 rfl
      (by rw [hlen]; norm_num)).1⟩

/-- The timestamp of packet 25 at 48000 Hz with the speed ratio 0.96, as lines
212-213 compute it. -/
theorem ac3_timecode_at_0_96 : ac3_timecode_at double_0_96 48000 25 = 768 := by
  have e1 : to_double (((25 : Int) : ℚ)) = 25 := by
    have := to_double_natCast 25 (by norm_num)
    exact_mod_cast this
  have e2 : to_double ((1000 : ℚ) * 25) = 25000 := by
    have := to_double_natCast 25000 (by norm_num)
    norm_num at this ⊢
    exact this
  have e3 : to_double ((25000 : ℚ) * 1536) = 38400000 := by
    have := to_double_natCast 38400000 (by norm_num)
    norm_num at this ⊢
    exact this
  have e4 : to_double ((38400000 : ℚ) * double_0_96) = 36864000 := by
    have := to_double_eq ((38400000 : ℚ) * double_0_96) (-27) 4947802324992000
      (by norm_num [double_0_96, abs_of_pos])
      (by norm_num [double_0_96, abs_of_pos])
      (by
        rw [abs_lt]
        norm_num [double_0_96])
    rw [this]
    norm_num
  have e5 : to_double (((48000 : Nat) : ℚ)) = 48000 := by
    have := to_double_natCast 48000 (by norm_num)
    exact_mod_cast this
  have e6 : to_double ((36864000 : ℚ) / 48000) = 768 := by
    have := to_double_natCast 768 (by norm_num)
    norm_num at this ⊢
    exact this
  unfold ac3_timecode_at double_mul double_div
  rw [e1, e2, e3, e4, e5, e6]
  norm_num [c_int]

/-- C14, counterexample. At 48000 Hz with the speed ratio 0.96 (the `double`
nearest to it), 26 frames in one chunk: packet 25 carries the timestamp 768,
while `floor(1000 * 25 * 1536 * linear / 48000)` is 767. -/
theorem ac3_timestamps_counterexample :
    to_double (24 / 25) = double_0_96 ∧
    ∃ t, process_all (constant_frames 4 1000) 27
        (ac3_packetizer_c.new 48000 2 0 0 double_0_96) [(List.replicate 104 0, 0)] = some t ∧
      t.queue.length = 26 ∧
      (t.queue.map (fun p => p.timecode))[25]? = some 768 ∧
      ac3_nominal_timecode double_0_96 48000 25 = 767 := by
  refine ⟨?_, ?_⟩
  · have := to_double_eq (24 / 25) (-53) 8646911284551352
      (by norm_num [abs_of_pos])
      (by norm_num [abs_of_pos])
      (by
        rw [abs_lt]
        norm_num)
    rw [this]
    norm_num [double_0_96]
  · obtain ⟨t, ht⟩ := Option.isSome_iff_exists.mp
      (by decide : (process_all (constant_frames 4 1000) 27
        (ac3_packetizer_c.new 48000 2 0 0 double_0_96)
        [(List.replicate 104 0, 0)]).isSome = true)
    have hlen : (process_all (constant_frames 4 1000) 27
        (ac3_packetizer_c.new 48000 2 0 0 double_0_96)
        [(List.replicate 104 0, 0)]).map (fun t => t.queue.length) = some 26 := by
      decide
    rw [ht] at hlen
    simp only [Option.map_some', Option.some.injEq] at hlen
    have h := process_all_timecodes (constant_frames 4 1000) 27 [(List.replicate 104 0, 0)]
      (ac3_packetizer_c.new 48000 2 0 0 double_0_96) t rfl rfl ht
    have h' : t.queue.map (fun p => p.timecode) =
        (List.range t.queue.length).map
          (fun (i : Nat) => ac3_timecode_at double_0_96 48000 (i : Int)) := h
    refine ⟨t, ht, hlen, ?_, ?_⟩
    · rw [h', hlen, List.getElem?_map, List.getElem?_range (by norm_num)]
      simp only [Option.map_some', Option.some.injEq]
      exact ac3_timecode_at_0_96
    · unfold ac3_nominal_timecode
      rw [Int.floor_eq_iff]
      norm_num [double_0_96]

theorem constant_frames_durations :
    ∀ (b : List byte) (n : Int), 0 ≤ (constant_frames 128 32000 b n).1 →
      1 ≤ (constant_frames 128 32000 b n).2.bytes ∧
      1 ≤ pims (constant_frames 128 32000 b n).2 := by
  intro b n _
  have hp : pims { bytes := 128, bit_rate := 32000 } = 32 := by norm_num [pims]
  unfold constant_frames
  split_ifs <;> exact ⟨by decide, by rw [hp]; norm_num⟩

/-- C18, witness: frames of 128 bytes lasting 32 ms, a displacement of 64 ms and
128 bytes of input. -/
theorem drive_call_completes_witness :
    (∀ (b : List byte) (n : Int), 0 ≤ (constant_frames 128 32000 b n).1 →
      1 ≤ (constant_frames 128 32000 b n).2.bytes ∧
      1 ≤ pims (constant_frames 128 32000 b n).2) ∧
    (add_to_buffer (ac3_packetizer_c.new 48000 2 0 64 1) (List.replicate 128 0)
      128).isSome = true ∧
    ((ac3_packetizer_c.new 48000 2 0 64 1).displacement.toNat +
      ((ac3_packetizer_c.new 48000 2 0 64 1).buffer_size + 128).toNat < 200) ∧
    (process (constant_frames 128 32000) 200 (ac3_packetizer_c.new 48000 2 0 64 1)
      (List.replicate 128 0) 128 0).isSome = true :=
  ⟨constant_frames_durations, by decide, by decide,
    drive_call_completes (constant_frames 128 32000) (ac3_packetizer_c.new 48000 2 0 64 1)
      (List.replicate 128 0) 128 0 constant_frames_durations (by decide) 200 (by decide)⟩

/-- C20, witness: one frame of 32 ms and a displacement of -800 ms. -/
theorem sync_corrector_never_overshoots_witness :
    located (constant_frames 128 32000) (zero_filled 128 (-800)) =
      some (0, { bytes := 128, bit_rate := 32000 }) ∧
    (1 : ℚ) ≤ pims { bytes := 128, bit_rate := 32000 } ∧
    |(get_ac3_packet (constant_frames 128 32000) (zero_filled 128 (-800))).2.displacement| <
      |(zero_filled 128 (-800)).displacement| :=
  ⟨zero_filled_located 128 32000 128 (-800) (le_refl _), by rw [pims_128]; norm_num,
    (sync_corrector_never_overshoots (constant_frames 128 32000) (zero_filled 128 (-800))
      (0, { bytes := 128, bit_rate := 32000 })
      (zero_filled_located 128 32000 128 (-800) (le_refl _))
      (by rw [pims_128]; norm_num)).2 (by decide)⟩

/-- C13, witness: the first chunk ends inside the first frame, so the first call
returns before the first-packet block and hands over nothing; the second chunk
brings the rest of four frames. -/
theorem header_emitted_once_witness :
    (sample_packetizer [] 0).packetno = 0 ∧
    mp3_process_all sample_env id 1 5 (sample_packetizer [] 0) [] [([255, 251, 6, 0], -1)] =
      some ({ sample_packetizer [255, 251, 6, 0] 0 with searches := [(0, 4)] }, []) ∧
    ∃ (s1 : mp3_packetizer_c Int) (q1 : List mp3_packet_t) (rc : Int),
      mp3_process sample_env id 1 5
        { sample_packetizer [255, 251, 6, 0] 0 with searches := [(0, 4)] } []
        [1, 1, 255, 251, 5, 0, 2, 255, 251, 4, 0, 255, 251, 4, 0] 15 (-1) =
          some (s1, q1, rc) ∧
      q1.length = 4 ∧ s1.header_renders = 1 := by
  have hr0 : mp3_process_all sample_env id 1 5 (sample_packetizer [] 0) []
      [([255, 251, 6, 0], -1)] =
      some ({ sample_packetizer [255, 251, 6, 0] 0 with searches := [(0, 4)] }, []) := rfl
  obtain ⟨r1, hr1⟩ := Option.isSome_iff_exists.mp
    (by decide : (mp3_process sample_env id 1 5
      { sample_packetizer [255, 251, 6, 0] 0 with searches := [(0, 4)] } []
      [1, 1, 255, 251, 5, 0, 2, 255, 251, 4, 0, 255, 251, 4, 0] 15 (-1)).isSome = true)
  obtain ⟨s1, q1, rc⟩ := r1
  have hlen : (mp3_process sample_env id 1 5
      { sample_packetizer [255, 251, 6, 0] 0 with searches := [(0, 4)] } []
      [1, 1, 255, 251, 5, 0, 2, 255, 251, 4, 0, 255, 251, 4, 0] 15 (-1)).map
        (fun r => r.2.1.length) = some 4 := by decide
  rw [hr1] at hlen
  simp only [Option.map_some', Option.some.injEq] at hlen
  have h := header_emitted_once sample_env id 1 5 (sample_packetizer [] 0)
    { sample_packetizer [255, 251, 6, 0] 0 with searches := [(0, 4)] } s1 s1 [] q1 q1
    [1, 1, 255, 251, 5, 0, 2, 255, 251, 4, 0, 255, 251, 4, 0] (-1) rc
    [([255, 251, 6, 0], -1)] [] rfl hr0 rfl hr1 (by rw [hlen]; decide) rfl
  exact ⟨rfl, hr0, s1, q1, rc, hr1, hlen, h.1⟩

/-- C15, witness: four frames in one chunk, no timecode given. -/
theorem mp3_packet_times_witness :
    (0 : Int) ≤ (sample_packetizer [] 0).packetno ∧
    ∃ (t : mp3_packetizer_c Int) (q1 : List mp3_packet_t) (rc : Int),
      mp3_process sample_env id 1 5 (sample_packetizer [] 0) []
        [255, 251, 6, 0, 1, 1, 255, 251, 5, 0, 2, 255, 251, 4, 0, 255, 251, 4, 0] 19 (-1) =
          some (t, q1, rc) ∧
      0 ≤ t.spf ∧ (1 ≤ t.samples_per_sec ∧ t.samples_per_sec < 2 ^ 53) ∧
      t.packetno = (q1.length : Int) ∧ q1.length = 4 ∧
      ∀ (i : Nat) (p : mp3_packet_t), q1[i]? = some p →
        p.timecode = mp3_nominal_timecode t.spf t.samples_per_sec (i : Int) ∧
        p.duration = mp3_nominal_duration t.spf t.samples_per_sec := by
  obtain ⟨r, hr⟩ := Option.isSome_iff_exists.mp
    (by decide : (mp3_process sample_env id 1 5 (sample_packetizer [] 0) []
      [255, 251, 6, 0, 1, 1, 255, 251, 5, 0, 2, 255, 251, 4, 0, 255, 251, 4, 0] 19
      (-1)).isSome = true)
  obtain ⟨t, q1, rc⟩ := r
  have hfacts : (mp3_process sample_env id 1 5 (sample_packetizer [] 0) []
      [255, 251, 6, 0, 1, 1, 255, 251, 5, 0, 2, 255, 251, 4, 0, 255, 251, 4, 0] 19
      (-1)).map (fun r => (r.1.spf, r.1.samples_per_sec, r.2.1.length)) =
        some (1152, 44100, 4) := by decide
  rw [hr] at hfacts
  simp only [Option.map_some', Option.some.injEq, Prod.mk.injEq] at hfacts
  obtain ⟨hspf, hsps, hlen⟩ := hfacts
  have hnn : 0 ≤ t.spf := by rw [hspf]; decide
  have hs : 1 ≤ t.samples_per_sec ∧ t.samples_per_sec < 2 ^ 53 := by rw [hsps]; norm_num
  obtain ⟨new, h1, h2, _, _, _, h6⟩ := mp3_packet_times sample_env id 1 5
    (sample_packetizer [] 0) t [] q1
    [255, 251, 6, 0, 1, 1, 255, 251, 5, 0, 2, 255, 251, 4, 0, 255, 251, 4, 0] 19 (-1)
    rc (by decide) hr hnn hs
  rw [List.nil_append] at h1
  subst h1
  obtain ⟨g1, g2, _, _⟩ := h6 rfl
  refine ⟨by decide, t, _, rc, hr, hnn, hs, ?_, hlen, ?_⟩
  · rw [h2]
    show (0 : Int) + _ = _
    simp
  · intro i p hi
    have hlt : i < 4 := by
      by_contra hge
      rw [List.getElem?_eq_none (by omega)] at hi
      exact absurd hi (by simp)
    have hb : 1000000000 * ((sample_packetizer [] 0).packetno + (i : Int)) * t.spf < 2 ^ 53 := by
      rw [hspf]
      show 1000000000 * ((0 : Int) + (i : Int)) * 1152 < 2 ^ 53
      have : (i : Int) < 4 := by exact_mod_cast hlt
      omega
    have := g2 rfl i p hi hb
    refine ⟨?_, g1 (by rw [hspf]; norm_num) p (List.getElem?_mem hi)⟩
    rw [this]
    show mp3_nominal_timecode _ _ ((0 : Int) + (i : Int)) = _
    rw [zero_add]

/-- The timestamp of line 240 for packet 10775248 at 44100 Hz with 1152 samples
per frame. -/
theorem mp3_packetno_timecode_late :
    mp3_packetno_timecode 1152 44100 10775248 = 281475866122449 := by
  have e1 : to_double (((10775248 : Int) : ℚ)) = 10775248 := by
    have := to_double_natCast 10775248 (by norm_num)
    exact_mod_cast this
  have e2 : to_double ((1000000000 : ℚ) * 10775248) = 10775248000000000 := by
    have := to_double_repr 1315337890625 13 (by norm_num)
    norm_num at this ⊢
    exact this
  have e3 : to_double (((1152 : Int) : ℚ)) = 1152 := by
    have := to_double_natCast 1152 (by norm_num)
    exact_mod_cast this
  have e4 : to_double ((10775248000000000 : ℚ) * 1152) = 12413085696000000000 := by
    have := to_double_repr 11838041015625 20 (by norm_num)
    norm_num at this ⊢
    exact this
  have e5 : to_double (((44100 : Nat) : ℚ)) = 44100 := by
    have := to_double_natCast 44100 (by norm_num)
    exact_mod_cast this
  have e6 : to_double ((12413085696000000000 : ℚ) / 44100) = 281475866122449 := by
    have := to_double_eq ((12413085696000000000 : ℚ) / 44100) (-4) 4503613857959184
      (by norm_num [abs_of_pos])
      (by norm_num [abs_of_pos])
      (by
        rw [abs_lt]
        norm_num)
    rw [this]
    norm_num
  unfold mp3_packetno_timecode double_mul double_div
  rw [e1, e2, e3, e4, e5, e6]
  norm_num [c_int]

/-- The conversion of line 243 rounds 2^53 + 1 to 2^53. -/
theorem mp3_linear_one_rounds :
    c_int (double_mul (to_double (((9007199254740993 : Int) : ℚ))) 1) = 9007199254740992 := by
  have e1 : to_double (((9007199254740993 : Int) : ℚ)) = 9007199254740992 := by
    have := to_double_of_round 9007199254740993 1 4503599627370496 (by norm_num) (by norm_num)
      (by
        have := round_even_tie 4503599627370496 (by decide)
        rw [← this]
        congr 1
        norm_num)
    norm_num at this ⊢
    exact this
  have e2 : to_double ((9007199254740992 : ℚ) * 1) = 9007199254740992 := by
    have := to_double_repr 1 53 (by norm_num)
    norm_num at this ⊢
    exact this
  unfold double_mul
  rw [e1, e2]
  norm_num [c_int]


/-- An instance beyond `10^9 * packetno * spf < 2^53`: at 44100 Hz with 1152
samples per frame the timestamp of packet 7000000 is the exact integer part. -/
theorem mp3_packetno_timecode_example :
    mp3_packetno_timecode 1152 44100 7000000 = mp3_nominal_timecode 1152 44100 7000000 := by
  refine (mp3_packetno_timecode_exact_of 1152 7000000 44100 8960000000000000 49
    ?_ ?_ ?_ ?_ ?_ (by norm_num) (by norm_num) (by norm_num)).1
  · have := to_double_natCast 7000000 (by norm_num)
    exact_mod_cast this
  · have := to_double_repr 213623046875 15 (by norm_num)
    norm_num at this ⊢
    exact this
  · have := to_double_natCast 1152 (by norm_num)
    exact_mod_cast this
  · have := to_double_repr 1922607421875 22 (by norm_num)
    norm_num at this ⊢
    exact this
  · have := to_double_natCast 44100 (by norm_num)
    exact_mod_cast this

/-- C15, counterexample. At 44100 Hz with 1152 samples per frame and speed ratio
1, the packet handed over as number 10775248 gets the timestamp
281475866122449, while `floor(10^9 * 10775248 * 1152 / 44100)` is
281475866122448; and a packet handed over with the timecode 2^53 + 1 and a
displacement of 0 gets the timestamp 2^53. -/
theorem mp3_packet_times_counterexample :
    (∃ (t : mp3_packetizer_c Int) (q1 : List mp3_packet_t) (rc : Int),
      mp3_process sample_env id 1 2 (sample_packetizer_at [] 10775248) []
        [255, 251, 4, 0] 4 (-1) = some (t, q1, rc) ∧
      (sample_packetizer_at [] 10775248).linear = 1 ∧ t.spf = 1152 ∧
      t.samples_per_sec = 44100 ∧
      q1.map (fun p => p.timecode) = [281475866122449] ∧
      mp3_nominal_timecode 1152 44100 10775248 = 281475866122448) ∧
    (∃ (t : mp3_packetizer_c Int) (q1 : List mp3_packet_t) (rc : Int),
      mp3_process sample_env id 1 2 (sample_packetizer_at [] 1) []
        [255, 251, 4, 0] 4 9007199254740993 = some (t, q1, rc) ∧
      (sample_packetizer_at [] 1).linear = 1 ∧
      q1.map (fun p => (p.timecode, p.displacement)) = [(9007199254740992, 0)]) := by
  refine ⟨?_, ?_⟩
  · obtain ⟨r, hr⟩ := Option.isSome_iff_exists.mp
      (by decide : (mp3_process sample_env id 1 2 (sample_packetizer_at [] 10775248) []
        [255, 251, 4, 0] 4 (-1)).isSome = true)
    obtain ⟨t, q1, rc⟩ := r
    have hfacts : (mp3_process sample_env id 1 2 (sample_packetizer_at [] 10775248) []
        [255, 251, 4, 0] 4 (-1)).map (fun r => (r.1.spf, r.1.samples_per_sec, r.2.1.length)) =
          some (1152, 44100, 1) := by decide
    rw [hr] at hfacts
    simp only [Option.map_some', Option.some.injEq, Prod.mk.injEq] at hfacts
    obtain ⟨hspf, hsps, hlen⟩ := hfacts
    refine ⟨t, q1, rc, hr, rfl, hspf, hsps, ?_, ?_⟩
    · unfold mp3_process at hr
      cases hl : mp3_process_loop sample_env id (-1) 1 2
          (byte_buffer_add (sample_packetizer_at [] 10775248) [255, 251, 4, 0] 4) [] with
      | none => simp [hl] at hr
      | some r =>
        obtain ⟨s1, q2⟩ := r
        simp only [hl, Option.some.injEq, Prod.mk.injEq] at hr
        obtain ⟨rfl, rfl, _⟩ := hr
        obtain ⟨new, h1, _, _, h3b, _, h5⟩ := mp3_process_loop_packets sample_env id (-1) 1 2
          (byte_buffer_add (sample_packetizer_at [] 10775248) [255, 251, 4, 0] 4) s1 [] q2
          (by decide) hl
        rw [List.nil_append] at h1
        subst h1
        have hlin : s1.linear = 1 := h3b
        have h5' := h5 rfl
        rw [hlen, hspf, hsps, hlin] at h5'
        rw [h5']
        simp only [List.range_succ, List.range_zero, List.nil_append, List.map_cons,
          List.map_nil, Nat.cast_zero, add_zero]
        show [c_int (double_mul (to_double
          ((mp3_packetno_timecode 1152 44100 10775248 : Int) : ℚ)) 1)] = _
        rw [mp3_packetno_timecode_late, mp3_linear_one_exact _ (by norm_num)]
    · unfold mp3_nominal_timecode
      rw [Int.floor_eq_iff]
      norm_num
  · obtain ⟨r, hr⟩ := Option.isSome_iff_exists.mp
      (by decide : (mp3_process sample_env id 1 2 (sample_packetizer_at [] 1) []
        [255, 251, 4, 0] 4 9007199254740993).isSome = true)
    obtain ⟨t, q1, rc⟩ := r
    have hfacts : (mp3_process sample_env id 1 2 (sample_packetizer_at [] 1) []
        [255, 251, 4, 0] 4 9007199254740993).map (fun r => r.2.1.map (fun p => p.displacement)) =
          some [0] := by decide
    rw [hr] at hfacts
    simp only [Option.map_some', Option.some.injEq] at hfacts
    refine ⟨t, q1, rc, hr, rfl, ?_⟩
    unfold mp3_process at hr
    cases hl : mp3_process_loop sample_env id 9007199254740993 1 2
        (byte_buffer_add (sample_packetizer_at [] 1) [255, 251, 4, 0] 4) [] with
    | none => simp [hl] at hr
    | some r =>
      obtain ⟨s1, q2⟩ := r
      simp only [hl, Option.some.injEq, Prod.mk.injEq] at hr
      obtain ⟨rfl, rfl, _⟩ := hr
      obtain ⟨new, h1, _, _, h3b, h4, _⟩ := mp3_process_loop_packets sample_env id
        9007199254740993 1 2
        (byte_buffer_add (sample_packetizer_at [] 1) [255, 251, 4, 0] 4) s1 [] q2
        (by decide) hl
      rw [List.nil_append] at h1
      rw [h1] at hfacts ⊢
      have hlin : s1.linear = 1 := h3b
      obtain ⟨p, hp1, hp2⟩ : ∃ p, new = [p] ∧ p.displacement = 0 := by
        cases new with
        | nil => simp at hfacts
        | cons p rest =>
          cases rest with
          | nil =>
            simp only [List.map_cons, List.map_nil, List.cons.injEq, and_true] at hfacts
            exact ⟨p, rfl, hfacts⟩
          | cons _ _ => simp at hfacts
      subst hp1
      have := (h4 p (List.mem_singleton.mpr rfl)).2 (by decide)
      rw [hp2, hlin] at this
      simp only [List.map_cons, List.map_nil, List.cons.injEq, and_true, Prod.mk.injEq]
      refine ⟨?_, hp2⟩
      rw [this]
      exact mp3_linear_one_rounds

end Mkv
